import Mathlib

/-!
# Hardware bring-up layer of the teaching kernel (`src/os1/k-hardware.cc`)

Shallow embedding of the descriptor encoders, the gate-rewriting and mapping
loops of the bring-up, the physical-address classification, the PCI
enumerator, the keyboard driver, the program loader, the symbol lookup, the
backtrace cursor and the static-initialisation guard, followed by the
theorems that settle the specification's claims about them.

Conventions of the embedding:
* `uintptr_t`/`uint64_t` values are natural numbers; an operation that can
  leave the 64-bit range is reduced `% 2 ^ 64` where the source operates on
  64-bit words.
* `int` parameters are integers; the casts `unsigned(x)` and `uint64_t(x)`
  are the functions `unsigned` and `uint64_t` below.
* `assert(c)` that fails never returns (`assert_fail` ends in `fail()`), so a
  function with an assertion returns `Option`/an outcome type.
* A load through a pointer reads a memory `Nat → Option Nat`; `none` is an
  address that is not mapped, where the load faults.
* Threads are interleaved at the grain of the atomic operations on the shared
  object: a state holds where each thread stands, a schedule is a list naming
  the thread that executes next.
-/

namespace K

/-! ## Constants of `kernel.hh` -/

def KERNEL_START_ADDR : Nat := 0x40000
def KERNEL_STACK_TOP : Nat := 0x80000
def MEMSIZE_PHYSICAL : Nat := 0x200000
def SEGSEL_KERN_CODE : Nat := 0x8

/-- Modelled from the spec: the macro `X86SEG_P` lives in `x86-64.h`, which is
not among the sources; the spec places the present bit of a descriptor at
bit 47. -/
def X86SEG_P : Nat := 0x800000000000

/-- Modelled from the spec: `PAGESIZE` lives in `x86-64.h`, which is not among
the sources; the spec gives one page as 4096 bytes. -/
def PAGESIZE : Nat := 4096

/-- The C++ conversion `unsigned(x)` of an `int`. -/
def unsigned (x : Int) : Nat := (x % 2 ^ 32).toNat

/-- The C++ conversion `uint64_t(x)` of an `int`. -/
def uint64_t (x : Int) : Nat := (x % 2 ^ 64).toNat

/-! ## Descriptor encoders (`set_gate`) -/

structure x86_64_gatedescriptor where
  gd_low : Nat
  gd_high : Nat
deriving DecidableEq, Repr

/-- `set_gate(gate, addr, type, dpl, ist)`; `none` when the assertion fails
(the descriptor is then not written). -/
def set_gate (_gate : x86_64_gatedescriptor) (addr : Nat) (type dpl ist : Int) :
    Option x86_64_gatedescriptor :=
  if unsigned type < 16 ∧ unsigned dpl < 4 ∧ unsigned ist < 8 then
    some
      { gd_low :=
          (addr &&& 0x000000000000FFFF)
            ||| (SEGSEL_KERN_CODE <<< 16)
            ||| ((uint64_t ist <<< 32) % 2 ^ 64)
            ||| ((uint64_t type <<< 40) % 2 ^ 64)
            ||| ((uint64_t dpl <<< 45) % 2 ^ 64)
            ||| X86SEG_P
            ||| ((addr &&& 0x00000000FFFF0000) <<< 32) % 2 ^ 64
        gd_high := addr >>> 32 }
  else none

/-! ## Page-table validation (`check_pagetable`, `set_pagetable`) -/

/-- Modelled from the spec: `PAGEOFFMASK` lives in `x86-64.h`, which is not
among the sources; it masks the offset of an address inside its page. -/
def PAGEOFFMASK : Nat := PAGESIZE - 1

/-- The part of the processor state that `set_pagetable` touches: the paging
root register `%cr3`, and the sequence of values `wrcr3` has stored in it. -/
structure cpu_state where
  cr3 : Nat
  cr3_writes : List Nat
deriving DecidableEq, Repr

/-- How a kernel routine ends: it returns, or an assertion fires and the
kernel enters `fail()`; both carry the processor state reached. -/
inductive outcome where
  | returned (s : cpu_state)
  | assertion_failed (s : cpu_state)
deriving DecidableEq, Repr

/-- The instruction wrapper `wrcr3(x)`. -/
def wrcr3 (s : cpu_state) (x : Nat) : cpu_state :=
  { cr3 := x, cr3_writes := s.cr3_writes ++ [x] }

/-- `check_pagetable(pagetable)`. The walk `vmiter(pt, va).pa()` comes from
`k-vmiter.hh`, which is not among the sources, and is the parameter
`vmiter_pa pt va`; `exception_entry` and `kernel_pagetable` are the addresses
of those symbols. -/
def check_pagetable (vmiter_pa : Nat → Nat → Nat) (exception_entry kernel_pagetable : Nat)
    (s : cpu_state) (pagetable : Nat) : outcome :=
  if pagetable &&& PAGEOFFMASK ≠ 0 then outcome.assertion_failed s
  else if vmiter_pa pagetable exception_entry ≠ exception_entry then outcome.assertion_failed s
  else if vmiter_pa kernel_pagetable pagetable ≠ pagetable then outcome.assertion_failed s
  else if vmiter_pa pagetable kernel_pagetable ≠ kernel_pagetable then
    outcome.assertion_failed s
  else outcome.returned s

/-- `set_pagetable(pagetable)`. -/
def set_pagetable (vmiter_pa : Nat → Nat → Nat) (exception_entry kernel_pagetable : Nat)
    (s : cpu_state) (pagetable : Nat) : outcome :=
  match check_pagetable vmiter_pa exception_entry kernel_pagetable s pagetable with
  | outcome.assertion_failed s1 => outcome.assertion_failed s1
  | outcome.returned s1 => outcome.returned (wrcr3 s1 pagetable)

/-! ## Physical-address classification -/

def IOPHYSMEM : Nat := 0x000A0000
def EXTPHYSMEM : Nat := 0x00100000

/-- Modelled from the spec: `round_down` lives in `lib.hh`, which is not among
the sources; the largest multiple of `m` that is at most `x`. -/
def round_down (x m : Nat) : Nat := x - x % m

/-- Modelled from the spec: `round_up` lives in `lib.hh`, which is not among
the sources; `x` rounded up to a multiple of `m`, computed on 64-bit words. -/
def round_up (x m : Nat) : Nat := round_down ((x + m - 1) % 2 ^ 64) m

/-- `reserved_physical_address(pa)`. -/
def reserved_physical_address (pa : Nat) : Bool :=
  decide (pa < PAGESIZE) || (decide (pa ≥ IOPHYSMEM) && decide (pa < EXTPHYSMEM))

/-- `allocatable_physical_address(pa)`; `_kernel_end` is the address of the
linker symbol of that name. -/
def allocatable_physical_address (_kernel_end : Nat) (pa : Nat) : Bool :=
  !reserved_physical_address pa
    && (decide (pa < KERNEL_START_ADDR) || decide (pa ≥ round_up _kernel_end PAGESIZE))
    && (decide (pa < KERNEL_STACK_TOP - PAGESIZE) || decide (pa ≥ KERNEL_STACK_TOP))
    && decide (pa < MEMSIZE_PHYSICAL)

/-! ## Keyboard driver (`keyboard_readc`) -/

def MOD_SHIFT : Nat := 1 <<< 0
def MOD_CONTROL : Nat := 1 <<< 1
def MOD_CAPSLOCK : Nat := 1 <<< 3

def KEY_SHIFT : Nat := 0o372
def KEY_CONTROL : Nat := 0o373
def KEY_ALT : Nat := 0o374
def KEY_CAPSLOCK : Nat := 0o375
def KEY_NUMLOCK : Nat := 0o376
def KEY_SCROLLLOCK : Nat := 0o377

def KEY_UP : Nat := 0o300
def KEY_RIGHT : Nat := 0o301
def KEY_DOWN : Nat := 0o302
def KEY_LEFT : Nat := 0o303
def KEY_HOME : Nat := 0o304
def KEY_END : Nat := 0o305
def KEY_PAGEUP : Nat := 0o306
def KEY_PAGEDOWN : Nat := 0o307
def KEY_INSERT : Nat := 0o310
def KEY_DELETE : Nat := 0o311

def CKEY (cn : Nat) : Nat := 0x80 + cn

/-- The table `keymap[256]`, eight entries per line. Characters are given by
their ASCII codes; the comment above a line names the printable ones. -/
def keymap : List Nat := [
  -- 0x00
  0, 0o33, CKEY 0, CKEY 1, CKEY 2, CKEY 3, CKEY 4, CKEY 5,
  -- 0x08: 8=chr8 9=chr9
  CKEY 6, CKEY 7, CKEY 8, CKEY 9, CKEY 10, CKEY 11, 8, 9,
  -- 0x10: 113=q 119=w 101=e 114=r 116=t 121=y 117=u 105=i
  113, 119, 101, 114, 116, 121, 117, 105,
  -- 0x18: 111=o 112=p 97=a 115=s
  111, 112, CKEY 12, CKEY 13, CKEY 14, KEY_CONTROL, 97, 115,
  -- 0x20: 100=d 102=f 103=g 104=h 106=j 107=k 108=l
  100, 102, 103, 104, 106, 107, 108, CKEY 15,
  -- 0x28: 122=z 120=x 99=c 118=v
  CKEY 16, CKEY 17, KEY_SHIFT, CKEY 18, 122, 120, 99, 118,
  -- 0x30: 98=b 110=n 109=m 42=chr42
  98, 110, 109, CKEY 19, CKEY 20, CKEY 21, KEY_SHIFT, 42,
  -- 0x38: 32=chr32
  KEY_ALT, 32, KEY_CAPSLOCK, 0, 0, 0, 0, 0,
  -- 0x40: 55=7
  0, 0, 0, 0, 0, KEY_NUMLOCK, KEY_SCROLLLOCK, 55,
  -- 0x48: 56=8 57=9 45=chr45 52=4 53=5 54=6 43=chr43 49=1
  56, 57, 45, 52, 53, 54, 43, 49,
  -- 0x50: 50=2 51=3 48=0 46=chr46
  50, 51, 48, 46, 0, 0, 0, 0,
  -- 0x58
  0, 0, 0, 0, 0, 0, 0, 0,
  -- 0x60
  0, 0, 0, 0, 0, 0, 0, 0,
  -- 0x68
  0, 0, 0, 0, 0, 0, 0, 0,
  -- 0x70
  0, 0, 0, 0, 0, 0, 0, 0,
  -- 0x78
  0, 0, 0, 0, 0, 0, 0, 0,
  -- 0x80
  0, 0, 0, 0, 0, 0, 0, 0,
  -- 0x88
  0, 0, 0, 0, 0, 0, 0, 0,
  -- 0x90
  0, 0, 0, 0, 0, 0, 0, 0,
  -- 0x98
  0, 0, 0, 0, CKEY 14, KEY_CONTROL, 0, 0,
  -- 0xA0
  0, 0, 0, 0, 0, 0, 0, 0,
  -- 0xA8
  0, 0, 0, 0, 0, 0, 0, 0,
  -- 0xB0: 47=chr47
  0, 0, 0, 0, 0, 47, 0, 0,
  -- 0xB8
  KEY_ALT, 0, 0, 0, 0, 0, 0, 0,
  -- 0xC0
  0, 0, 0, 0, 0, 0, 0, KEY_HOME,
  -- 0xC8
  KEY_UP, KEY_PAGEUP, 0, KEY_LEFT, 0, KEY_RIGHT, 0, KEY_END,
  -- 0xD0
  KEY_DOWN, KEY_PAGEDOWN, KEY_INSERT, KEY_DELETE, 0, 0, 0, 0,
  -- 0xD8
  0, 0, 0, 0, 0, 0, 0, 0,
  -- 0xE0
  0, 0, 0, 0, 0, 0, 0, 0,
  -- 0xE8
  0, 0, 0, 0, 0, 0, 0, 0,
  -- 0xF0
  0, 0, 0, 0, 0, 0, 0, 0,
  -- 0xF8
  0, 0, 0, 0, 0, 0, 0, 0
]

/-- The table `complex_keymap[]`: one row `map[4]` per `CKEY(n)`, in the
order `CKEY(0)` to `CKEY(21)`; characters are given by their ASCII codes. -/
def complex_keymap : List (List Nat) := [
  [49, 33, 0, 0], [50, 64, 0, 0],
  [51, 35, 0, 0], [52, 36, 0, 0],
  [53, 37, 0, 0], [54, 94, 0, 0o36],
  [55, 38, 0, 0], [56, 42, 0, 0],
  [57, 40, 0, 0], [48, 41, 0, 0],
  [45, 95, 0, 0o37], [61, 43, 0, 0],
  [91, 123, 0o33, 0], [93, 125, 0o35, 0],
  [10, 10, 13, 13],
  [59, 58, 0, 0],
  [39, 34, 0, 0], [96, 126, 0, 0],
  [92, 124, 0o34, 0], [44, 60, 0, 0],
  [46, 62, 0, 0], [47, 63, 0, 0]
]

/-- The two `static` variables of `keyboard_readc`. -/
structure keyboard_state where
  modifiers : Nat
  last_escape : Nat
deriving DecidableEq, Repr

/-- `keyboard_readc()`. The keyboard controller is the argument `port`:
`none` when the status register does not report data ready, `some d` when
it does and the data register then reads `d` (kept as a byte, as in
`uint8_t data = inb(...)`). Letters are `97 ≤ ch ≤ 122` (`a` to `z`).
Returns the value returned and the new values of the static variables. -/
def keyboard_readc (s : keyboard_state) (port : Option Nat) : Int × keyboard_state :=
  match port with
  | none => (-1, s)
  | some d =>
    let data := d % 256
    let escape := s.last_escape
    if data = 0xE0 then
      (0, { modifiers := s.modifiers, last_escape := 0x80 })
    else if data &&& 0x80 ≠ 0 then
      let ch := keymap.getD ((data &&& 0x7F) ||| escape) 0
      if ch ≥ KEY_SHIFT ∧ ch < KEY_CAPSLOCK then
        (0, { modifiers := (s.modifiers &&& (0xFFFFFFFF ^^^ (1 <<< (ch - KEY_SHIFT)))) % 256,
              last_escape := 0 })
      else
        (0, { modifiers := s.modifiers, last_escape := 0 })
    else
      let ch := keymap.getD (data ||| escape) 0
      if ch ≥ 97 ∧ ch ≤ 122 then
        if s.modifiers &&& MOD_CONTROL ≠ 0 then
          (((ch - 0x60 : Nat) : Int), { modifiers := s.modifiers, last_escape := 0 })
        else if (decide (s.modifiers &&& MOD_SHIFT = 0)
            != decide (s.modifiers &&& MOD_CAPSLOCK = 0)) = true then
          (((ch - 0x20 : Nat) : Int), { modifiers := s.modifiers, last_escape := 0 })
        else
          ((ch : Int), { modifiers := s.modifiers, last_escape := 0 })
      else if ch ≥ KEY_CAPSLOCK then
        (0, { modifiers := (s.modifiers ^^^ (1 <<< (ch - KEY_SHIFT))) % 256, last_escape := 0 })
      else if ch ≥ KEY_SHIFT then
        (0, { modifiers := (s.modifiers ||| (1 <<< (ch - KEY_SHIFT))) % 256, last_escape := 0 })
      else if ch ≥ CKEY 0 ∧ ch ≤ CKEY 21 then
        ((((complex_keymap.getD (ch - CKEY 0) []).getD (s.modifiers &&& 3) 0 : Nat) : Int),
          { modifiers := s.modifiers, last_escape := 0 })
      else if ch < 0x80 ∧ s.modifiers &&& MOD_CONTROL ≠ 0 then
        (0, { modifiers := s.modifiers, last_escape := 0 })
      else
        ((ch : Int), { modifiers := s.modifiers, last_escape := 0 })

/-- Successive polls of `keyboard_readc`, one per element of the list: the
values returned, in order, and the final state. -/
def keyboard_polls (s : keyboard_state) : List (Option Nat) → List Int × keyboard_state
  | [] => ([], s)
  | p :: ps =>
    let r := keyboard_readc s p
    let rest := keyboard_polls r.2 ps
    (r.1 :: rest.1, rest.2)

/-! ## Static-initialisation guard (`__cxa_guard_acquire`, `__cxa_guard_release`) -/

/-- The loop `while (true)` of `__cxa_guard_acquire` run by one thread with no
other thread touching the guard byte `g`; `none` when the loop is still
spinning after `fuel` iterations. Returns the value returned and the guard
byte. -/
def guard_acquire_loop : Nat → Nat → Option (Int × Nat)
  | 0, _ => none
  | fuel + 1, g =>
    let old_value := g
    let g1 := 1
    if old_value = 2 then
      some (0, 2)
    else if old_value = 1 then
      guard_acquire_loop fuel g1
    else
      some (1, g1)

/-- `__cxa_guard_acquire(guard)` run by one thread on the guard byte `g`. -/
def __cxa_guard_acquire (fuel : Nat) (g : Nat) : Option (Int × Nat) :=
  if g = 2 then some (0, g) else guard_acquire_loop fuel g

/-- `__cxa_guard_release(guard)`: the guard byte afterwards. -/
def __cxa_guard_release (_g : Nat) : Nat := 2

/-- The guard byte after `n` further calls of `__cxa_guard_acquire` and the
values they returned; `none` if one of them does not return. -/
def guard_acquires (fuel : Nat) : Nat → Nat → Option (List Int × Nat)
  | 0, g => some ([], g)
  | n + 1, g =>
    match __cxa_guard_acquire fuel g with
    | none => none
    | some (r, g1) =>
      match guard_acquires fuel n g1 with
      | none => none
      | some (rs, g2) => some (r :: rs, g2)

/-! ## Program loader (`program_loader`) -/

/-- The fields of `struct elf_program` (declared in `elf.h`) that the loader
reads. -/
structure elf_program where
  p_type : Nat
  p_flags : Nat
  p_offset : Nat
  p_va : Nat
  p_filesz : Nat
  p_memsz : Nat
deriving DecidableEq, Repr

/-- An ELF image resident in memory: `addr` is the address of its first byte
(the value of the pointer `elf_`), `e_magic`, `e_entry`, `e_phoff` are fields
of its `elf_header`, and `phdrs` is the array of `e_phnum` program headers
stored at `addr + e_phoff`. -/
structure elf_image where
  addr : Nat
  e_magic : Nat
  e_entry : Nat
  e_phoff : Nat
  phdrs : List elf_program
deriving DecidableEq, Repr

/-- The data members of `struct program_loader`. The pointer `elf_` is `none`
when null. The pointers `ph_` and `endph_` are `none` when null and `some i`
when they point at element `i` of the program-header array of the image
(`i = e_phnum` is the one-past-the-end pointer). -/
structure program_loader where
  elf_ : Option elf_image
  ph_ : Option Nat
  endph_ : Option Nat
deriving DecidableEq, Repr

/-- The program-header array that `ph_` points into. -/
def program_loader.headers (pl : program_loader) : List elf_program :=
  match pl.elf_ with
  | some img => img.phdrs
  | none => []

/-- The loop of `program_loader::fix()` started with `ph_ = ph`; the result is
the final `ph_`. `none` when the loop reads outside the program-header array
or is still running after `fuel` tests of its condition. `ELF_PTYPE_LOAD` is
declared in `elf.h`, which is not among the sources, and is a parameter. -/
def fix_loop (ELF_PTYPE_LOAD : Nat) (H : List elf_program) (endph : Option Nat) :
    Nat → Option Nat → Option (Option Nat)
  | _, none => some none
  | 0, some _ => none
  | fuel + 1, some i =>
    if some i = endph then some (some i)
    else
      match H[i]? with
      | none => none
      | some p =>
        if p.p_type ≠ ELF_PTYPE_LOAD then fix_loop ELF_PTYPE_LOAD H endph fuel (some (i + 1))
        else some (some i)

/-- `program_loader::fix()`. -/
def program_loader.fix (ELF_PTYPE_LOAD : Nat) (pl : program_loader) : Option program_loader :=
  match fix_loop ELF_PTYPE_LOAD pl.headers pl.endph_ (pl.headers.length + 1) pl.ph_ with
  | none => none
  | some ph => some { elf_ := pl.elf_, ph_ := ph, endph_ := pl.endph_ }

/-- The program header `*ph_`; `none` when `ph_` is null or points outside the
program-header array. -/
def program_loader.deref (pl : program_loader) : Option elf_program :=
  match pl.ph_ with
  | none => none
  | some i => pl.headers[i]?

/-- `program_loader::va()`; `none` when it dereferences an invalid `ph_`. -/
def program_loader.va (pl : program_loader) : Option Nat :=
  if pl.ph_ ≠ pl.endph_ then pl.deref.map (fun p => p.p_va) else some 0

/-- `program_loader::size()`. -/
def program_loader.size (pl : program_loader) : Option Nat :=
  if pl.ph_ ≠ pl.endph_ then pl.deref.map (fun p => p.p_memsz) else some 0

/-- `program_loader::data()`, a pointer; the null pointer is 0. -/
def program_loader.data (pl : program_loader) : Option Nat :=
  if pl.ph_ ≠ pl.endph_ then
    match pl.elf_, pl.deref with
    | some img, some p => some (img.addr + p.p_offset)
    | _, _ => none
  else some 0

/-- `program_loader::data_size()`. -/
def program_loader.data_size (pl : program_loader) : Option Nat :=
  if pl.ph_ ≠ pl.endph_ then pl.deref.map (fun p => p.p_filesz) else some 0

/-- `program_loader::present()`. -/
def program_loader.present (pl : program_loader) : Bool :=
  decide (pl.ph_ ≠ pl.endph_)

/-- `program_loader::writable()`. `ELF_PFLAG_WRITE` is declared in `elf.h`,
which is not among the sources, and is a parameter. -/
def program_loader.writable (ELF_PFLAG_WRITE : Nat) (pl : program_loader) : Option Bool :=
  if pl.ph_ ≠ pl.endph_ then pl.deref.map (fun p => decide (p.p_flags &&& ELF_PFLAG_WRITE ≠ 0))
  else some false

/-- `program_loader::entry()`. -/
def program_loader.entry (pl : program_loader) : Nat :=
  match pl.elf_ with
  | some img => img.e_entry
  | none => 0

/-- `program_loader::operator++()`. -/
def program_loader.operator_inc (ELF_PTYPE_LOAD : Nat) (pl : program_loader) :
    Option program_loader :=
  if pl.ph_ ≠ pl.endph_ then
    match pl.ph_ with
    | none => none
    | some i =>
      program_loader.fix ELF_PTYPE_LOAD { elf_ := pl.elf_, ph_ := some (i + 1), endph_ := pl.endph_ }
  else some pl

/-- `program_loader::reset()`; `none` when the assertion on the magic number
fails. `ELF_MAGIC` is declared in `elf.h`, which is not among the sources,
and is a parameter. -/
def program_loader.reset (ELF_MAGIC ELF_PTYPE_LOAD : Nat) (pl : program_loader) :
    Option program_loader :=
  match pl.elf_ with
  | some img =>
    if img.e_magic ≠ ELF_MAGIC then none
    else
      program_loader.fix ELF_PTYPE_LOAD
        { elf_ := some img, ph_ := some 0, endph_ := some (0 + img.phdrs.length) }
  | none => some { elf_ := none, ph_ := none, endph_ := none }

/-- One entry of the catalog `ramimages[]`: its name and the image that its
`begin` pointer addresses. -/
structure ramimage where
  name : String
  begin : elf_image
deriving DecidableEq, Repr

/-- The constructor `program_loader::program_loader(int program_number)` over
the catalog `ramimages`; the members `ph_` and `endph_` are not initialised
before `reset()` runs, `ph0` and `endph0` are the values they happen to hold. -/
def program_loader.mk_number (ELF_MAGIC ELF_PTYPE_LOAD : Nat) (ramimages : List ramimage)
    (ph0 endph0 : Option Nat) (program_number : Int) : Option program_loader :=
  let elf_ : Option elf_image :=
    if program_number ≥ 0 ∧ program_number.toNat < ramimages.length then
      (ramimages[program_number.toNat]?).map (fun r => r.begin)
    else none
  program_loader.reset ELF_MAGIC ELF_PTYPE_LOAD { elf_ := elf_, ph_ := ph0, endph_ := endph0 }

/-- What the accessors report about the current segment. -/
structure segment where
  va : Nat
  size : Nat
  data : Nat
  data_size : Nat
  writable : Bool
deriving DecidableEq, Repr

/-- The five per-segment accessors read at the current position. -/
def program_loader.observe (ELF_PFLAG_WRITE : Nat) (pl : program_loader) : Option segment :=
  match pl.va, pl.size, pl.data, pl.data_size, pl.writable ELF_PFLAG_WRITE with
  | some v, some sz, some d, some ds, some w =>
    some { va := v, size := sz, data := d, data_size := ds, writable := w }
  | _, _, _, _, _ => none

/-- The client loop `for (; loader.present(); ++loader)` reading the accessors
at each position: the segments observed and the final cursor. `none` when a
step fails or the loop is still running after `fuel` segments. -/
def program_loader.segments (ELF_PTYPE_LOAD ELF_PFLAG_WRITE : Nat) :
    Nat → program_loader → Option (List segment × program_loader)
  | fuel, pl =>
    if pl.present = true then
      match fuel with
      | 0 => none
      | fuel1 + 1 =>
        match pl.observe ELF_PFLAG_WRITE, pl.operator_inc ELF_PTYPE_LOAD with
        | some sg, some pl1 =>
          match program_loader.segments ELF_PTYPE_LOAD ELF_PFLAG_WRITE fuel1 pl1 with
          | some (rest, fin) => some (sg :: rest, fin)
          | none => none
        | _, _ => none
    else some ([], pl)

/-- `n` applications of `operator++`. -/
def program_loader.advance (ELF_PTYPE_LOAD : Nat) : Nat → program_loader → Option program_loader
  | 0, pl => some pl
  | n + 1, pl =>
    match pl.operator_inc ELF_PTYPE_LOAD with
    | none => none
    | some pl1 => program_loader.advance ELF_PTYPE_LOAD n pl1

/-- The segment the claim expects for a loadable program header `p` of the
image `img`. -/
def segment_of (ELF_PFLAG_WRITE : Nat) (img : elf_image) (p : elf_program) : segment :=
  { va := p.p_va, size := p.p_memsz, data := img.addr + p.p_offset, data_size := p.p_filesz,
    writable := decide (p.p_flags &&& ELF_PFLAG_WRITE ≠ 0) }



/-- The cursor over `img` whose `ph_` points at program header `i`. -/
def cursor_at (img : elf_image) (i : Nat) : program_loader :=
  { elf_ := some img, ph_ := some i, endph_ := some img.phdrs.length }

/-- An image with a loadable writable segment, a non-loadable header and a
loadable read-only segment (with `ELF_PTYPE_LOAD = 1`, `ELF_PFLAG_WRITE = 2`). -/
def example_image : elf_image :=
  { addr := 0x50000, e_magic := 0x464C457F, e_entry := 0x100000, e_phoff := 64,
    phdrs :=
      [ { p_type := 1, p_flags := 6, p_offset := 0x1000, p_va := 0x100000, p_filesz := 0x200,
          p_memsz := 0x1000 },
        { p_type := 4, p_flags := 4, p_offset := 0x3000, p_va := 0, p_filesz := 0x20,
          p_memsz := 0x20 },
        { p_type := 1, p_flags := 5, p_offset := 0x2000, p_va := 0x101000, p_filesz := 0x300,
          p_memsz := 0x300 } ] }

/-! ## Symbol lookup (`lookup_symbol`) -/

def SYMTAB_ADDR : Nat := 0x1000000

/-- Modelled from the spec: the page-table flag `PTE_P` (present) lives in
`x86-64.h`, which is not among the sources; the value is the architecture's. -/
def PTE_P : Nat := 0x1

/-- Modelled from the spec: the page-table flag `PTE_W` (writable) lives in
`x86-64.h`, which is not among the sources; the value is the architecture's. -/
def PTE_W : Nat := 0x2

/-- Modelled from the spec: the page-table flag `PTE_PS` (huge page) lives in
`x86-64.h`, which is not among the sources; the value is the architecture's. -/
def PTE_PS : Nat := 0x80

/-- The fields of `struct elf_symbol` (declared in `elf.h`) that the lookup
reads. -/
structure elf_symbol where
  st_name : Nat
  st_value : Nat
  st_size : Nat
deriving DecidableEq, Repr

/-- The fields of `struct elf_symtabref` that the lookup reads: `sym i` is the
array element `symtab.sym[i]`, `strtab` is the address of the string table. -/
structure elf_symtabref where
  sym : Nat → elf_symbol
  nsym : Nat
  strtab : Nat

/-- The binary-search loop of `lookup_symbol` from the bounds `l`, `r`.
`some (some (name, start))` when it returns true having stored `name` and
`start`, `some none` when it returns false, `none` when it is still running
after `fuel` iterations. -/
def lookup_loop (symtab : elf_symtabref) (addr : Nat) :
    Nat → Nat → Nat → Option (Option (Nat × Nat))
  | fuel, l, r =>
    if l < r then
      match fuel with
      | 0 => none
      | fuel1 + 1 =>
        let m := l + ((r - l) >>> 1)
        let sym := symtab.sym m
        if sym.st_value ≤ addr
            ∧ (if sym.st_size ≠ 0 then addr < (sym.st_value + sym.st_size) % 2 ^ 64
               else m + 1 = symtab.nsym ∨ addr < (symtab.sym (m + 1)).st_value) then
          some (some (symtab.strtab + (symtab.sym m).st_name, (symtab.sym m).st_value))
        else if (symtab.sym m).st_value < addr then
          lookup_loop symtab addr fuel1 (m + 1) r
        else
          lookup_loop symtab addr fuel1 l m
    else some none

/-- `lookup_symbol(addr, name, start)`. `cr3` is the value `rdcr3()` reads,
`kernel_pagetable` the address of that array, and `pt_entry` the value of
`kernel_pagetable[2].entry[SYMTAB_ADDR / 0x200000]` on entry. Returns the
outcome of the search (see `lookup_loop`) and the value of that page-table
entry afterwards. -/
def lookup_symbol (cr3 kernel_pagetable pt_entry : Nat) (symtab : elf_symtabref)
    (addr : Nat) : Option (Option (Nat × Nat)) × Nat :=
  if cr3 ≠ kernel_pagetable then (some none, pt_entry)
  else
    let pt_entry1 :=
      if pt_entry = 0 then SYMTAB_ADDR ||| PTE_P ||| PTE_W ||| PTE_PS else pt_entry
    (lookup_loop symtab addr symtab.nsym 0 symtab.nsym, pt_entry1)

/-- A symbol table given by the list of its entries. -/
def symtab_of_list (syms : List elf_symbol) (strtab : Nat) : elf_symtabref :=
  { sym := fun i => syms.getD i ⟨0, 0, 0⟩, nsym := syms.length, strtab := strtab }

/-- A strictly address-sorted table in which the sized entry 1 (`[10, 110)`)
extends over the start of the zero-size last entry 2. -/
def overlapping_symbols : List elf_symbol :=
  [ { st_name := 0, st_value := 0, st_size := 0 },
    { st_name := 8, st_value := 10, st_size := 100 },
    { st_name := 16, st_value := 20, st_size := 0 } ]

/-- An address-sorted table of three zero-size entries with one start
address. -/
def duplicate_symbols : List elf_symbol :=
  [ { st_name := 0, st_value := 10, st_size := 0 },
    { st_name := 8, st_value := 10, st_size := 0 },
    { st_name := 16, st_value := 10, st_size := 0 } ]

/-- A table of two sized functions, a zero-size label between them and a
trailing zero-size catch-all. -/
def example_symbols : List elf_symbol :=
  [ { st_name := 0, st_value := 0x40000, st_size := 0x100 },
    { st_name := 8, st_value := 0x40100, st_size := 0 },
    { st_name := 16, st_value := 0x40200, st_size := 0x50 },
    { st_name := 24, st_value := 0x50000, st_size := 0 } ]

/-! ## PCI enumerator (`pcistate::next`) -/

/-- Modelled from the spec: `pcistate::make_addr` lives in `k-pci.hh`, which
is not among the sources; a configuration-space address encodes bus, device
(slot) and function above an 8-bit register offset, with eight functions per
device. -/
def make_addr (bus slot func : Nat) : Nat :=
  (bus <<< 16) ||| (slot <<< 11) ||| (func <<< 8)

/-- Modelled from the spec: `pcistate::addr_func` lives in `k-pci.hh`, which
is not among the sources; the function number (0-7) of a configuration-space
address. -/
def addr_func (addr : Nat) : Nat := (addr >>> 8) &&& 0x7

/-- What `pcistate::next` uses of the PCI state: `readl a` is the 32-bit value
`readl(a)` reads from configuration space; the constants `addr_end` and
`config_lthb` are declared in `k-pci.hh`, which is not among the sources, and
are parameters. -/
structure pcistate where
  readl : Nat → Nat
  addr_end : Nat
  config_lthb : Nat

/-- The loop `while (true)` of `pcistate::next` entered with `addr` and `x`;
`none` when it is still running after `fuel` iterations. Addresses are natural
numbers: the `int` additions are exact, the loop never leaves
`[0, addr_end + 0x800)`. -/
def pcistate.next_loop (pci : pcistate) : Nat → Nat → Nat → Option Int
  | 0, _, _ => none
  | fuel + 1, addr, x =>
    let addr1 :=
      if addr_func addr = 0 ∧ (x = 0xFFFFFFFF ∨ x &&& 0x800000 = 0) then
        addr + make_addr 0 1 0
      else
        addr + make_addr 0 0 1
    if addr1 ≥ pci.addr_end then some (-1)
    else
      let x1 := pci.readl (addr1 + pci.config_lthb)
      if x1 ≠ 0xFFFFFFFF then some (addr1 : Int)
      else pcistate.next_loop pci fuel addr1 x1

/-- `pcistate::next(addr)`. Every iteration of the loop advances `addr` by at
least `0x100` and the loop ends once `addr_end` is reached, so
`addr_end / 0x100 + 1` iterations are enough. -/
def pcistate.next (pci : pcistate) (addr : Nat) : Option Int :=
  pci.next_loop (pci.addr_end / 0x100 + 1) addr (pci.readl (addr + pci.config_lthb))

/-- The client loop `a = next(a)` run from `a` until `next` returns -1: the
addresses returned, in order; `none` when a call of `next` does not return or
the loop is still running after `fuel` calls. -/
def pcistate.enumerate (pci : pcistate) : Nat → Nat → Option (List Nat)
  | 0, _ => none
  | fuel + 1, a =>
    match pci.next a with
    | none => none
    | some r =>
      if r = -1 then some []
      else
        match pcistate.enumerate pci fuel r.toNat with
        | none => none
        | some rest => some (r.toNat :: rest)

/-- Function `a` is present: its header dword does not read as all-ones. -/
def pcistate.present (pci : pcistate) (a : Nat) : Bool :=
  pci.readl (a + pci.config_lthb) != 0xFFFFFFFF

/-- Function `a` is present and its header has the multi-function bit
`0x800000` set. -/
def pcistate.multifunction (pci : pcistate) (a : Nat) : Bool :=
  pci.present a && (pci.readl (a + pci.config_lthb) &&& 0x800000 != 0)

/-- The address of function 0 of the device that function `a` belongs to. -/
def device_of (a : Nat) : Nat := a - addr_func a * 0x100

/-- The functions the claim counts: present functions that are function 0 of
their device, or a function 1-7 of a device whose function 0 is present and
declares multi-function capability. -/
def pcistate.counted (pci : pcistate) (b : Nat) : Bool :=
  pci.present b && (addr_func b == 0 || pci.multifunction (device_of b))

/-- The counted functions after `a` and below `addr_end`, in increasing
address order. -/
def pcistate.functions_after (pci : pcistate) (a : Nat) : List Nat :=
  ((List.range (pci.addr_end / 0x100 + 1)).map (fun j => j * 0x100)).filter
    (fun b => decide (a < b) && decide (b < pci.addr_end) && pci.counted b)

/-- A start the walk supports: a function address (register offset 0) that is
function 0 of its device or belongs to a device whose function 0 is present
and declares multi-function capability. -/
def pcistate.startable (pci : pcistate) (a : Nat) : Prop :=
  a % 0x100 = 0 ∧ (addr_func a = 0 ∨ pci.multifunction (device_of a) = true)

/-- A configuration space with two device slots. Device 0 is a single-function
device (header without the multi-function bit) that answers on its functions
0, 1 and 2; everything else is absent. -/
def aliased_pci : pcistate :=
  { readl := fun a => if a = 0x0C ∨ a = 0x10C ∨ a = 0x20C then 0x00000010 else 0xFFFFFFFF
    addr_end := 0x1000
    config_lthb := 0x0C }

/-- A configuration space with three device slots: device 0 is multi-function
with functions 0, 2 and 5 present, device 1 is absent, device 2 is a
single-function device that also answers on function 1. -/
def example_pci : pcistate :=
  { readl := fun a =>
      if a = 0x0C ∨ a = 0x20C ∨ a = 0x50C then 0x00800010
      else if a = 0x100C ∨ a = 0x110C then 0x00000010
      else 0xFFFFFFFF
    addr_end := 0x1800
    config_lthb := 0x0C }







/-! ## Descriptor encoders (`set_sys_segment`) -/

/-- The gate-rewriting loop `for (int i = 0; i < 256; ++i)` of
`init_interrupts` entered with loop variable `i`; the array
`interrupt_descriptors[256]` is the function `descs` from vector number to
descriptor. `none` when an assertion of `set_gate` fails or the loop is still
running after `fuel` iterations. `X86GATE_INTERRUPT` and `INT_BP` are
declared in `x86-64.h`, which is not among the sources, and are parameters. -/
def init_interrupts_loop (X86GATE_INTERRUPT INT_BP : Nat) :
    Nat → Nat → (Nat → x86_64_gatedescriptor) → Option (Nat → x86_64_gatedescriptor)
  | fuel, i, descs =>
    if i < 256 then
      match fuel with
      | 0 => none
      | fuel1 + 1 =>
        let addr := (descs i).gd_low
        match set_gate (descs i) addr (X86GATE_INTERRUPT : Int) (if i = INT_BP then 3 else 0) 0 with
        | none => none
        | some g =>
          init_interrupts_loop X86GATE_INTERRUPT INT_BP fuel1 (i + 1) (Function.update descs i g)
    else some descs

/-- The first part of `init_interrupts()`: the loop over all 256 vectors. -/
def init_interrupts_gates (X86GATE_INTERRUPT INT_BP : Nat)
    (descs : Nat → x86_64_gatedescriptor) : Option (Nat → x86_64_gatedescriptor) :=
  init_interrupts_loop X86GATE_INTERRUPT INT_BP 256 0 descs

/-- A descriptor array as the entry stubs leave it: the raw handler address of
vector `i` in `gd_low`. -/
def example_descriptors : Nat → x86_64_gatedescriptor :=
  fun i => { gd_low := 0x40000 + 16 * i, gd_high := 0 }

/-- Modelled from the spec: the vendor field of function `a` is the low 16
bits of the dword at register offset `config_vendor`; that offset is declared
in `k-pci.hh`, which is not among the sources, and is a parameter. -/
def pcistate.vendor (pci : pcistate) (config_vendor : Nat) (a : Nat) : Nat :=
  pci.readl (a + config_vendor) % 2 ^ 16

/-- The addresses whose header dword the loop of `pcistate::next` reads, in
order, when entered with `addr` and `x` (the same recursion as
`pcistate.next_loop`, recording `addr` at each `x = readl(addr + config_lthb)`
inside the loop). -/
def pcistate.examined_loop (pci : pcistate) : Nat → Nat → Nat → List Nat
  | 0, _, _ => []
  | fuel + 1, addr, x =>
    let addr1 :=
      if addr_func addr = 0 ∧ (x = 0xFFFFFFFF ∨ x &&& 0x800000 = 0) then
        addr + make_addr 0 1 0
      else
        addr + make_addr 0 0 1
    if addr1 ≥ pci.addr_end then []
    else
      let x1 := pci.readl (addr1 + pci.config_lthb)
      if x1 ≠ 0xFFFFFFFF then [addr1]
      else addr1 :: pcistate.examined_loop pci fuel addr1 x1

/-- The functions after `addr` that `pcistate::next(addr)` examines. -/
def pcistate.examined (pci : pcistate) (addr : Nat) : List Nat :=
  pci.examined_loop (pci.addr_end / 0x100 + 1) addr (pci.readl (addr + pci.config_lthb))

/-- A configuration space with two device slots in which function 0 of
device 1 (address 0x800) has a vendor field, but its header dword at
`config_lthb` reads all-ones like that of an absent function. -/
def headerless_pci : pcistate :=
  { readl := fun a => if a = 0x800 then 0x12348086 else 0xFFFFFFFF
    addr_end := 0x1000
    config_lthb := 0x0C }

/-- A configuration space with two device slots in which functions 0 and 2 of
device 0 answer every register with the same dword and every other function
reads all-ones. -/
def uniform_pci : pcistate :=
  { readl := fun a => if a / 0x100 = 0 ∨ a / 0x100 = 2 then 0x12808086 else 0xFFFFFFFF
    addr_end := 0x1000
    config_lthb := 0x0C }









/-- The loop of `program_loader::program_number(program_name)` over the
remaining catalog entries, `i` being the index of the first of them. -/
def program_number_loop (program_name : String) : Nat → List ramimage → Int
  | _, [] => -1
  | i, r :: rs =>
    if program_name = r.name then (i : Int) else program_number_loop program_name (i + 1) rs

/-- `program_loader::program_number(program_name)` over the catalog
`ramimages`; `strcmp(...) == 0` is equality of the strings. -/
def program_loader.program_number (ramimages : List ramimage) (program_name : String) : Int :=
  program_number_loop program_name 0 ramimages

/-- The constructor `program_loader::program_loader(const char* program_name)`,
which delegates to the constructor by number. -/
def program_loader.mk_name (ELF_MAGIC ELF_PTYPE_LOAD : Nat) (ramimages : List ramimage)
    (ph0 endph0 : Option Nat) (program_name : String) : Option program_loader :=
  program_loader.mk_number ELF_MAGIC ELF_PTYPE_LOAD ramimages ph0 endph0
    (program_loader.program_number ramimages program_name)

/-- A call a client can make on a cursor: `operator++` or `reset()`. -/
inductive loader_call where
  | inc
  | reset
deriving DecidableEq, Repr

/-- A sequence of `operator++` and `reset()` calls applied in order. -/
def program_loader.run (ELF_MAGIC ELF_PTYPE_LOAD : Nat) :
    List loader_call → program_loader → Option program_loader
  | [], pl => some pl
  | loader_call.inc :: cs, pl =>
    match pl.operator_inc ELF_PTYPE_LOAD with
    | none => none
    | some pl1 => program_loader.run ELF_MAGIC ELF_PTYPE_LOAD cs pl1
  | loader_call.reset :: cs, pl =>
    match pl.reset ELF_MAGIC ELF_PTYPE_LOAD with
    | none => none
    | some pl1 => program_loader.run ELF_MAGIC ELF_PTYPE_LOAD cs pl1

/-- The empty cursor: all three pointers null. -/
def empty_loader : program_loader := { elf_ := none, ph_ := none, endph_ := none }

/-- A catalog with the three names of `ramimages[]`, each entry holding
`example_image`. -/
def example_ramimages : List ramimage :=
  [ { name := "eve", begin := example_image },
    { name := "alice", begin := example_image },
    { name := "recurse", begin := example_image } ]

/-- Entry `k` of the table encloses `addr`: it starts at or before `addr` and
either `addr` is below its end `st_value + st_size`, or its size is zero and
it is the last entry or `addr` lies before the start of the next entry. -/
def elf_symtabref.encloses (symtab : elf_symtabref) (addr k : Nat) : Prop :=
  k < symtab.nsym ∧ (symtab.sym k).st_value ≤ addr ∧
    (addr < (symtab.sym k).st_value + (symtab.sym k).st_size
      ∨ ((symtab.sym k).st_size = 0
          ∧ (k + 1 = symtab.nsym ∨ addr < (symtab.sym (k + 1)).st_value)))

instance (symtab : elf_symtabref) (addr k : Nat) : Decidable (symtab.encloses addr k) := by
  unfold elf_symtabref.encloses
  infer_instance

/-- A strictly address-sorted table whose first entry `[0, 1000)` extends over
the two entries that follow it. -/
def nested_symbols : List elf_symbol :=
  [ { st_name := 0, st_value := 0, st_size := 1000 },
    { st_name := 8, st_value := 10, st_size := 5 },
    { st_name := 16, st_value := 20, st_size := 5 } ]



/-! ## Memory bring-up: the mapping loop of `init_kernel_memory` -/

/-- Modelled from the spec: the page-table flag `PTE_U` (user-accessible)
lives in `x86-64.h`, which is not among the sources; the value is the
architecture's. -/
def PTE_U : Nat := 0x4

/-- Modelled from the spec: `vmiter` lives in `k-vmiter.hh`, which is not
among the sources; the spec treats it as a capability that can install
mappings. A page table is viewed as the mappings it defines: `pt va` is the
physical address and the permissions that the page at `va` maps to, `none`
when no mapping is installed for it. `va_` is the current virtual address of
the iterator. -/
structure vmiter where
  pt : Nat → Option (Nat × Nat)
  va_ : Nat

/-- Modelled from the spec: `vmiter::va()`. -/
def vmiter.va (it : vmiter) : Nat := it.va_

/-- Modelled from the spec: `vmiter::map(pa, perm)` installs the mapping of
the current page to `pa` with permissions `perm`. -/
def vmiter.map (it : vmiter) (pa perm : Nat) : vmiter :=
  { pt := fun v => if v = it.va_ then some (pa, perm) else it.pt v, va_ := it.va_ }

/-- Modelled from the spec: `vmiter::operator+=(delta)` moves the current
virtual address forward by `delta`. -/
def vmiter.advance (it : vmiter) (delta : Nat) : vmiter :=
  { pt := it.pt, va_ := it.va_ + delta }

/-- The loop `for (vmiter it(kernel_pagetable); it.va() < MEMSIZE_PHYSICAL;
it += PAGESIZE)` of `init_kernel_memory` from the iterator state `it`; `none`
when it is still running after `fuel` iterations. -/
def init_kernel_memory_loop : Nat → vmiter → Option vmiter
  | fuel, it =>
    if it.va < MEMSIZE_PHYSICAL then
      match fuel with
      | 0 => none
      | fuel1 + 1 =>
        let it1 := if it.va ≠ 0 then it.map it.va (PTE_P ||| PTE_W ||| PTE_U) else it
        init_kernel_memory_loop fuel1 (it1.advance PAGESIZE)
    else some it

/-- The mappings of the kernel page table after the mapping loop of
`init_kernel_memory`, `pt0` being its mappings when the loop starts; the
iterator starts at virtual address 0. -/
def init_kernel_memory_mappings (pt0 : Nat → Option (Nat × Nat)) :
    Option (Nat → Option (Nat × Nat)) :=
  (init_kernel_memory_loop (MEMSIZE_PHYSICAL / PAGESIZE + 1) { pt := pt0, va_ := 0 }).map
    (fun it => it.pt)

/-! ## Backtrace cursor (`backtracer`) -/

/-- The data members of `struct backtracer`, 64-bit values. -/
structure backtracer where
  rbp_ : Nat
  rsp_ : Nat
  stack_top_ : Nat
deriving DecidableEq, Repr

/-- `backtracer::ok()`; the difference `stack_top_ - rbp_` is computed on
`uintptr_t`, that is, modulo `2^64`. -/
def backtracer.ok (bt : backtracer) : Bool :=
  decide (bt.rbp_ ≥ bt.rsp_) && decide ((bt.stack_top_ + 2 ^ 64 - bt.rbp_) % 2 ^ 64 ≥ 16)

/-- `backtracer::step()`; `none` when the load of `rbpx[0]` faults. -/
def backtracer.step (mem : Nat → Option Nat) (bt : backtracer) : Option backtracer :=
  match mem bt.rbp_ with
  | none => none
  | some saved_rbp =>
    some { rsp_ := (bt.rbp_ + 16) % 2 ^ 64, rbp_ := saved_rbp, stack_top_ := bt.stack_top_ }

/-- The cursor `backtracer bt(rbp, rsp, round_up(rsp, PAGESIZE))` that
`log_backtrace(prefix, rsp, rbp)` and `assert_fail` construct. -/
def backtracer.start (rsp rbp : Nat) : backtracer :=
  { rbp_ := rbp, rsp_ := rsp, stack_top_ := round_up rsp PAGESIZE }

/-- The descriptor `*gate` after a call of `set_gate` on it with result `r`:
what `set_gate` wrote if it returned, the old contents if its assertion
failed. -/
def gate_after (gate : x86_64_gatedescriptor) (r : Option x86_64_gatedescriptor) :
    x86_64_gatedescriptor :=
  match r with
  | some g => g
  | none => gate



/-- Where a thread stands in its call of `__cxa_guard_acquire` and, for the
thread whose call returned 1, of `__cxa_guard_release`: the atomic operation
on the guard it executes next, or the value its call has returned.
`load` is `guard->load(std::memory_order_relaxed)`, `exchange1` is
`guard->exchange(1)` at the head of the loop, `exchange2` is
`guard->exchange(2)` after an exchange that saw 2, `returned1` is the caller
initialising the statics before it calls `__cxa_guard_release`, and
`released` is that call done. -/
inductive guard_pc where
  | load
  | exchange1
  | exchange2
  | returned0
  | returned1
  | released
deriving DecidableEq, Repr

/-- One atomic operation of a thread standing at `pc`, on the guard byte
`guard`: the guard byte afterwards, whether a 2 has been stored so far, and
where the thread stands next. The relaxed load returns the current value of
the guard or an earlier one: it can return 2 only if 2 is the current value or
a 2 has been stored before (`stored2`), and `reads2` says whether it does; the
guard starts at 0, so a value other than 2 can always be returned. `pause()` touches no memory: after
an exchange that saw 1 the thread is at the exchange again. The thread at
`returned1` executes the `guard->store(2)` of `__cxa_guard_release`. -/
def guard_thread_step (guard : Nat) (stored2 : Bool) (pc : guard_pc) (reads2 : Bool) :
    Nat × Bool × guard_pc :=
  match pc with
  | guard_pc.load =>
    if (reads2 && (stored2 || guard == 2)) = true then (guard, stored2, guard_pc.returned0)
    else (guard, stored2, guard_pc.exchange1)
  | guard_pc.exchange1 =>
    let old_value := guard
    if old_value = 2 then (1, stored2, guard_pc.exchange2)
    else if old_value = 1 then (1, stored2, guard_pc.exchange1)
    else (1, stored2, guard_pc.returned1)
  | guard_pc.exchange2 => (2, true, guard_pc.returned0)
  | guard_pc.returned1 => (2, true, guard_pc.released)
  | guard_pc.returned0 => (guard, stored2, guard_pc.returned0)
  | guard_pc.released => (guard, stored2, guard_pc.released)

/-- The guard byte, whether a 2 has been stored in it so far, and where each
thread stands. -/
structure guard_system where
  guard : Nat
  stored2 : Bool
  pc : Nat → guard_pc

/-- An uninitialised guard (0) with every thread about to call
`__cxa_guard_acquire`. -/
def guard_system.start : guard_system :=
  { guard := 0, stored2 := false, pc := fun _ => guard_pc.load }

/-- Thread `i` of the `T` threads executes its next atomic operation. -/
def guard_system.step (T : Nat) (s : guard_system) (i : Nat) (reads2 : Bool) : guard_system :=
  if i < T then
    { guard := (guard_thread_step s.guard s.stored2 (s.pc i) reads2).1
      stored2 := (guard_thread_step s.guard s.stored2 (s.pc i) reads2).2.1
      pc := Function.update s.pc i (guard_thread_step s.guard s.stored2 (s.pc i) reads2).2.2 }
  else s

/-- An interleaving: the threads execute their atomic operations in the order
of the list `sched`, each entry naming the thread and what its relaxed load
observes. -/
def guard_system.run (T : Nat) (s : guard_system) (sched : List (Nat × Bool)) : guard_system :=
  sched.foldl (fun s e => s.step T e.1 e.2) s

/-- A stretch of an interleaving in which each of the `T` threads is scheduled
at least once. -/
def fair_round (T : Nat) (round : List (Nat × Bool)) : Prop :=
  ∀ i, i < T → ∃ b, (i, b) ∈ round

/-- An interleaving of two threads: both load, thread 0 wins the exchange,
thread 1 exchanges and sees 1. -/
def contended_interleaving : List (Nat × Bool) :=
  [(0, false), (1, false), (0, false), (1, false)]

/-- Six rounds in which thread 0 and then thread 1 execute one operation
each. -/
def round_robin : List (List (Nat × Bool)) :=
  List.replicate 6 [(0, false), (1, false)]

/-- The thread has exchanged the guard to 1 and will store 2 next. -/
def guard_pc.holder : guard_pc → Bool
  | guard_pc.exchange2 => true
  | guard_pc.returned1 => true
  | _ => false

/-- The call of the thread returned 1. -/
def guard_pc.winner : guard_pc → Bool
  | guard_pc.returned1 => true
  | guard_pc.released => true
  | _ => false

/-- The number of atomic operations the thread has at most left once no other
thread holds the guard at 1. -/
def guard_pc.weight : guard_pc → Nat
  | guard_pc.load => 3
  | guard_pc.exchange1 => 2
  | guard_pc.exchange2 => 1
  | guard_pc.returned1 => 1
  | guard_pc.returned0 => 0
  | guard_pc.released => 0

/-- The operations left over all `T` threads. -/
def guard_system.potential (T : Nat) (s : guard_system) : Nat :=
  Finset.sum (Finset.range T) (fun i => (s.pc i).weight)

/-- Thread `h` has an operation left and its operation makes progress: it is
not spinning on a guard that another thread holds at 1. -/
def guard_system.helpful (T : Nat) (s : guard_system) (h : Nat) : Prop :=
  h < T ∧ s.pc h ≠ guard_pc.returned0 ∧ s.pc h ≠ guard_pc.released ∧
    (s.pc h = guard_pc.exchange1 → s.guard ≠ 1)

/-- The invariant of the guard protocol. -/
structure guard_inv (T : Nat) (s : guard_system) : Prop where
  guard_le : s.guard = 0 ∨ s.guard = 1 ∨ s.guard = 2
  outside : ∀ j, T ≤ j → s.pc j = guard_pc.load
  holder_unique : ∀ j k, (s.pc j).holder = true → (s.pc k).holder = true → j = k
  holder_iff : (∃ j, (s.pc j).holder = true) ↔ s.guard = 1
  fresh : s.guard = 0 → ∀ j, s.pc j = guard_pc.load ∨ s.pc j = guard_pc.exchange1
  stored_iff : s.stored2 = true ↔ ∃ j, s.pc j = guard_pc.released
  winner_unique : ∀ j k, (s.pc j).winner = true → (s.pc k).winner = true → j = k
  not_stored : s.stored2 = false →
    s.guard ≠ 2 ∧ ∀ j, s.pc j ≠ guard_pc.exchange2 ∧ s.pc j ≠ guard_pc.returned0


/-! ## Bit-level helper lemmas -/

theorem or_eq_add_of_lt (a b i : Nat) (h : b < 2 ^ i) :
    (a * 2 ^ i) ||| b = a * 2 ^ i + b := by
  rw [Nat.mul_comm a (2 ^ i)]
  exact (Nat.mul_add_lt_is_or h a).symm

theorem and_shiftLeft_mask (x m k : Nat) :
    x &&& (m <<< k) = ((x >>> k) &&& m) <<< k := by
  apply Nat.eq_of_testBit_eq
  intro j
  simp only [Nat.testBit_and, Nat.testBit_shiftLeft, Nat.testBit_shiftRight]
  by_cases h : k ≤ j
  · have : k + (j - k) = j := by omega
    simp [h, this]
  · simp [h]

theorem and_ffff0000 (x : Nat) : x &&& 0xFFFF0000 = (x / 2 ^ 16 % 2 ^ 16) * 2 ^ 16 := by
  have h : (0xFFFF0000 : Nat) = (2 ^ 16 - 1) <<< 16 := by decide
  rw [h, and_shiftLeft_mask, Nat.and_pow_two_sub_one_eq_mod, Nat.shiftLeft_eq,
    Nat.shiftRight_eq_div_pow]

theorem and_ffff (x : Nat) : x &&& 0xFFFF = x % 2 ^ 16 := by
  have h : (0xFFFF : Nat) = 2 ^ 16 - 1 := by decide
  rw [h, Nat.and_pow_two_sub_one_eq_mod]

theorem lo_or_hi (a b k : Nat) (h : b < 2 ^ k) : b ||| (a * 2 ^ k) = b + a * 2 ^ k := by
  rw [Nat.or_comm, or_eq_add_of_lt a b k h, Nat.add_comm]

theorem gate_fields (r y i t d L : Nat) (hr : r < 2 ^ 16) (hy : y < 2 ^ 16) (hi : i < 8)
    (ht : t < 16) (hd : d < 4)
    (hL : L = r + 8 * 2 ^ 16 + i * 2 ^ 32 + t * 2 ^ 40 + d * 2 ^ 45 + 2 ^ 47 + y * 2 ^ 48) :
    L % 2 ^ 16 = r ∧ L / 2 ^ 48 % 2 ^ 16 = y ∧ L / 2 ^ 32 % 2 ^ 3 = i ∧ L / 2 ^ 40 % 2 ^ 4 = t ∧
      L / 2 ^ 45 % 2 ^ 2 = d ∧ L / 2 ^ 16 % 2 ^ 16 = 8 ∧ L / 2 ^ 47 % 2 ^ 1 = 1 ∧
      L < 2 ^ 64 := by
  norm_num at hr hy hL ⊢
  refine ⟨by omega, by omega, by omega, by omega, by omega, by omega, by omega, by omega⟩

/-! ## Claim C1: `set_gate` round-trips -/

theorem set_gate_gd_low_sum (g : x86_64_gatedescriptor) (addr type dpl ist : Nat)
    (ht : type < 16) (hd : dpl < 4) (hi : ist < 8) :
    set_gate g addr type dpl ist = some
      { gd_low := addr % 2 ^ 16 + SEGSEL_KERN_CODE * 2 ^ 16 + ist * 2 ^ 32 + type * 2 ^ 40
          + dpl * 2 ^ 45 + 2 ^ 47 + (addr / 2 ^ 16 % 2 ^ 16) * 2 ^ 48
        gd_high := addr / 2 ^ 32 } := by
  have ht' : unsigned (type : Int) = type := by
    unfold unsigned; omega
  have hd' : unsigned (dpl : Int) = dpl := by
    unfold unsigned; omega
  have hi' : unsigned (ist : Int) = ist := by
    unfold unsigned; omega
  have ht64 : uint64_t (type : Int) = type := by
    unfold uint64_t; omega
  have hd64 : uint64_t (dpl : Int) = dpl := by
    unfold uint64_t; omega
  have hi64 : uint64_t (ist : Int) = ist := by
    unfold uint64_t; omega
  unfold set_gate
  rw [ht', hd', hi', ht64, hd64, hi64, if_pos ⟨ht, hd, hi⟩]
  have hm : addr % 2 ^ 16 < 2 ^ 16 := Nat.mod_lt _ (by norm_num)
  have hm2 : addr / 2 ^ 16 % 2 ^ 16 < 2 ^ 16 := Nat.mod_lt _ (by norm_num)
  have hP : X86SEG_P = 1 * 2 ^ 47 := by decide
  have hhi : ((addr &&& 0x00000000FFFF0000) <<< 32) % 2 ^ 64
      = (addr / 2 ^ 16 % 2 ^ 16) * 2 ^ 48 := by
    rw [and_ffff0000, Nat.shiftLeft_eq, Nat.mul_assoc]
    have : (2 : Nat) ^ 16 * 2 ^ 32 = 2 ^ 48 := by norm_num
    rw [this]
    apply Nat.mod_eq_of_lt
    omega
  have hi32 : (ist <<< 32) % 2 ^ 64 = ist * 2 ^ 32 := by
    rw [Nat.shiftLeft_eq]; apply Nat.mod_eq_of_lt; omega
  have ht40 : (type <<< 40) % 2 ^ 64 = type * 2 ^ 40 := by
    rw [Nat.shiftLeft_eq]; apply Nat.mod_eq_of_lt; omega
  have hd45 : (dpl <<< 45) % 2 ^ 64 = dpl * 2 ^ 45 := by
    rw [Nat.shiftLeft_eq]; apply Nat.mod_eq_of_lt; omega
  have hS : SEGSEL_KERN_CODE = 8 := rfl
  rw [hhi, hi32, ht40, hd45, and_ffff, Nat.shiftLeft_eq, hP, Nat.shiftRight_eq_div_pow]
  rw [lo_or_hi _ _ 16 hm, lo_or_hi _ _ 32 (by rw [hS]; omega),
    lo_or_hi _ _ 40 (by rw [hS]; omega), lo_or_hi _ _ 45 (by rw [hS]; omega),
    lo_or_hi _ _ 47 (by rw [hS]; omega), lo_or_hi _ _ 48 (by rw [hS]; omega)]
  simp

/-- Claim C1: for every 64-bit handler address and every `type < 16`,
`dpl < 4`, `ist < 8`, `set_gate` succeeds and the descriptor it writes decodes
back to the same values: the offset reassembled from bits 0-15 and 48-63 of
`gd_low` and from `gd_high` is `addr`, bits 32-34 are `ist`, bits 40-43 are
`type`, bits 45-46 are `dpl`, bits 16-31 are `SEGSEL_KERN_CODE`, bit 47 (present)
is set, and the fields do not overlap: `gd_low` is the sum of the shifted
fields, so the remaining bits 35-39 and 44 are zero. -/
theorem set_gate_roundtrip (g : x86_64_gatedescriptor) (addr type dpl ist : Nat)
    (ha : addr < 2 ^ 64) (ht : type < 16) (hd : dpl < 4) (hi : ist < 8) :
    ∃ g' : x86_64_gatedescriptor,
      set_gate g addr type dpl ist = some g' ∧
      ((g'.gd_low &&& 0xFFFF) ||| (((g'.gd_low >>> 48) &&& 0xFFFF) <<< 16)
          ||| (g'.gd_high <<< 32)) = addr ∧
      (g'.gd_low >>> 32) &&& 0x7 = ist ∧
      (g'.gd_low >>> 40) &&& 0xF = type ∧
      (g'.gd_low >>> 45) &&& 0x3 = dpl ∧
      (g'.gd_low >>> 16) &&& 0xFFFF = SEGSEL_KERN_CODE ∧
      (g'.gd_low >>> 47) &&& 0x1 = 1 ∧
      g'.gd_low < 2 ^ 64 ∧ g'.gd_high < 2 ^ 32 ∧
      g'.gd_low = addr % 2 ^ 16 + SEGSEL_KERN_CODE * 2 ^ 16 + ist * 2 ^ 32 + type * 2 ^ 40
          + dpl * 2 ^ 45 + 2 ^ 47 + (addr / 2 ^ 16 % 2 ^ 16) * 2 ^ 48 := by
  refine ⟨_, set_gate_gd_low_sum g addr type dpl ist ht hd hi, ?_⟩
  have hS : SEGSEL_KERN_CODE = 8 := rfl
  have m7 : ∀ x : Nat, x &&& 0x7 = x % 2 ^ 3 := fun x => by
    have h : (0x7 : Nat) = 2 ^ 3 - 1 := by decide
    rw [h, Nat.and_pow_two_sub_one_eq_mod]
  have mF : ∀ x : Nat, x &&& 0xF = x % 2 ^ 4 := fun x => by
    have h : (0xF : Nat) = 2 ^ 4 - 1 := by decide
    rw [h, Nat.and_pow_two_sub_one_eq_mod]
  have m3 : ∀ x : Nat, x &&& 0x3 = x % 2 ^ 2 := fun x => by
    have h : (0x3 : Nat) = 2 ^ 2 - 1 := by decide
    rw [h, Nat.and_pow_two_sub_one_eq_mod]
  have m1 : ∀ x : Nat, x &&& 0x1 = x % 2 ^ 1 := fun x => by
    have h : (0x1 : Nat) = 2 ^ 1 - 1 := by decide
    rw [h]
    exact Nat.and_pow_two_sub_one_eq_mod x 1
  have hr : addr % 2 ^ 16 < 2 ^ 16 := Nat.mod_lt _ (by norm_num)
  have hy : addr / 2 ^ 16 % 2 ^ 16 < 2 ^ 16 := Nat.mod_lt _ (by norm_num)
  obtain ⟨f1, f2, f3, f4, f5, f6, f7, f8⟩ :=
    gate_fields (addr % 2 ^ 16) (addr / 2 ^ 16 % 2 ^ 16) ist type dpl _ hr hy hi ht hd rfl
  simp only [and_ffff, m7, mF, m3, m1, Nat.shiftRight_eq_div_pow, Nat.shiftLeft_eq, hS]
  refine ⟨?_, f3, f4, f5, f6, f7, f8, by omega, trivial⟩
  rw [f1, f2, lo_or_hi _ _ 16 hr, lo_or_hi _ _ 32 (by omega)]
  omega

/-- Witness for C1: the breakpoint gate as `init_interrupts` builds it. -/
theorem set_gate_roundtrip_witness :
    ∃ g' : x86_64_gatedescriptor,
      set_gate ⟨0x41234, 0⟩ 0x41234 14 3 0 = some g' ∧
      ((g'.gd_low &&& 0xFFFF) ||| (((g'.gd_low >>> 48) &&& 0xFFFF) <<< 16)
          ||| (g'.gd_high <<< 32)) = 0x41234 ∧
      (g'.gd_low >>> 32) &&& 0x7 = 0 ∧
      (g'.gd_low >>> 40) &&& 0xF = 14 ∧
      (g'.gd_low >>> 45) &&& 0x3 = 3 ∧
      (g'.gd_low >>> 16) &&& 0xFFFF = SEGSEL_KERN_CODE ∧
      (g'.gd_low >>> 47) &&& 0x1 = 1 ∧
      g'.gd_low < 2 ^ 64 ∧ g'.gd_high < 2 ^ 32 ∧
      g'.gd_low = 0x41234 % 2 ^ 16 + SEGSEL_KERN_CODE * 2 ^ 16 + 0 * 2 ^ 32 + 14 * 2 ^ 40
          + 3 * 2 ^ 45 + 2 ^ 47 + (0x41234 / 2 ^ 16 % 2 ^ 16) * 2 ^ 48 :=
  set_gate_roundtrip ⟨0x41234, 0⟩ 0x41234 14 3 0 (by decide) (by decide) (by decide)
    (by decide)

/-! ## Claim C2: PCI enumeration -/

theorem addr_func_eq (a : Nat) : addr_func a = a / 0x100 % 8 := by
  have h : (0x7 : Nat) = 2 ^ 3 - 1 := by decide
  unfold addr_func
  rw [h, Nat.and_pow_two_sub_one_eq_mod, Nat.shiftRight_eq_div_pow]

theorem make_addr_device : make_addr 0 1 0 = 0x800 := by decide

theorem make_addr_function : make_addr 0 0 1 = 0x100 := by decide

theorem multifunction_iff (pci : pcistate) (a : Nat) :
    pci.multifunction a = true ↔
      ¬ (pci.readl (a + pci.config_lthb) = 0xFFFFFFFF
        ∨ pci.readl (a + pci.config_lthb) &&& 0x800000 = 0) := by
  simp [pcistate.multifunction, pcistate.present, not_or]

theorem counted_of_startable (pci : pcistate) (a : Nat) (h : pci.startable a) :
    pci.counted a = pci.present a := by
  unfold pcistate.counted
  rcases h.2 with h0 | h1
  · simp [h0]
  · simp [h1]

theorem not_counted_inside_device (pci : pcistate) (a b : Nat) (ha : a % 0x800 = 0)
    (hmf : pci.multifunction a = false) (hb : b % 0x100 = 0) (hab : a < b)
    (hba : b < a + 0x800) : pci.counted b = false := by
  have hf : addr_func b ≠ 0 := by
    rw [addr_func_eq]; omega
  have hd : device_of b = a := by
    unfold device_of
    rw [addr_func_eq]; omega
  simp [pcistate.counted, hf, hd, hmf]

theorem step_spec (pci : pcistate) (a a1 : Nat) (h : pci.startable a)
    (ha1 : a1 = if addr_func a = 0 ∧ (pci.readl (a + pci.config_lthb) = 0xFFFFFFFF
        ∨ pci.readl (a + pci.config_lthb) &&& 0x800000 = 0) then a + make_addr 0 1 0
      else a + make_addr 0 0 1) :
    pci.startable a1 ∧ a + 0x100 ≤ a1 ∧
      (∀ b, b % 0x100 = 0 → a < b → b < a1 → pci.counted b = false) := by
  obtain ⟨hal, hst⟩ := h
  rw [make_addr_device, make_addr_function] at ha1
  have hfa := addr_func_eq a
  by_cases hc : addr_func a = 0 ∧ (pci.readl (a + pci.config_lthb) = 0xFFFFFFFF
      ∨ pci.readl (a + pci.config_lthb) &&& 0x800000 = 0)
  · rw [if_pos hc] at ha1
    subst ha1
    have hmf : pci.multifunction a = false := by
      rw [← Bool.not_eq_true, multifunction_iff, not_not]
      exact hc.2
    have ha8 : a % 0x800 = 0 := by
      have := hc.1
      omega
    refine ⟨⟨by omega, Or.inl ?_⟩, by omega, ?_⟩
    · rw [addr_func_eq]; omega
    · intro b hb hab hba
      exact not_counted_inside_device pci a b ha8 hmf hb hab hba
  · rw [if_neg hc] at ha1
    subst ha1
    refine ⟨⟨by omega, ?_⟩, by omega, ?_⟩
    · by_cases h0 : addr_func a = 0
      · right
        have hmf : pci.multifunction a = true := by
          rw [multifunction_iff]
          intro hx
          exact hc ⟨h0, hx⟩
        have hd : device_of (a + 0x100) = a := by
          unfold device_of
          rw [addr_func_eq]; omega
        rw [hd]; exact hmf
      · rcases hst with h | h
        · exact absurd h h0
        · by_cases h7 : addr_func a = 7
          · left
            rw [addr_func_eq]; omega
          · right
            have hd : device_of (a + 0x100) = device_of a := by
              unfold device_of
              rw [addr_func_eq, addr_func_eq]; omega
            rw [hd]; exact h
    · intro b hb hab hba
      omega

theorem next_loop_spec (pci : pcistate) :
    ∀ fuel a, pci.startable a → (pci.addr_end - a) / 0x100 + 1 ≤ fuel →
      (pci.next_loop fuel a (pci.readl (a + pci.config_lthb)) = some (-1) ∧
        ∀ b, b % 0x100 = 0 → a < b → b < pci.addr_end → pci.counted b = false)
      ∨ ∃ b0 : Nat, pci.next_loop fuel a (pci.readl (a + pci.config_lthb)) = some (b0 : Int) ∧
          pci.startable b0 ∧ a + 0x100 ≤ b0 ∧ b0 < pci.addr_end ∧ pci.present b0 = true ∧
          ∀ b, b % 0x100 = 0 → a < b → b < b0 → pci.counted b = false := by
  intro fuel
  induction fuel with
  | zero => intro a _ h; omega
  | succ f ih =>
    intro a hst hf
    obtain ⟨s1, s2, s3⟩ := step_spec pci a _ hst rfl
    rw [pcistate.next_loop]
    simp only []
    generalize (if addr_func a = 0 ∧ (pci.readl (a + pci.config_lthb) = 0xFFFFFFFF
        ∨ pci.readl (a + pci.config_lthb) &&& 0x800000 = 0) then a + make_addr 0 1 0
      else a + make_addr 0 0 1) = a1 at s1 s2 s3 ⊢
    by_cases hend : a1 ≥ pci.addr_end
    · left
      rw [if_pos hend]
      exact ⟨rfl, fun b hb hab hbe => s3 b hb hab (by omega)⟩
    · rw [if_neg hend]
      by_cases hp : pci.readl (a1 + pci.config_lthb) ≠ 0xFFFFFFFF
      · right
        rw [if_pos hp]
        refine ⟨a1, rfl, s1, s2, by omega, ?_, s3⟩
        simpa [pcistate.present] using hp
      · rw [if_neg hp]
        have hcnt : pci.counted a1 = false := by
          rw [counted_of_startable pci a1 s1]
          simpa [pcistate.present] using hp
        have hal : a1 % 0x100 = 0 := s1.1
        rcases ih a1 s1 (by omega) with ⟨h1, h2⟩ | ⟨b0, h1, h2, h3, h4, h5, h6⟩
        · left
          refine ⟨h1, fun b hb hab hbe => ?_⟩
          rcases Nat.lt_trichotomy b a1 with h | h | h
          · exact s3 b hb hab h
          · rw [h]; exact hcnt
          · exact h2 b hb h hbe
        · right
          refine ⟨b0, h1, h2, by omega, h4, h5, fun b hb hab hbb => ?_⟩
          rcases Nat.lt_trichotomy b a1 with h | h | h
          · exact s3 b hb hab h
          · rw [h]; exact hcnt
          · exact h6 b hb h hbb

theorem next_spec (pci : pcistate) (a : Nat) (hst : pci.startable a) :
    (pci.next a = some (-1) ∧
        ∀ b, b % 0x100 = 0 → a < b → b < pci.addr_end → pci.counted b = false)
      ∨ ∃ b0 : Nat, pci.next a = some (b0 : Int) ∧
          pci.startable b0 ∧ a + 0x100 ≤ b0 ∧ b0 < pci.addr_end ∧ pci.present b0 = true ∧
          ∀ b, b % 0x100 = 0 → a < b → b < b0 → pci.counted b = false := by
  unfold pcistate.next
  apply next_loop_spec pci _ a hst
  have : (pci.addr_end - a) / 0x100 ≤ pci.addr_end / 0x100 :=
    Nat.div_le_div_right (Nat.sub_le _ _)
  omega

theorem enumerate_spec (pci : pcistate) :
    ∀ fuel a, pci.startable a → (pci.addr_end - a) / 0x100 + 1 ≤ fuel →
      ∃ L, pci.enumerate fuel a = some L ∧ List.Pairwise (fun x y => x < y) L ∧
        ∀ b, b ∈ L ↔ (b % 0x100 = 0 ∧ a < b ∧ b < pci.addr_end ∧ pci.counted b = true) := by
  intro fuel
  induction fuel with
  | zero => intro a _ h; omega
  | succ f ih =>
    intro a hst hf
    rw [pcistate.enumerate]
    rcases next_spec pci a hst with ⟨h1, h2⟩ | ⟨b0, h1, h2, h3, h4, h5, h6⟩
    · refine ⟨[], by simp [h1], List.Pairwise.nil, fun b => ?_⟩
      constructor
      · intro h; cases h
      · rintro ⟨hb, hab, hbe, hc⟩
        rw [h2 b hb hab hbe] at hc
        cases hc
    · obtain ⟨L, g1, g2, g3⟩ := ih b0 h2 (by omega)
      have hne : ((b0 : Nat) : Int) ≠ -1 := by omega
      refine ⟨b0 :: L, by simp [h1, hne, g1], ?_, fun b => ?_⟩
      · rw [List.pairwise_cons]
        exact ⟨fun x hx => ((g3 x).1 hx).2.1, g2⟩
      · rw [List.mem_cons, g3 b]
        constructor
        · rintro (h | ⟨hb, hab, hbe, hc⟩)
          · subst h
            refine ⟨h2.1, by omega, h4, ?_⟩
            rw [counted_of_startable pci _ h2]; exact h5
          · exact ⟨hb, by omega, hbe, hc⟩
        · rintro ⟨hb, hab, hbe, hc⟩
          rcases Nat.lt_trichotomy b b0 with h | h | h
          · rw [h6 b hb hab h] at hc; cases hc
          · left; exact h
          · right; exact ⟨hb, h, hbe, hc⟩

theorem functions_after_spec (pci : pcistate) (a : Nat) :
    List.Pairwise (fun x y => x < y) (pci.functions_after a) ∧
      ∀ b, b ∈ pci.functions_after a ↔
        (b % 0x100 = 0 ∧ a < b ∧ b < pci.addr_end ∧ pci.counted b = true) := by
  constructor
  · unfold pcistate.functions_after
    apply List.Pairwise.filter
    rw [List.pairwise_map]
    exact (List.pairwise_lt_range _).imp (fun h => by omega)
  · intro b
    simp only [pcistate.functions_after, List.mem_filter, List.mem_map, List.mem_range,
      Bool.and_eq_true, decide_eq_true_eq]
    constructor
    · rintro ⟨⟨j, _, rfl⟩, ⟨h1, h2⟩, h3⟩
      exact ⟨by omega, h1, h2, h3⟩
    · rintro ⟨hb, h1, h2, h3⟩
      exact ⟨⟨b / 0x100, by omega, by omega⟩, ⟨h1, h2⟩, h3⟩

/-- Counterexample to C2 as stated. In `aliased_pci` device 0 declares no
multi-function capability but answers on functions 0, 1 and 2. Function 1
(address 0x100) is present, and `next` applied from it returns function 2
(address 0x200) of that same device before returning -1, although no function
after 0x100 is counted. -/
theorem pci_enumerate_counterexample :
    aliased_pci.present 0x100 = true ∧
      aliased_pci.next 0x100 = some 0x200 ∧
      aliased_pci.next 0x200 = some (-1) ∧
      aliased_pci.enumerate (aliased_pci.addr_end / 0x100 + 1) 0x100 = some [0x200] ∧
      addr_func 0x200 = 2 ∧ device_of 0x200 = 0 ∧
      aliased_pci.multifunction (device_of 0x200) = false ∧
      aliased_pci.functions_after 0x100 = [] ∧
      aliased_pci.enumerate (aliased_pci.addr_end / 0x100 + 1) 0x100
        ≠ some (aliased_pci.functions_after 0x100) := by
  decide

/-- Claim C2, amended: for every configuration space (a function is absent
when its header dword reads all-ones) and every function address `a` that is
function 0 of its device or belongs to a device whose function 0 is present
and declares multi-function capability (`pci.startable a`), repeatedly
applying `pcistate::next` from `a` returns, in strictly increasing address
order, exactly the counted functions after `a` below `addr_end` - the present
functions that are function 0 of their device or a function 1-7 of a device
whose function 0 is present with the multi-function bit `0x800000` set - and
then returns -1. -/
theorem pci_enumerate_counted (pci : pcistate) (a fuel : Nat) (hstart : pci.startable a)
    (hfuel : pci.addr_end / 0x100 + 1 ≤ fuel) :
    pci.enumerate fuel a = some (pci.functions_after a) ∧
      List.Pairwise (fun x y => x < y) (pci.functions_after a) ∧
      ∀ b, b ∈ pci.functions_after a ↔
        (b % 0x100 = 0 ∧ a < b ∧ b < pci.addr_end ∧ pci.present b = true ∧
          (addr_func b = 0 ∨ pci.multifunction (device_of b) = true)) := by
  obtain ⟨f1, f2⟩ := functions_after_spec pci a
  have hle : (pci.addr_end - a) / 0x100 ≤ pci.addr_end / 0x100 :=
    Nat.div_le_div_right (Nat.sub_le _ _)
  obtain ⟨L, g1, g2, g3⟩ := enumerate_spec pci fuel a hstart (by omega)
  have hperm : L.Perm (pci.functions_after a) := by
    apply (List.perm_ext_iff_of_nodup (g2.imp (fun h => Nat.ne_of_lt h))
      (f1.imp (fun h => Nat.ne_of_lt h))).2
    intro b
    rw [g3 b, f2 b]
  have hL : L = pci.functions_after a := List.eq_of_perm_of_sorted hperm g2 f1
  refine ⟨by rw [g1, hL], f1, fun b => ?_⟩
  rw [f2 b]
  simp [pcistate.counted]

/-- Witness for C2 (amended): the walk from address 0 over `example_pci`. -/
theorem pci_enumerate_counted_witness :
    example_pci.enumerate 25 0 = some (example_pci.functions_after 0) ∧
      List.Pairwise (fun x y => x < y) (example_pci.functions_after 0) ∧
      ∀ b, b ∈ example_pci.functions_after 0 ↔
        (b % 0x100 = 0 ∧ 0 < b ∧ b < example_pci.addr_end ∧ example_pci.present b = true ∧
          (addr_func b = 0 ∨ example_pci.multifunction (device_of b) = true)) :=
  pci_enumerate_counted example_pci 0 25 ⟨by decide, Or.inl (by decide)⟩ (by decide)

/-! ## Claim C3: letter decoding of `keyboard_readc` -/

/-- Claim C3: for every state of the driver and every key-press byte (high
bit clear) whose keymap entry `ch` is a letter `a`..`z` (codes 97..122), the
poll returns `ch - 0x60` if control is held, otherwise the upper-case letter
`ch - 0x20` iff exactly one of shift and caps-lock is active, otherwise `ch`,
and leaves the modifiers unchanged. Moreover from the initial state the bytes
0x2A, 0x1E, 0xAA, 0x1E return 0, `A`, 0, `a`, and the bytes 0x1D, 0x2E return
0 and 3. -/
theorem keyboard_readc_letter (s : keyboard_state) (d : Nat) (hd : d < 0x80)
    (hch : 97 ≤ keymap.getD (d ||| s.last_escape) 0 ∧ keymap.getD (d ||| s.last_escape) 0 ≤ 122) :
    (keyboard_readc s (some d)).1 =
        (if s.modifiers &&& MOD_CONTROL ≠ 0 then
          ((keymap.getD (d ||| s.last_escape) 0 - 0x60 : Nat) : Int)
        else if xor (decide (s.modifiers &&& MOD_SHIFT ≠ 0))
            (decide (s.modifiers &&& MOD_CAPSLOCK ≠ 0)) = true then
          ((keymap.getD (d ||| s.last_escape) 0 - 0x20 : Nat) : Int)
        else ((keymap.getD (d ||| s.last_escape) 0 : Nat) : Int)) ∧
      (keyboard_readc s (some d)).2.modifiers = s.modifiers ∧
      (keyboard_polls ⟨0, 0⟩ [some 0x2A, some 0x1E, some 0xAA, some 0x1E]).1
        = [0, 65, 0, 97] ∧
      (keyboard_polls ⟨0, 0⟩ [some 0x1D, some 0x2E]).1 = [0, 3] := by
  have hd256 : d % 256 = d := Nat.mod_eq_of_lt (by omega)
  have hE0 : d ≠ 0xE0 := by omega
  have hhi : d &&& 0x80 = 0 := by
    have h : (0x80 : Nat) = 2 ^ 7 := by decide
    rw [h]
    apply Nat.eq_of_testBit_eq
    intro j
    simp only [Nat.testBit_and, Nat.zero_testBit, Nat.testBit_two_pow]
    by_cases hj : 7 = j
    · subst hj
      simp [Nat.testBit_lt_two_pow (show d < 2 ^ 7 by omega)]
    · simp [hj]
  refine ⟨?_, ?_, by decide, by decide⟩
  · unfold keyboard_readc
    simp only [hd256, hE0, hhi, hch, if_false, if_true, ne_eq, not_true_eq_false, and_self,
      ge_iff_le]
    by_cases hc : s.modifiers &&& MOD_CONTROL = 0
    · by_cases h1 : s.modifiers &&& MOD_SHIFT = 0 <;>
        by_cases h2 : s.modifiers &&& MOD_CAPSLOCK = 0 <;> simp [hc, h1, h2]
    · simp [hc]
  · unfold keyboard_readc
    simp only [hd256, hE0, hhi, hch, if_false, if_true, ne_eq, not_true_eq_false, and_self,
      ge_iff_le]
    split_ifs <;> rfl

/-- Witness for C3: the key `a` (scancode 0x1E) pressed while shift is held. -/
theorem keyboard_readc_letter_witness :
    (keyboard_readc ⟨MOD_SHIFT, 0⟩ (some 0x1E)).1 = 65 ∧
      (keyboard_readc ⟨MOD_SHIFT, 0⟩ (some 0x1E)).2.modifiers = MOD_SHIFT :=
  ⟨(keyboard_readc_letter ⟨MOD_SHIFT, 0⟩ 0x1E (by decide) (by decide)).1,
    (keyboard_readc_letter ⟨MOD_SHIFT, 0⟩ 0x1E (by decide) (by decide)).2.1⟩

/-! ## Claim C4: the program loader yields the loadable segments in order -/

theorem fix_loop_spec (LOAD : Nat) (H : List elf_program) :
    ∀ fuel i, i ≤ H.length → H.length - i + 1 ≤ fuel →
      ∃ j, fix_loop LOAD H (some H.length) fuel (some i) = some (some j) ∧ i ≤ j ∧
        j ≤ H.length ∧ (∀ h : j < H.length, (H.get ⟨j, h⟩).p_type = LOAD) ∧
        (H.drop i).filter (fun p => decide (p.p_type = LOAD))
          = (H.drop j).filter (fun p => decide (p.p_type = LOAD)) := by
  intro fuel
  induction fuel with
  | zero => intro i _ h; omega
  | succ f ih =>
    intro i hi hf
    by_cases hend : i = H.length
    · refine ⟨i, ?_, le_refl _, hi, fun h => absurd hend (by omega), rfl⟩
      simp [fix_loop, hend]
    · have hlt : i < H.length := by omega
      have hne : ¬ (some i = some H.length) := by simpa using hend
      by_cases hty : (H.get ⟨i, hlt⟩).p_type = LOAD
      · refine ⟨i, ?_, le_refl _, hi, fun _ => hty, rfl⟩
        simp only [fix_loop, hne, if_false, List.getElem?_eq_getElem hlt]
        simp only [List.get_eq_getElem] at hty
        simp [hty]
      · obtain ⟨j, h1, h2, h3, h4, h5⟩ := ih (i + 1) (by omega) (by omega)
        refine ⟨j, ?_, by omega, h3, h4, ?_⟩
        · simp only [fix_loop, hne, if_false, List.getElem?_eq_getElem hlt]
          simp only [List.get_eq_getElem] at hty
          simp [hty, h1]
        · rw [List.drop_eq_getElem_cons hlt, List.filter_cons_of_neg, h5]
          simpa using hty

theorem fix_cursor_at (LOAD : Nat) (img : elf_image) (i : Nat) (hi : i ≤ img.phdrs.length) :
    ∃ j, program_loader.fix LOAD (cursor_at img i) = some (cursor_at img j) ∧ i ≤ j ∧
      j ≤ img.phdrs.length ∧
      (∀ h : j < img.phdrs.length, (img.phdrs.get ⟨j, h⟩).p_type = LOAD) ∧
      (img.phdrs.drop i).filter (fun p => decide (p.p_type = LOAD))
        = (img.phdrs.drop j).filter (fun p => decide (p.p_type = LOAD)) := by
  obtain ⟨j, h1, h2, h3, h4, h5⟩ :=
    fix_loop_spec LOAD img.phdrs (img.phdrs.length + 1) i hi (by omega)
  refine ⟨j, ?_, h2, h3, h4, h5⟩
  simp only [program_loader.fix, cursor_at, program_loader.headers, h1]

theorem operator_inc_cursor_at (LOAD : Nat) (img : elf_image) (j : Nat)
    (hj : j < img.phdrs.length) :
    program_loader.operator_inc LOAD (cursor_at img j)
      = program_loader.fix LOAD (cursor_at img (j + 1)) := by
  have hne : (some j : Option Nat) ≠ some img.phdrs.length := by
    intro h; injection h with h; omega
  simp only [program_loader.operator_inc, cursor_at, hne, ne_eq, not_false_eq_true, if_true]

theorem operator_inc_cursor_end (LOAD : Nat) (img : elf_image) :
    program_loader.operator_inc LOAD (cursor_at img img.phdrs.length)
      = some (cursor_at img img.phdrs.length) := by
  simp [program_loader.operator_inc, cursor_at]

theorem observe_cursor_at (WRITE : Nat) (img : elf_image) (j : Nat)
    (hj : j < img.phdrs.length) :
    program_loader.observe WRITE (cursor_at img j)
      = some (segment_of WRITE img (img.phdrs.get ⟨j, hj⟩)) := by
  have hne : (some j : Option Nat) ≠ some img.phdrs.length := by
    intro h; injection h with h; omega
  simp [program_loader.observe, program_loader.va, program_loader.size, program_loader.data,
    program_loader.data_size, program_loader.writable, program_loader.deref,
    program_loader.headers, cursor_at, hne, List.getElem?_eq_getElem hj, segment_of]

theorem segments_cursor_at (LOAD WRITE : Nat) (img : elf_image) :
    ∀ fuel j, j ≤ img.phdrs.length →
      (∀ h : j < img.phdrs.length, (img.phdrs.get ⟨j, h⟩).p_type = LOAD) →
      img.phdrs.length - j ≤ fuel →
      program_loader.segments LOAD WRITE fuel (cursor_at img j)
        = some (((img.phdrs.drop j).filter (fun p => decide (p.p_type = LOAD))).map
            (segment_of WRITE img), cursor_at img img.phdrs.length) := by
  intro fuel
  induction fuel with
  | zero =>
    intro j hj _ hf
    have hjl : j = img.phdrs.length := by omega
    subst hjl
    simp [program_loader.segments, program_loader.present, cursor_at]
  | succ f ih =>
    intro j hj hfix hf
    by_cases hjl : j = img.phdrs.length
    · subst hjl
      simp [program_loader.segments, program_loader.present, cursor_at]
    · have hlt : j < img.phdrs.length := by omega
      have hpres : (cursor_at img j).present = true := by
        have hne : (some j : Option Nat) ≠ some img.phdrs.length := by
          intro h; injection h with h; omega
        simp [program_loader.present, cursor_at, hne]
      obtain ⟨j1, g1, g2, g3, g4, g5⟩ := fix_cursor_at LOAD img (j + 1) (by omega)
      have hrec := ih j1 g3 g4 (by omega)
      rw [program_loader.segments]
      simp only [hpres, if_true, observe_cursor_at WRITE img j hlt,
        operator_inc_cursor_at LOAD img j hlt, g1, hrec]
      rw [List.drop_eq_getElem_cons hlt, List.filter_cons_of_pos, g5]
      · simp
      · simpa using hfix hlt

theorem advance_cursor_at (LOAD : Nat) (img : elf_image) :
    ∀ n j, j ≤ img.phdrs.length →
      ∃ j1, program_loader.advance LOAD n (cursor_at img j) = some (cursor_at img j1) ∧
        j1 ≤ img.phdrs.length := by
  intro n
  induction n with
  | zero => intro j hj; exact ⟨j, rfl, hj⟩
  | succ k ih =>
    intro j hj
    by_cases hjl : j = img.phdrs.length
    · subst hjl
      obtain ⟨j1, h1, h2⟩ := ih img.phdrs.length (le_refl _)
      exact ⟨j1, by simp only [program_loader.advance, operator_inc_cursor_end, h1], h2⟩
    · have hlt : j < img.phdrs.length := by omega
      obtain ⟨j1, g1, _, g3, _, _⟩ := fix_cursor_at LOAD img (j + 1) (by omega)
      obtain ⟨j2, h1, h2⟩ := ih j1 g3
      exact ⟨j2, by simp only [program_loader.advance, operator_inc_cursor_at LOAD img j hlt,
        g1, h1], h2⟩

theorem reset_of_image (MAGIC LOAD : Nat) (img : elf_image) (ph endph : Option Nat)
    (hmagic : img.e_magic = MAGIC) :
    program_loader.reset MAGIC LOAD { elf_ := some img, ph_ := ph, endph_ := endph }
      = program_loader.fix LOAD (cursor_at img 0) := by
  simp [program_loader.reset, hmagic, cursor_at]

/-- Claim C4: for every ELF image `img` with valid magic, whatever `ph_` and
`endph_` hold beforehand, `reset()` (and so the constructor, which selects the
image from the catalog and calls `reset()`) returns a cursor `pl0` from which
reading the accessors and applying `operator++` while `present()` holds
observes exactly the program headers of type `ELF_PTYPE_LOAD`, in the order of
the header array, each as `va = p_va`, `size = p_memsz`,
`data = image + p_offset`, `data_size = p_filesz`,
`writable = (p_flags & ELF_PFLAG_WRITE) != 0`; the final cursor is not
`present()`; every number of `operator++` calls from `pl0` returns, and
`reset()` on the cursor so reached gives `pl0` again, so the same sequence is
replayed. -/
theorem program_loader_segments (ELF_MAGIC ELF_PTYPE_LOAD ELF_PFLAG_WRITE : Nat)
    (img : elf_image) (ph0 endph0 : Option Nat) (hmagic : img.e_magic = ELF_MAGIC) :
    ∃ pl0 fin : program_loader,
      program_loader.reset ELF_MAGIC ELF_PTYPE_LOAD
          { elf_ := some img, ph_ := ph0, endph_ := endph0 } = some pl0 ∧
      (∀ (ramimages : List ramimage) (n : Nat) (name : String),
        ramimages[n]? = some { name := name, begin := img } →
        program_loader.mk_number ELF_MAGIC ELF_PTYPE_LOAD ramimages ph0 endph0 (n : Int)
          = some pl0) ∧
      program_loader.segments ELF_PTYPE_LOAD ELF_PFLAG_WRITE img.phdrs.length pl0
        = some ((img.phdrs.filter (fun p => decide (p.p_type = ELF_PTYPE_LOAD))).map
            (segment_of ELF_PFLAG_WRITE img), fin) ∧
      fin.present = false ∧
      (∀ n, ∃ pl1, program_loader.advance ELF_PTYPE_LOAD n pl0 = some pl1 ∧
        program_loader.reset ELF_MAGIC ELF_PTYPE_LOAD pl1 = some pl0) := by
  obtain ⟨j0, g1, _, g3, g4, g5⟩ := fix_cursor_at ELF_PTYPE_LOAD img 0 (Nat.zero_le _)
  have hreset : ∀ ph endph, program_loader.reset ELF_MAGIC ELF_PTYPE_LOAD
      { elf_ := some img, ph_ := ph, endph_ := endph } = some (cursor_at img j0) := by
    intro ph endph
    rw [reset_of_image ELF_MAGIC ELF_PTYPE_LOAD img ph endph hmagic, g1]
  have hseg := segments_cursor_at ELF_PTYPE_LOAD ELF_PFLAG_WRITE img img.phdrs.length j0 g3 g4
    (by omega)
  rw [← g5, List.drop_zero] at hseg
  refine ⟨cursor_at img j0, cursor_at img img.phdrs.length, hreset ph0 endph0, ?_, hseg, ?_, ?_⟩
  · intro ramimages n name hn
    have hlen : n < ramimages.length := by
      rcases List.getElem?_eq_some.1 hn with ⟨h, _⟩
      exact h
    simp only [program_loader.mk_number, Int.toNat_ofNat, hn, Option.map_some', ge_iff_le,
      Int.ofNat_zero_le, hlen, and_self, if_true]
    exact hreset ph0 endph0
  · simp [program_loader.present, cursor_at]
  · intro n
    obtain ⟨j1, h1, _⟩ := advance_cursor_at ELF_PTYPE_LOAD img n j0 g3
    exact ⟨cursor_at img j1, h1, hreset _ _⟩

/-- Witness for C4: the loader over `example_image`, whose second header is
not loadable. -/
theorem program_loader_segments_witness :
    ∃ pl0 fin : program_loader,
      program_loader.reset 0x464C457F 1 { elf_ := some example_image, ph_ := none, endph_ := none }
        = some pl0 ∧
      (∀ (ramimages : List ramimage) (n : Nat) (name : String),
        ramimages[n]? = some { name := name, begin := example_image } →
        program_loader.mk_number 0x464C457F 1 ramimages none none (n : Int) = some pl0) ∧
      program_loader.segments 1 2 example_image.phdrs.length pl0
        = some ((example_image.phdrs.filter (fun p => decide (p.p_type = 1))).map
            (segment_of 2 example_image), fin) ∧
      fin.present = false ∧
      (∀ n, ∃ pl1, program_loader.advance 1 n pl0 = some pl1 ∧
        program_loader.reset 0x464C457F 1 pl1 = some pl0) :=
  program_loader_segments 0x464C457F 1 2 example_image none none rfl

/-! ## Claim C5: zero-size attribution of `lookup_symbol` -/

theorem lookup_loop_zero_size (symtab : elf_symtabref) (addr k : Nat)
    (hk : k < symtab.nsym)
    (hsorted : ∀ i j, i < j → j < symtab.nsym →
      (symtab.sym i).st_value < (symtab.sym j).st_value)
    (honly : ∀ m, m < k → (symtab.sym m).st_size ≠ 0 →
      ¬ addr < ((symtab.sym m).st_value + (symtab.sym m).st_size) % 2 ^ 64)
    (hsize : (symtab.sym k).st_size = 0) (hle : (symtab.sym k).st_value ≤ addr)
    (hnext : k + 1 = symtab.nsym ∨ addr < (symtab.sym (k + 1)).st_value) :
    ∀ fuel l r, l ≤ k → k < r → r ≤ symtab.nsym → r - l ≤ fuel →
      lookup_loop symtab addr fuel l r
        = some (some (symtab.strtab + (symtab.sym k).st_name, (symtab.sym k).st_value)) := by
  intro fuel
  induction fuel with
  | zero => intro l r h1 h2 _ h4; omega
  | succ f ih =>
    intro l r h1 h2 h3 h4
    have hlr : l < r := by omega
    rw [lookup_loop]
    simp only [hlr, if_true, Nat.shiftRight_eq_div_pow, pow_one]
    have hm1 : l ≤ l + (r - l) / 2 := by omega
    have hm2 : l + (r - l) / 2 < r := by omega
    generalize l + (r - l) / 2 = m at hm1 hm2
    rcases Nat.lt_trichotomy m k with hmk | hmk | hmk
    · -- an entry before `k`: no match, continue to the right
      have hv : (symtab.sym m).st_value < (symtab.sym k).st_value := hsorted m k hmk hk
      have hv1 : (symtab.sym (m + 1)).st_value ≤ (symtab.sym k).st_value := by
        rcases Nat.lt_or_ge (m + 1) k with h | h
        · exact Nat.le_of_lt (hsorted (m + 1) k h hk)
        · have : m + 1 = k := by omega
          rw [this]
      have hno : ¬ ((symtab.sym m).st_value ≤ addr
          ∧ (if (symtab.sym m).st_size ≠ 0 then
              addr < ((symtab.sym m).st_value + (symtab.sym m).st_size) % 2 ^ 64
             else m + 1 = symtab.nsym ∨ addr < (symtab.sym (m + 1)).st_value)) := by
        rintro ⟨_, h⟩
        by_cases hs : (symtab.sym m).st_size ≠ 0
        · rw [if_pos hs] at h
          exact honly m hmk hs h
        · rw [if_neg hs] at h
          rcases h with h | h <;> omega
      rw [if_neg hno, if_pos (by omega)]
      exact ih (m + 1) r (by omega) h2 h3 (by omega)
    · -- the entry `k` itself
      subst hmk
      have hyes : (symtab.sym m).st_value ≤ addr
          ∧ (if (symtab.sym m).st_size ≠ 0 then
              addr < ((symtab.sym m).st_value + (symtab.sym m).st_size) % 2 ^ 64
             else m + 1 = symtab.nsym ∨ addr < (symtab.sym (m + 1)).st_value) := by
        refine ⟨hle, ?_⟩
        rw [if_neg (by simp [hsize])]
        exact hnext
      rw [if_pos hyes]
    · -- an entry after `k`: it starts beyond `addr`, continue to the left
      have hmn : m < symtab.nsym := by omega
      have hk1 : addr < (symtab.sym (k + 1)).st_value := by
        rcases hnext with h | h
        · omega
        · exact h
      have hv : (symtab.sym (k + 1)).st_value ≤ (symtab.sym m).st_value := by
        rcases Nat.lt_or_ge (k + 1) m with h | h
        · exact Nat.le_of_lt (hsorted (k + 1) m h hmn)
        · have : k + 1 = m := by omega
          rw [this]
      have hno : ¬ ((symtab.sym m).st_value ≤ addr
          ∧ (if (symtab.sym m).st_size ≠ 0 then
              addr < ((symtab.sym m).st_value + (symtab.sym m).st_size) % 2 ^ 64
             else m + 1 = symtab.nsym ∨ addr < (symtab.sym (m + 1)).st_value)) := by
        rintro ⟨h, _⟩
        omega
      rw [if_neg hno, if_neg (by omega)]
      exact ih l m h1 hmk (by omega) (by omega)

/-- Counterexample to C5 as stated. In the strictly sorted table
`overlapping_symbols` the last entry (index 2) has size 0 and starts at
20 ≤ 30, yet `lookup_symbol(30)` reports entry 1 (start 10), whose extent
`[10, 110)` the search meets first. In the sorted table `duplicate_symbols` the
last entry has size 0 and starts at 10 ≤ 10, yet `lookup_symbol(10)` returns
false. -/
theorem lookup_symbol_zero_size_counterexample :
    (List.Pairwise (fun a b => a.st_value < b.st_value) overlapping_symbols ∧
      ((symtab_of_list overlapping_symbols 0x2000000).sym 2).st_size = 0 ∧
      ((symtab_of_list overlapping_symbols 0x2000000).sym 2).st_value ≤ 30 ∧
      2 + 1 = (symtab_of_list overlapping_symbols 0x2000000).nsym ∧
      (lookup_symbol 0x58000 0x58000 0 (symtab_of_list overlapping_symbols 0x2000000) 30).1
        = some (some (0x2000000 + 8, 10)) ∧
      (lookup_symbol 0x58000 0x58000 0 (symtab_of_list overlapping_symbols 0x2000000) 30).1
        ≠ some (some (0x2000000 + 16, 20))) ∧
    (List.Pairwise (fun a b => a.st_value ≤ b.st_value) duplicate_symbols ∧
      ((symtab_of_list duplicate_symbols 0x2000000).sym 2).st_size = 0 ∧
      ((symtab_of_list duplicate_symbols 0x2000000).sym 2).st_value ≤ 10 ∧
      2 + 1 = (symtab_of_list duplicate_symbols 0x2000000).nsym ∧
      (lookup_symbol 0x58000 0x58000 0 (symtab_of_list duplicate_symbols 0x2000000) 10).1
        = some none) := by
  decide

/-- Claim C5, amended: for every symbol table whose start addresses are
strictly increasing, when running under the kernel paging root, if entry `k`
has `st_size == 0` and `st_value[k] <= addr`, either `k` is the last entry or
`addr < st_value[k+1]`, and no sized entry before `k` encloses `addr`, then
`lookup_symbol(addr)` returns true and reports the name and the start address
of entry `k`. -/
theorem lookup_symbol_zero_size (cr3 kernel_pagetable pt_entry : Nat)
    (symtab : elf_symtabref) (addr k : Nat)
    (hcr3 : cr3 = kernel_pagetable)
    (hk : k < symtab.nsym)
    (hsorted : ∀ i j, i < j → j < symtab.nsym →
      (symtab.sym i).st_value < (symtab.sym j).st_value)
    (honly : ∀ m, m < k → (symtab.sym m).st_size ≠ 0 →
      ¬ addr < ((symtab.sym m).st_value + (symtab.sym m).st_size) % 2 ^ 64)
    (hsize : (symtab.sym k).st_size = 0) (hle : (symtab.sym k).st_value ≤ addr)
    (hnext : k + 1 = symtab.nsym ∨ addr < (symtab.sym (k + 1)).st_value) :
    (lookup_symbol cr3 kernel_pagetable pt_entry symtab addr).1
      = some (some (symtab.strtab + (symtab.sym k).st_name, (symtab.sym k).st_value)) := by
  unfold lookup_symbol
  rw [if_neg (by simpa using hcr3)]
  exact lookup_loop_zero_size symtab addr k hk hsorted honly hsize hle hnext symtab.nsym 0
    symtab.nsym (Nat.zero_le _) hk (le_refl _) (by omega)

/-- Witness for C5 (amended): an address beyond the trailing catch-all of
`example_symbols` is attributed to it. -/
theorem lookup_symbol_zero_size_witness :
    (lookup_symbol 0x58000 0x58000 0 (symtab_of_list example_symbols 0x2000000) 0x60000).1
      = some (some (0x2000000 + 24, 0x50000)) :=
  lookup_symbol_zero_size 0x58000 0x58000 0 (symtab_of_list example_symbols 0x2000000)
    0x60000 3 rfl (by decide)
    (by
      intro i j hij hj
      have hj4 : j < 4 := hj
      interval_cases j <;> interval_cases i <;> decide)
    (by
      intro m hm
      interval_cases m <;> decide)
    (by decide) (by decide) (Or.inl (by decide))

/-! ## Claims C6 and C7: physical-address classification -/

theorem reserved_iff (pa : Nat) :
    reserved_physical_address pa = true ↔ (pa < 4096 ∨ (0xA0000 ≤ pa ∧ pa < 0x100000)) := by
  simp [reserved_physical_address, PAGESIZE, IOPHYSMEM, EXTPHYSMEM]

theorem allocatable_true_iff (_kernel_end pa : Nat) :
    allocatable_physical_address _kernel_end pa = true ↔
      ¬ ((pa < 4096 ∨ (0xA0000 ≤ pa ∧ pa < 0x100000))
        ∨ (KERNEL_START_ADDR ≤ pa ∧ pa < round_up _kernel_end PAGESIZE)
        ∨ (KERNEL_STACK_TOP - PAGESIZE ≤ pa ∧ pa < KERNEL_STACK_TOP)
        ∨ pa ≥ MEMSIZE_PHYSICAL) := by
  unfold allocatable_physical_address
  simp only [Bool.and_eq_true, Bool.not_eq_true', Bool.or_eq_true, decide_eq_true_eq,
    ← Bool.not_eq_true, reserved_iff]
  generalize round_up _kernel_end PAGESIZE = ru
  simp only [KERNEL_START_ADDR, KERNEL_STACK_TOP, PAGESIZE, MEMSIZE_PHYSICAL]
  omega

/-- Claim C6: for every `pa` and every kernel image end, `pa` is not
allocatable if it lies in one of the excluded bands (reserved, kernel image
from `KERNEL_START_ADDR` up to the rounded-up end, the page below
`KERNEL_STACK_TOP`, at or beyond `MEMSIZE_PHYSICAL`) and allocatable for every
other `pa`; and `pa` is reserved exactly when `pa < 4096` or
`0xA0000 ≤ pa < 0x100000`. -/
theorem allocatable_physical_address_iff (_kernel_end pa : Nat) :
    (allocatable_physical_address _kernel_end pa = false ↔
      ((pa < 4096 ∨ (0xA0000 ≤ pa ∧ pa < 0x100000))
        ∨ (KERNEL_START_ADDR ≤ pa ∧ pa < round_up _kernel_end PAGESIZE)
        ∨ (KERNEL_STACK_TOP - PAGESIZE ≤ pa ∧ pa < KERNEL_STACK_TOP)
        ∨ pa ≥ MEMSIZE_PHYSICAL)) ∧
    (allocatable_physical_address _kernel_end pa = true ↔
      ¬ ((pa < 4096 ∨ (0xA0000 ≤ pa ∧ pa < 0x100000))
        ∨ (KERNEL_START_ADDR ≤ pa ∧ pa < round_up _kernel_end PAGESIZE)
        ∨ (KERNEL_STACK_TOP - PAGESIZE ≤ pa ∧ pa < KERNEL_STACK_TOP)
        ∨ pa ≥ MEMSIZE_PHYSICAL)) ∧
    (reserved_physical_address pa = true ↔ (pa < 4096 ∨ (0xA0000 ≤ pa ∧ pa < 0x100000))) := by
  refine ⟨?_, allocatable_true_iff _kernel_end pa, reserved_iff pa⟩
  rw [← Bool.not_eq_true, allocatable_true_iff, not_not]

/-- Counterexample to C7 as stated: with the kernel image ending exactly at
the stack page (`_kernel_end = 0x7F000`), neither
`round_up(_kernel_end, PAGESIZE)` nor `KERNEL_STACK_TOP - PAGESIZE - 1` is
allocatable. -/
theorem allocatable_boundary_counterexample :
    allocatable_physical_address 0x7F000 (round_up 0x7F000 PAGESIZE) = false ∧
      allocatable_physical_address 0x7F000 (KERNEL_STACK_TOP - PAGESIZE - 1) = false := by
  decide

/-- Claim C7, amended: when the rounded-up end of the kernel image lies at or
above one page and strictly below the stack page
(`PAGESIZE ≤ round_up(_kernel_end) < KERNEL_STACK_TOP - PAGESIZE`), the
address immediately outside each excluded band is allocatable. -/
theorem allocatable_outside_bands (_kernel_end : Nat)
    (hlo : PAGESIZE ≤ round_up _kernel_end PAGESIZE)
    (hhi : round_up _kernel_end PAGESIZE < KERNEL_STACK_TOP - PAGESIZE) :
    allocatable_physical_address _kernel_end 4096 = true ∧
      allocatable_physical_address _kernel_end (0xA0000 - 1) = true ∧
      allocatable_physical_address _kernel_end 0x100000 = true ∧
      allocatable_physical_address _kernel_end (KERNEL_START_ADDR - 1) = true ∧
      allocatable_physical_address _kernel_end (round_up _kernel_end PAGESIZE) = true ∧
      allocatable_physical_address _kernel_end (KERNEL_STACK_TOP - PAGESIZE - 1) = true ∧
      allocatable_physical_address _kernel_end KERNEL_STACK_TOP = true := by
  simp only [allocatable_true_iff]
  generalize round_up _kernel_end PAGESIZE = ru at hlo hhi ⊢
  simp only [KERNEL_START_ADDR, KERNEL_STACK_TOP, PAGESIZE, MEMSIZE_PHYSICAL] at hlo hhi ⊢
  omega

/-- Witness for C7 (amended): a kernel image that ends at 0x5A123. -/
theorem allocatable_outside_bands_witness :
    allocatable_physical_address 0x5A123 4096 = true ∧
      allocatable_physical_address 0x5A123 (0xA0000 - 1) = true ∧
      allocatable_physical_address 0x5A123 0x100000 = true ∧
      allocatable_physical_address 0x5A123 (KERNEL_START_ADDR - 1) = true ∧
      allocatable_physical_address 0x5A123 (round_up 0x5A123 PAGESIZE) = true ∧
      allocatable_physical_address 0x5A123 (KERNEL_STACK_TOP - PAGESIZE - 1) = true ∧
      allocatable_physical_address 0x5A123 KERNEL_STACK_TOP = true :=
  allocatable_outside_bands 0x5A123 (by decide) (by decide)

/-! ## Claim C8: `set_pagetable` validates before switching -/

/-- Claim C8: `check_pagetable` passes exactly when the candidate is
page-aligned and the three cross-mappings resolve to themselves;
`set_pagetable` returns having written the candidate to the paging root
register exactly in that case, and otherwise the assertion fires with the
paging root register (and the record of writes to it) unchanged. -/
theorem set_pagetable_validates (vmiter_pa : Nat → Nat → Nat)
    (exception_entry kernel_pagetable : Nat) (s : cpu_state) (pagetable : Nat) :
    (check_pagetable vmiter_pa exception_entry kernel_pagetable s pagetable = outcome.returned s
      ↔ (pagetable % PAGESIZE = 0 ∧ vmiter_pa pagetable exception_entry = exception_entry
          ∧ vmiter_pa kernel_pagetable pagetable = pagetable
          ∧ vmiter_pa pagetable kernel_pagetable = kernel_pagetable)) ∧
    (set_pagetable vmiter_pa exception_entry kernel_pagetable s pagetable
        = outcome.returned { cr3 := pagetable, cr3_writes := s.cr3_writes ++ [pagetable] }
      ↔ (pagetable % PAGESIZE = 0 ∧ vmiter_pa pagetable exception_entry = exception_entry
          ∧ vmiter_pa kernel_pagetable pagetable = pagetable
          ∧ vmiter_pa pagetable kernel_pagetable = kernel_pagetable)) ∧
    (set_pagetable vmiter_pa exception_entry kernel_pagetable s pagetable
        = outcome.assertion_failed s
      ↔ ¬ (pagetable % PAGESIZE = 0 ∧ vmiter_pa pagetable exception_entry = exception_entry
          ∧ vmiter_pa kernel_pagetable pagetable = pagetable
          ∧ vmiter_pa pagetable kernel_pagetable = kernel_pagetable)) := by
  have hmask : pagetable &&& PAGEOFFMASK = pagetable % PAGESIZE := by
    have h : PAGEOFFMASK = 2 ^ 12 - 1 := by decide
    have h2 : PAGESIZE = 2 ^ 12 := by decide
    rw [h, h2, Nat.and_pow_two_sub_one_eq_mod]
  unfold set_pagetable check_pagetable wrcr3
  rw [hmask]
  by_cases h1 : pagetable % PAGESIZE = 0 <;>
    by_cases h2 : vmiter_pa pagetable exception_entry = exception_entry <;>
    by_cases h3 : vmiter_pa kernel_pagetable pagetable = pagetable <;>
    by_cases h4 : vmiter_pa pagetable kernel_pagetable = kernel_pagetable <;>
    simp [h1, h2, h3, h4]

/-! ## Claim C9: the initialisation guard, one thread -/

/-- Claim C9: on an uninitialised guard (0) `__cxa_guard_acquire` returns 1
and leaves the guard initialising (1); `__cxa_guard_release` makes the guard
initialised (2); on an initialised guard every `__cxa_guard_acquire` returns
0 and leaves it initialised, so any number `n` of acquires after a release
all return 0. -/
theorem cxa_guard_sequential (fuel n g : Nat) :
    __cxa_guard_acquire (fuel + 1) 0 = some (1, 1) ∧
      __cxa_guard_release g = 2 ∧
      __cxa_guard_acquire fuel 2 = some (0, 2) ∧
      guard_acquires fuel n (__cxa_guard_release g) = some (List.replicate n 0, 2) := by
  refine ⟨rfl, rfl, rfl, ?_⟩
  induction n with
  | zero => rfl
  | succ k ih =>
    have h2 : __cxa_guard_release g = 2 := rfl
    rw [h2] at ih ⊢
    simp only [guard_acquires, __cxa_guard_acquire, if_true, ih, List.replicate_succ]

/-! ## Claim C10: the initialisation guard under contention -/

theorem guard_inv_start (T : Nat) : guard_inv T guard_system.start where
  guard_le := Or.inl rfl
  outside := fun _ _ => rfl
  holder_unique := fun j k hj _ => by simp [guard_system.start, guard_pc.holder] at hj
  holder_iff := by simp [guard_system.start, guard_pc.holder]
  fresh := fun _ _ => Or.inl rfl
  stored_iff := by simp [guard_system.start]
  winner_unique := fun j k hj _ => by simp [guard_system.start, guard_pc.winner] at hj
  not_stored := fun _ => by simp [guard_system.start]

theorem guard_inv_update (T : Nat) (s : guard_system) (i : Nat) (hi : i < T) (g : Nat) (st : Bool)
    (p : guard_pc) (h : guard_inv T s)
    (hg : g = 0 ∨ g = 1 ∨ g = 2)
    (hhold : p.holder = true → ∀ j, j ≠ i → (s.pc j).holder = false)
    (hiff : g = 1 ↔ (p.holder = true ∨ ∃ j, j ≠ i ∧ (s.pc j).holder = true))
    (hfresh : g = 0 → (p = guard_pc.load ∨ p = guard_pc.exchange1) ∧
      ∀ j, j ≠ i → (s.pc j = guard_pc.load ∨ s.pc j = guard_pc.exchange1))
    (hstored : st = true ↔ (p = guard_pc.released ∨ ∃ j, j ≠ i ∧ s.pc j = guard_pc.released))
    (hwin : p.winner = true → ∀ j, j ≠ i → (s.pc j).winner = false)
    (hnot : st = false → g ≠ 2 ∧ p ≠ guard_pc.exchange2 ∧ p ≠ guard_pc.returned0 ∧
      ∀ j, j ≠ i → s.pc j ≠ guard_pc.exchange2 ∧ s.pc j ≠ guard_pc.returned0) :
    guard_inv T { guard := g, stored2 := st, pc := Function.update s.pc i p } where
  guard_le := hg
  outside := by
    intro j hj
    have hne : j ≠ i := by omega
    simp only [Function.update_noteq hne]
    exact h.outside j hj
  holder_unique := by
    intro j k hj hk
    simp only at hj hk
    by_cases hji : j = i
    · by_cases hki : k = i
      · rw [hji, hki]
      · rw [hji, Function.update_same] at hj
        rw [Function.update_noteq hki] at hk
        rw [hhold hj k hki] at hk
        cases hk
    · by_cases hki : k = i
      · rw [hki, Function.update_same] at hk
        rw [Function.update_noteq hji] at hj
        rw [hhold hk j hji] at hj
        cases hj
      · rw [Function.update_noteq hji] at hj
        rw [Function.update_noteq hki] at hk
        exact h.holder_unique j k hj hk
  holder_iff := by
    simp only
    rw [hiff]
    constructor
    · rintro ⟨j, hj⟩
      by_cases hji : j = i
      · rw [hji, Function.update_same] at hj
        exact Or.inl hj
      · rw [Function.update_noteq hji] at hj
        exact Or.inr ⟨j, hji, hj⟩
    · rintro (hp | ⟨j, hji, hj⟩)
      · exact ⟨i, by rw [Function.update_same]; exact hp⟩
      · exact ⟨j, by rw [Function.update_noteq hji]; exact hj⟩
  fresh := by
    intro h0 j
    simp only at h0 ⊢
    by_cases hji : j = i
    · rw [hji, Function.update_same]
      exact (hfresh h0).1
    · rw [Function.update_noteq hji]
      exact (hfresh h0).2 j hji
  stored_iff := by
    simp only
    rw [hstored]
    constructor
    · rintro (hp | ⟨j, hji, hj⟩)
      · exact ⟨i, by rw [Function.update_same]; exact hp⟩
      · exact ⟨j, by rw [Function.update_noteq hji]; exact hj⟩
    · rintro ⟨j, hj⟩
      by_cases hji : j = i
      · rw [hji, Function.update_same] at hj
        exact Or.inl hj
      · rw [Function.update_noteq hji] at hj
        exact Or.inr ⟨j, hji, hj⟩
  winner_unique := by
    intro j k hj hk
    simp only at hj hk
    by_cases hji : j = i
    · by_cases hki : k = i
      · rw [hji, hki]
      · rw [hji, Function.update_same] at hj
        rw [Function.update_noteq hki] at hk
        rw [hwin hj k hki] at hk
        cases hk
    · by_cases hki : k = i
      · rw [hki, Function.update_same] at hk
        rw [Function.update_noteq hji] at hj
        rw [hwin hk j hji] at hj
        cases hj
      · rw [Function.update_noteq hji] at hj
        rw [Function.update_noteq hki] at hk
        exact h.winner_unique j k hj hk
  not_stored := by
    intro hs
    simp only at hs ⊢
    obtain ⟨h1, h2, h3, h4⟩ := hnot hs
    refine ⟨h1, fun j => ?_⟩
    by_cases hji : j = i
    · rw [hji, Function.update_same]
      exact ⟨h2, h3⟩
    · rw [Function.update_noteq hji]
      exact h4 j hji

theorem exists_split (P : Nat → Prop) (i : Nat) : (∃ j, P j) ↔ (P i ∨ ∃ j, j ≠ i ∧ P j) := by
  constructor
  · rintro ⟨j, hj⟩
    by_cases hji : j = i
    · exact Or.inl (hji ▸ hj)
    · exact Or.inr ⟨j, hji, hj⟩
  · rintro (h | ⟨j, _, hj⟩)
    · exact ⟨i, h⟩
    · exact ⟨j, hj⟩

theorem guard_inv_step (T : Nat) (s : guard_system) (i : Nat) (b : Bool) (h : guard_inv T s) :
    guard_inv T (s.step T i b) := by
  by_cases hi : i < T
  swap
  · simp only [guard_system.step, if_neg hi]
    exact h
  simp only [guard_system.step, if_pos hi]
  have hiff := h.holder_iff
  have hsto := h.stored_iff
  rw [exists_split _ i] at hiff hsto
  have hhu : (s.pc i).holder = true → ∀ j, j ≠ i → (s.pc j).holder = false := by
    intro hp j hji
    cases hj : (s.pc j).holder with
    | false => rfl
    | true => exact absurd (h.holder_unique j i hj hp) hji
  have hwu : (s.pc i).winner = true → ∀ j, j ≠ i → (s.pc j).winner = false := by
    intro hp j hji
    cases hj : (s.pc j).winner with
    | false => rfl
    | true => exact absurd (h.winner_unique j i hj hp) hji
  have hnoh : s.guard ≠ 1 → ∀ j, (s.pc j).holder = false := by
    intro hg j
    cases hj : (s.pc j).holder with
    | false => rfl
    | true => exact absurd (h.holder_iff.1 ⟨j, hj⟩) hg
  have hfr0 : s.guard = 0 → ∀ j, (s.pc j).winner = false ∧ s.pc j ≠ guard_pc.released := by
    intro hg j
    rcases h.fresh hg j with hj | hj <;> rw [hj] <;> exact ⟨rfl, by decide⟩
  have hst0 : s.stored2 = true → s.guard ≠ 0 := by
    intro hs hg
    obtain ⟨w, hw⟩ := h.stored_iff.1 hs
    exact (hfr0 hg w).2 hw
  cases hpc : s.pc i with
  | load =>
    rw [hpc] at hiff hsto
    by_cases hb : (b && (s.stored2 || s.guard == 2)) = true
    · simp only [guard_thread_step, if_pos hb]
      have hs : s.stored2 = true := by
        cases hs : s.stored2 with
        | true => rfl
        | false =>
          have hg := (h.not_stored hs).1
          rw [hs] at hb
          simp [hg] at hb
      refine guard_inv_update T s i hi _ _ _ h h.guard_le (fun hp => absurd hp (by decide)) ?_ ?_ ?_
        (fun hp => absurd hp (by decide)) ?_
      · rw [← hiff]; simp [guard_pc.holder]
      · intro hg; exact absurd hg (hst0 hs)
      · rw [hsto]; simp
      · intro hf; rw [hs] at hf; cases hf
    · simp only [guard_thread_step, if_neg hb]
      refine guard_inv_update T s i hi _ _ _ h h.guard_le (fun hp => absurd hp (by decide)) ?_ ?_ ?_
        (fun hp => absurd hp (by decide)) ?_
      · rw [← hiff]; simp [guard_pc.holder]
      · intro hg; exact ⟨Or.inr rfl, fun j _ => h.fresh hg j⟩
      · rw [hsto]; simp
      · intro hf
        exact ⟨(h.not_stored hf).1, by decide, by decide, fun j _ => (h.not_stored hf).2 j⟩
  | exchange1 =>
    rw [hpc] at hiff hsto
    by_cases h2 : s.guard = 2
    · simp only [guard_thread_step, if_pos h2]
      have hs : s.stored2 = true := by
        cases hs : s.stored2 with
        | true => rfl
        | false => exact absurd h2 (h.not_stored hs).1
      refine guard_inv_update T s i hi _ _ _ h (Or.inr (Or.inl rfl))
        (fun _ j _ => hnoh (by omega) j) ?_ ?_ ?_ (fun hp => absurd hp (by decide)) ?_
      · simp [guard_pc.holder]
      · intro hg; cases hg
      · rw [hsto]; simp
      · intro hf; rw [hs] at hf; cases hf
    · by_cases h1 : s.guard = 1
      · simp only [guard_thread_step, if_neg h2, if_pos h1]
        refine guard_inv_update T s i hi _ _ _ h (Or.inr (Or.inl rfl))
          (fun hp => absurd hp (by decide)) ?_ ?_ ?_ (fun hp => absurd hp (by decide)) ?_
        · exact ⟨fun _ => hiff.2 h1, fun _ => rfl⟩
        · intro hg; cases hg
        · exact hsto
        · intro hf
          exact ⟨by omega, by decide, by decide, fun j _ => (h.not_stored hf).2 j⟩
      · simp only [guard_thread_step, if_neg h2, if_neg h1]
        have h0 : s.guard = 0 := by
          rcases h.guard_le with h0 | h0 | h0
          · exact h0
          · exact absurd h0 h1
          · exact absurd h0 h2
        have hs : s.stored2 = false := by
          cases hs : s.stored2 with
          | false => rfl
          | true => exact absurd h0 (hst0 hs)
        refine guard_inv_update T s i hi _ _ _ h (Or.inr (Or.inl rfl))
          (fun _ j _ => hnoh h1 j) ?_ ?_ ?_ (fun _ j _ => (hfr0 h0 j).1) ?_
        · simp [guard_pc.holder]
        · intro hg; cases hg
        · rw [hsto]; simp
        · intro hf
          exact ⟨by omega, by decide, by decide, fun j _ => (h.not_stored hf).2 j⟩
  | exchange2 =>
    rw [hpc] at hiff hsto hhu
    simp only [guard_thread_step]
    have hs : s.stored2 = true := by
      cases hs : s.stored2 with
      | true => rfl
      | false => exact absurd hpc ((h.not_stored hs).2 i).1
    refine guard_inv_update T s i hi _ _ _ h (Or.inr (Or.inr rfl))
      (fun hp => absurd hp (by decide)) ?_ ?_ ?_ (fun hp => absurd hp (by decide)) ?_
    · constructor
      · intro hg; cases hg
      · rintro (hp | ⟨j, hji, hj⟩)
        · exact absurd hp (by decide)
        · rw [hhu rfl j hji] at hj; cases hj
    · intro hg; cases hg
    · constructor
      · intro _
        rcases hsto.1 hs with hp | hj
        · exact absurd hp (by decide)
        · exact Or.inr hj
      · intro _; rfl
    · intro hf; cases hf
  | returned1 =>
    rw [hpc] at hiff hsto hhu hwu
    simp only [guard_thread_step]
    refine guard_inv_update T s i hi _ _ _ h (Or.inr (Or.inr rfl))
      (fun hp => absurd hp (by decide)) ?_ ?_ ?_ (fun _ j hji => hwu rfl j hji) ?_
    · constructor
      · intro hg; cases hg
      · rintro (hp | ⟨j, hji, hj⟩)
        · exact absurd hp (by decide)
        · rw [hhu rfl j hji] at hj; cases hj
    · intro hg; cases hg
    · simp
    · intro hf; cases hf
  | returned0 =>
    simp only [guard_thread_step]
    rw [← hpc, Function.update_eq_self]
    exact h
  | released =>
    simp only [guard_thread_step]
    rw [← hpc, Function.update_eq_self]
    exact h

theorem guard_inv_run (T : Nat) (sched : List (Nat × Bool)) :
    ∀ s : guard_system, guard_inv T s → guard_inv T (s.run T sched) := by
  induction sched with
  | nil => intro s h; exact h
  | cons e rest ih =>
    intro s h
    exact ih _ (guard_inv_step T s e.1 e.2 h)

theorem potential_update (T : Nat) (pc : Nat → guard_pc) (i : Nat) (hi : i < T) (p : guard_pc) :
    Finset.sum (Finset.range T) (fun x => (Function.update pc i p x).weight) + (pc i).weight
      = Finset.sum (Finset.range T) (fun x => (pc x).weight) + p.weight := by
  have hmem : i ∈ Finset.range T := Finset.mem_range.2 hi
  rw [← Finset.add_sum_erase _ _ hmem,
    ← Finset.add_sum_erase (Finset.range T) (fun x => (pc x).weight) hmem]
  have hrest : Finset.sum ((Finset.range T).erase i) (fun x => (Function.update pc i p x).weight)
      = Finset.sum ((Finset.range T).erase i) (fun x => (pc x).weight) := by
    apply Finset.sum_congr rfl
    intro x hx
    rw [Function.update_noteq (Finset.ne_of_mem_erase hx)]
  rw [hrest]
  simp only [Function.update_same]
  omega

theorem guard_thread_step_weight_le (g : Nat) (st : Bool) (pc : guard_pc) (b : Bool) :
    (guard_thread_step g st pc b).2.2.weight ≤ pc.weight := by
  cases pc <;> simp only [guard_thread_step] <;> (try split_ifs) <;> simp [guard_pc.weight]

theorem guard_thread_step_weight_lt (g : Nat) (st : Bool) (pc : guard_pc) (b : Bool)
    (h0 : pc ≠ guard_pc.returned0) (h1 : pc ≠ guard_pc.released)
    (hx : pc = guard_pc.exchange1 → g ≠ 1) :
    (guard_thread_step g st pc b).2.2.weight < pc.weight := by
  cases pc with
  | load => simp only [guard_thread_step]; split_ifs <;> simp [guard_pc.weight]
  | exchange1 =>
    have := hx rfl
    simp only [guard_thread_step]
    split_ifs <;> first | contradiction | simp [guard_pc.weight]
  | exchange2 => simp [guard_thread_step, guard_pc.weight]
  | returned1 => simp [guard_thread_step, guard_pc.weight]
  | returned0 => exact absurd rfl h0
  | released => exact absurd rfl h1

theorem potential_step_le (T : Nat) (s : guard_system) (i : Nat) (b : Bool) :
    (s.step T i b).potential T ≤ s.potential T := by
  by_cases hi : i < T
  · simp only [guard_system.step, if_pos hi, guard_system.potential]
    have h1 := potential_update T s.pc i hi (guard_thread_step s.guard s.stored2 (s.pc i) b).2.2
    have h2 := guard_thread_step_weight_le s.guard s.stored2 (s.pc i) b
    omega
  · simp only [guard_system.step, if_neg hi]
    exact Nat.le_refl _

theorem potential_step_lt (T : Nat) (s : guard_system) (i : Nat) (b : Bool)
    (h : s.helpful T i) : (s.step T i b).potential T < s.potential T := by
  obtain ⟨hi, h0, h1, hx⟩ := h
  simp only [guard_system.step, if_pos hi, guard_system.potential]
  have h3 := potential_update T s.pc i hi (guard_thread_step s.guard s.stored2 (s.pc i) b).2.2
  have h2 := guard_thread_step_weight_lt s.guard s.stored2 (s.pc i) b h0 h1 hx
  omega

theorem potential_run_le (T : Nat) (sched : List (Nat × Bool)) :
    ∀ s : guard_system, (s.run T sched).potential T ≤ s.potential T := by
  induction sched with
  | nil => intro s; exact Nat.le_refl _
  | cons e rest ih =>
    intro s
    exact Nat.le_trans (ih _) (potential_step_le T s e.1 e.2)

theorem helpful_persist (T : Nat) (s : guard_system) (h i : Nat) (b : Bool)
    (hh : s.helpful T h) (hne : i ≠ h) :
    (s.step T i b).potential T < s.potential T ∨ (s.step T i b).helpful T h := by
  by_cases hhi : s.helpful T i
  · exact Or.inl (potential_step_lt T s i b hhi)
  · right
    by_cases hi : i < T
    swap
    · simp only [guard_system.step, if_neg hi]
      exact hh
    obtain ⟨hT, h0, h1, hx⟩ := hh
    have hpc : (s.step T i b).pc h = s.pc h := by
      simp only [guard_system.step, if_pos hi]
      exact Function.update_noteq (Ne.symm hne) _ _
    refine ⟨hT, by rw [hpc]; exact h0, by rw [hpc]; exact h1, ?_⟩
    rw [hpc]
    intro he
    have hg := hx he
    have hdone : s.pc i = guard_pc.returned0 ∨ s.pc i = guard_pc.released := by
      by_contra hnd
      push_neg at hnd
      exact hhi ⟨hi, hnd.1, hnd.2, fun _ => hg⟩
    simp only [guard_system.step, if_pos hi]
    rcases hdone with hd | hd <;> rw [hd] <;> exact hg

theorem round_progress (T : Nat) (round : List (Nat × Bool)) :
    ∀ (s : guard_system) (h : Nat), s.helpful T h → (∃ b, (h, b) ∈ round) →
      (s.run T round).potential T < s.potential T := by
  induction round with
  | nil =>
    intro s h _ hmem
    obtain ⟨b, hb⟩ := hmem
    exact absurd hb (List.not_mem_nil _)
  | cons e rest ih =>
    intro s h hh hmem
    show ((s.step T e.1 e.2).run T rest).potential T < s.potential T
    by_cases he : e.1 = h
    · have h1 := potential_step_lt T s e.1 e.2 (he ▸ hh)
      have h2 := potential_run_le T rest (s.step T e.1 e.2)
      omega
    · rcases helpful_persist T s h e.1 e.2 hh he with hlt | hh1
      · have h2 := potential_run_le T rest (s.step T e.1 e.2)
        omega
      · obtain ⟨b, hb⟩ := hmem
        have hrest : (h, b) ∈ rest := by
          rcases List.mem_cons.1 hb with heq | hin
          · exact absurd (by rw [← heq]) he
          · exact hin
        have h1 := ih (s.step T e.1 e.2) h hh1 ⟨b, hrest⟩
        have h2 := potential_step_le T s e.1 e.2
        omega

theorem exists_helpful (T : Nat) (s : guard_system) (hinv : guard_inv T s)
    (hpos : 0 < s.potential T) : ∃ h, s.helpful T h := by
  have hex : ∃ p, p < T ∧ 0 < (s.pc p).weight := by
    by_contra hno
    push_neg at hno
    have : s.potential T = 0 := by
      unfold guard_system.potential
      apply Finset.sum_eq_zero
      intro x hx
      have := hno x (Finset.mem_range.1 hx)
      omega
    omega
  obtain ⟨p, hp, hw⟩ := hex
  by_cases hg : s.guard = 1
  · obtain ⟨j, hj⟩ := hinv.holder_iff.2 hg
    have hjT : j < T := by
      by_contra hge
      rw [hinv.outside j (by omega)] at hj
      cases hj
    refine ⟨j, hjT, ?_, ?_, ?_⟩
    · intro h0; rw [h0] at hj; cases hj
    · intro h0; rw [h0] at hj; cases hj
    · intro h0; rw [h0] at hj; cases hj
  · refine ⟨p, hp, ?_, ?_, fun _ => hg⟩
    · intro h0; rw [h0] at hw; exact absurd hw (by decide)
    · intro h0; rw [h0] at hw; exact absurd hw (by decide)

theorem fair_round_progress (T : Nat) (s : guard_system) (round : List (Nat × Bool))
    (hinv : guard_inv T s) (hfair : fair_round T round) (hpos : 0 < s.potential T) :
    (s.run T round).potential T < s.potential T := by
  obtain ⟨h, hh⟩ := exists_helpful T s hinv hpos
  exact round_progress T round s h hh (hfair h hh.1)

theorem guard_run_append (T : Nat) (s : guard_system) (a b : List (Nat × Bool)) :
    s.run T (a ++ b) = (s.run T a).run T b := by
  simp only [guard_system.run, List.foldl_append]

theorem fair_rounds_finish (T : Nat) (rounds : List (List (Nat × Bool))) :
    ∀ s : guard_system, guard_inv T s → (∀ r ∈ rounds, fair_round T r) →
      s.potential T ≤ rounds.length → (s.run T rounds.flatten).potential T = 0 := by
  induction rounds with
  | nil =>
    intro s _ _ hlen
    simp only [List.length_nil] at hlen
    simp only [List.flatten_nil, guard_system.run, List.foldl_nil]
    omega
  | cons r rest ih =>
    intro s hinv hfair hlen
    rw [List.flatten_cons, guard_run_append]
    apply ih _ (guard_inv_run T r s hinv) (fun r1 hr1 => hfair r1 (List.mem_cons_of_mem _ hr1))
    simp only [List.length_cons] at hlen
    by_cases hpos : 0 < s.potential T
    · have := fair_round_progress T s r hinv (hfair r (List.mem_cons_self _ _)) hpos
      omega
    · have := potential_run_le T r s
      omega

theorem potential_start (T : Nat) : guard_system.start.potential T = 3 * T := by
  simp [guard_system.potential, guard_system.start, guard_pc.weight, Nat.mul_comm]

theorem done_of_potential_zero (T : Nat) (s : guard_system) (h : s.potential T = 0) (i : Nat)
    (hi : i < T) : s.pc i = guard_pc.returned0 ∨ s.pc i = guard_pc.released := by
  have hz := (Finset.sum_eq_zero_iff.1 h) i (Finset.mem_range.2 hi)
  cases hpc : s.pc i <;> rw [hpc] at hz <;> first | exact Or.inl rfl | exact Or.inr rfl | cases hz

theorem released_lt (T : Nat) (s : guard_system) (hinv : guard_inv T s) (w : Nat)
    (hw : s.pc w ≠ guard_pc.load) : w < T := by
  by_contra hge
  exact hw (hinv.outside w (by omega))

theorem released_of_returned0 (T : Nat) (s : guard_system) (hinv : guard_inv T s) (i : Nat)
    (hi : s.pc i = guard_pc.returned0) : ∃ w, w < T ∧ s.pc w = guard_pc.released := by
  have hs : s.stored2 = true := by
    cases hs : s.stored2 with
    | true => rfl
    | false => exact absurd hi ((hinv.not_stored hs).2 i).2
  obtain ⟨w, hw⟩ := hinv.stored_iff.1 hs
  exact ⟨w, released_lt T s hinv w (by rw [hw]; decide), hw⟩

theorem guard_all_done (T : Nat) (hT : 1 ≤ T) (s : guard_system) (hinv : guard_inv T s)
    (hdone : ∀ i, i < T → s.pc i = guard_pc.returned0 ∨ s.pc i = guard_pc.released) :
    s.guard = 2 ∧ ∃ w, w < T ∧ s.pc w = guard_pc.released ∧
      ∀ i, i < T → i ≠ w → s.pc i = guard_pc.returned0 := by
  have hw : ∃ w, w < T ∧ s.pc w = guard_pc.released := by
    rcases hdone 0 (by omega) with h0 | h0
    · exact released_of_returned0 T s hinv 0 h0
    · exact ⟨0, by omega, h0⟩
  obtain ⟨w, hwT, hw⟩ := hw
  refine ⟨?_, w, hwT, hw, ?_⟩
  · rcases hinv.guard_le with hg | hg | hg
    · rcases hinv.fresh hg w with h | h <;> rw [hw] at h <;> cases h
    · obtain ⟨j, hj⟩ := hinv.holder_iff.2 hg
      have hjT : j < T := released_lt T s hinv j (by intro h; rw [h] at hj; cases hj)
      rcases hdone j hjT with h | h <;> rw [h] at hj <;> cases hj
    · exact hg
  · intro i hi hne
    rcases hdone i hi with h | h
    · exact h
    · exact absurd (hinv.winner_unique i w (by rw [h]; rfl) (by rw [hw]; rfl)) hne

/-- Claim C10: the initialisation guard under contention. `T >= 1` threads
call `__cxa_guard_acquire` on one uninitialised guard and the thread whose call
returns 1 then calls `__cxa_guard_release`; `sched` is any interleaving of
their atomic operations, with any outcome of the relaxed loads. In the state
it reaches: at most one call has returned 1; if a call has returned 0, the
winner has already executed its `__cxa_guard_release`; and if every call has
returned, exactly one returned 1 and the other `T - 1` returned 0. The calls
do return when the interleaving goes on fairly: after `3 * T` further rounds,
each scheduling every thread at least once, the guard is initialised (2), one
thread has returned 1 and released, and the calls of the other `T - 1`
threads have all returned 0. -/
theorem cxa_guard_contention (T : Nat) (hT : 1 ≤ T) (sched : List (Nat × Bool)) :
    (∀ i j, i < T → j < T →
        ((guard_system.start.run T sched).pc i = guard_pc.returned1 ∨
          (guard_system.start.run T sched).pc i = guard_pc.released) →
        ((guard_system.start.run T sched).pc j = guard_pc.returned1 ∨
          (guard_system.start.run T sched).pc j = guard_pc.released) → i = j) ∧
      ((∃ i, i < T ∧ (guard_system.start.run T sched).pc i = guard_pc.returned0) →
        ∃ w, w < T ∧ (guard_system.start.run T sched).pc w = guard_pc.released) ∧
      ((∀ i, i < T → (guard_system.start.run T sched).pc i = guard_pc.returned0 ∨
            (guard_system.start.run T sched).pc i = guard_pc.returned1 ∨
            (guard_system.start.run T sched).pc i = guard_pc.released) →
        ∃ w, w < T ∧
          ((guard_system.start.run T sched).pc w = guard_pc.returned1 ∨
            (guard_system.start.run T sched).pc w = guard_pc.released) ∧
          ∀ i, i < T → i ≠ w → (guard_system.start.run T sched).pc i = guard_pc.returned0) ∧
      (∀ rounds : List (List (Nat × Bool)), (∀ r ∈ rounds, fair_round T r) →
        3 * T ≤ rounds.length →
        ((guard_system.start.run T sched).run T rounds.flatten).guard = 2 ∧
          ∃ w, w < T ∧
            ((guard_system.start.run T sched).run T rounds.flatten).pc w = guard_pc.released ∧
            ∀ i, i < T → i ≠ w →
              ((guard_system.start.run T sched).run T rounds.flatten).pc i
                = guard_pc.returned0) := by
  have hinv := guard_inv_run T sched guard_system.start (guard_inv_start T)
  have hwin : ∀ i, ((guard_system.start.run T sched).pc i = guard_pc.returned1 ∨
      (guard_system.start.run T sched).pc i = guard_pc.released) →
      ((guard_system.start.run T sched).pc i).winner = true := by
    intro i hi
    rcases hi with h | h <;> rw [h] <;> rfl
  refine ⟨?_, ?_, ?_, ?_⟩
  · intro i j _ _ hi hj
    exact hinv.winner_unique i j (hwin i hi) (hwin j hj)
  · rintro ⟨i, _, hi⟩
    exact released_of_returned0 T _ hinv i hi
  · intro hall
    have hw : ∃ w, w < T ∧ ((guard_system.start.run T sched).pc w = guard_pc.returned1 ∨
        (guard_system.start.run T sched).pc w = guard_pc.released) := by
      rcases hall 0 (by omega) with h0 | h0 | h0
      · obtain ⟨w, hwT, hw⟩ := released_of_returned0 T _ hinv 0 h0
        exact ⟨w, hwT, Or.inr hw⟩
      · exact ⟨0, by omega, Or.inl h0⟩
      · exact ⟨0, by omega, Or.inr h0⟩
    obtain ⟨w, hwT, hw⟩ := hw
    refine ⟨w, hwT, hw, ?_⟩
    intro i hi hne
    rcases hall i hi with h | h | h
    · exact h
    · exact absurd (hinv.winner_unique i w (hwin i (Or.inl h)) (hwin w hw)) hne
    · exact absurd (hinv.winner_unique i w (hwin i (Or.inr h)) (hwin w hw)) hne
  · intro rounds hfair hlen
    have hpot : (guard_system.start.run T sched).potential T ≤ rounds.length := by
      have h1 := potential_run_le T sched guard_system.start
      rw [potential_start] at h1
      omega
    have hzero := fair_rounds_finish T rounds _ hinv hfair hpot
    exact guard_all_done T hT _ (guard_inv_run T rounds.flatten _ hinv)
      (done_of_potential_zero T _ hzero)

/-- Witness for C10: two threads. After `contended_interleaving` the call of
thread 0 has returned 1 and thread 1 is still at its exchange, where it stays
as long as thread 0 has not released; when thread 0 releases and thread 1 runs
on, the call of thread 1 returns 0. The rounds of `round_robin` are fair, and
after them the guard is initialised and every call has returned. -/
theorem cxa_guard_contention_witness :
    1 ≤ 2 ∧
      (guard_system.start.run 2 contended_interleaving).pc 0 = guard_pc.returned1 ∧
      (guard_system.start.run 2 contended_interleaving).pc 1 = guard_pc.exchange1 ∧
      (guard_system.start.run 2 (contended_interleaving ++ [(1, false), (1, true)])).pc 1
        = guard_pc.exchange1 ∧
      (guard_system.start.run 2 (contended_interleaving ++ [(0, false), (1, false), (1, false)])).pc 0
        = guard_pc.released ∧
      (guard_system.start.run 2 (contended_interleaving ++ [(0, false), (1, false), (1, false)])).pc 1
        = guard_pc.returned0 ∧
      (∀ r ∈ round_robin, fair_round 2 r) ∧ 3 * 2 ≤ round_robin.length ∧
      (((guard_system.start.run 2 contended_interleaving).run 2 round_robin.flatten).guard = 2 ∧
        ∃ w, w < 2 ∧
          ((guard_system.start.run 2 contended_interleaving).run 2 round_robin.flatten).pc w
            = guard_pc.released ∧
          ∀ i, i < 2 → i ≠ w →
            ((guard_system.start.run 2 contended_interleaving).run 2 round_robin.flatten).pc i
              = guard_pc.returned0) ∧
      ((∀ i j, i < 2 → j < 2 →
          ((guard_system.start.run 2 contended_interleaving).pc i = guard_pc.returned1 ∨
            (guard_system.start.run 2 contended_interleaving).pc i = guard_pc.released) →
          ((guard_system.start.run 2 contended_interleaving).pc j = guard_pc.returned1 ∨
            (guard_system.start.run 2 contended_interleaving).pc j = guard_pc.released) → i = j) ∧
        ((∃ i, i < 2 ∧ (guard_system.start.run 2 contended_interleaving).pc i
            = guard_pc.returned0) →
          ∃ w, w < 2 ∧ (guard_system.start.run 2 contended_interleaving).pc w
            = guard_pc.released) ∧
        ((∀ i, i < 2 → (guard_system.start.run 2 contended_interleaving).pc i
              = guard_pc.returned0 ∨
              (guard_system.start.run 2 contended_interleaving).pc i = guard_pc.returned1 ∨
              (guard_system.start.run 2 contended_interleaving).pc i = guard_pc.released) →
          ∃ w, w < 2 ∧
            ((guard_system.start.run 2 contended_interleaving).pc w = guard_pc.returned1 ∨
              (guard_system.start.run 2 contended_interleaving).pc w = guard_pc.released) ∧
            ∀ i, i < 2 → i ≠ w →
              (guard_system.start.run 2 contended_interleaving).pc i = guard_pc.returned0) ∧
        (∀ rounds : List (List (Nat × Bool)), (∀ r ∈ rounds, fair_round 2 r) →
          3 * 2 ≤ rounds.length →
          ((guard_system.start.run 2 contended_interleaving).run 2 rounds.flatten).guard = 2 ∧
            ∃ w, w < 2 ∧
              ((guard_system.start.run 2 contended_interleaving).run 2 rounds.flatten).pc w
                = guard_pc.released ∧
              ∀ i, i < 2 → i ≠ w →
                ((guard_system.start.run 2 contended_interleaving).run 2 rounds.flatten).pc i
                  = guard_pc.returned0)) :=
  have hfair : ∀ r ∈ round_robin, fair_round 2 r := by
    intro r hr
    rw [List.eq_of_mem_replicate hr]
    intro i hi
    refine ⟨false, ?_⟩
    interval_cases i <;> simp
  ⟨by decide, by decide, by decide, by decide, by decide, by decide, hfair, by decide,
    (cxa_guard_contention 2 (by decide) contended_interleaving).2.2.2 round_robin hfair
      (by decide),
    cxa_guard_contention 2 (by decide) contended_interleaving⟩

/-! ## Claim C11: `set_sys_segment` round-trips base and limit -/

theorem gate_descriptor_decode (g : x86_64_gatedescriptor) (addr type dpl ist : Nat)
    (ht : type < 16) (hd : dpl < 4) (hi : ist < 8)
    (hlow : g.gd_low = addr % 2 ^ 16 + SEGSEL_KERN_CODE * 2 ^ 16 + ist * 2 ^ 32 + type * 2 ^ 40
      + dpl * 2 ^ 45 + 2 ^ 47 + (addr / 2 ^ 16 % 2 ^ 16) * 2 ^ 48)
    (hhigh : g.gd_high = addr / 2 ^ 32) :
    ((g.gd_low &&& 0xFFFF) ||| (((g.gd_low >>> 48) &&& 0xFFFF) <<< 16)
        ||| (g.gd_high <<< 32)) = addr ∧
      (g.gd_low >>> 32) &&& 0x7 = ist ∧
      (g.gd_low >>> 40) &&& 0xF = type ∧
      (g.gd_low >>> 45) &&& 0x3 = dpl ∧
      (g.gd_low >>> 16) &&& 0xFFFF = SEGSEL_KERN_CODE ∧
      (g.gd_low >>> 47) &&& 0x1 = 1 := by
  have hS : SEGSEL_KERN_CODE = 8 := rfl
  have m7 : ∀ x : Nat, x &&& 0x7 = x % 2 ^ 3 := fun x => by
    have h : (0x7 : Nat) = 2 ^ 3 - 1 := by decide
    rw [h, Nat.and_pow_two_sub_one_eq_mod]
  have mF : ∀ x : Nat, x &&& 0xF = x % 2 ^ 4 := fun x => by
    have h : (0xF : Nat) = 2 ^ 4 - 1 := by decide
    rw [h, Nat.and_pow_two_sub_one_eq_mod]
  have m3 : ∀ x : Nat, x &&& 0x3 = x % 2 ^ 2 := fun x => by
    have h : (0x3 : Nat) = 2 ^ 2 - 1 := by decide
    rw [h, Nat.and_pow_two_sub_one_eq_mod]
  have m1 : ∀ x : Nat, x &&& 0x1 = x % 2 ^ 1 := fun x => by
    have h : (0x1 : Nat) = 2 ^ 1 - 1 := by decide
    rw [h]
    exact Nat.and_pow_two_sub_one_eq_mod x 1
  have hr : addr % 2 ^ 16 < 2 ^ 16 := Nat.mod_lt _ (by norm_num)
  have hy : addr / 2 ^ 16 % 2 ^ 16 < 2 ^ 16 := Nat.mod_lt _ (by norm_num)
  rw [hS] at hlow
  obtain ⟨f1, f2, f3, f4, f5, f6, f7, _⟩ :=
    gate_fields (addr % 2 ^ 16) (addr / 2 ^ 16 % 2 ^ 16) ist type dpl g.gd_low hr hy hi ht hd hlow
  simp only [and_ffff, m7, mF, m3, m1, Nat.shiftRight_eq_div_pow, Nat.shiftLeft_eq, hS]
  refine ⟨?_, f3, f4, f5, f6, f7⟩
  rw [f1, f2, hhigh, lo_or_hi _ _ 16 hr, lo_or_hi _ _ 32 (by omega)]
  omega

theorem init_interrupts_loop_spec (G B : Nat) (hG : G < 16) :
    ∀ fuel i (descs : Nat → x86_64_gatedescriptor), 256 - i ≤ fuel →
      ∃ fin, init_interrupts_loop G B fuel i descs = some fin ∧
        ∀ j, (i ≤ j → j < 256 →
            set_gate (descs j) (descs j).gd_low (G : Int) (if j = B then 3 else 0) 0
              = some (fin j)) ∧
          (¬ (i ≤ j ∧ j < 256) → fin j = descs j) := by
  intro fuel
  induction fuel with
  | zero =>
    intro i descs h
    have hi : ¬ i < 256 := by omega
    refine ⟨descs, by rw [init_interrupts_loop]; simp [hi], fun j => ⟨?_, fun _ => rfl⟩⟩
    intro h1 h2; omega
  | succ f ih =>
    intro i descs h
    by_cases hi : i < 256
    · have hdpl : ((if i = B then 3 else 0 : Nat) : Int) = (if i = B then 3 else 0) := by
        split_ifs <;> rfl
      have hsg := set_gate_gd_low_sum (descs i) (descs i).gd_low G (if i = B then 3 else 0) 0 hG
        (by split_ifs <;> omega) (by omega)
      rw [hdpl] at hsg
      obtain ⟨fin, h1, h2⟩ := ih (i + 1) (Function.update descs i _) (by omega)
      refine ⟨fin, ?_, fun j => ⟨?_, ?_⟩⟩
      · rw [init_interrupts_loop]
        simp only [hi, if_true]
        simp only [Nat.cast_ofNat, Int.Nat.cast_ofNat_Int] at hsg ⊢
        rw [hsg]
        exact h1
      · intro hj1 hj2
        by_cases hji : j = i
        · subst hji
          have := (h2 j).2 (by omega)
          rw [this, Function.update_same]
          simp only [Nat.cast_ofNat, Int.Nat.cast_ofNat_Int] at hsg ⊢
          exact hsg
        · have := (h2 j).1 (by omega) hj2
          rw [Function.update_noteq hji] at this
          exact this
      · intro hj
        have := (h2 j).2 (by omega)
        rw [this, Function.update_noteq (by omega)]
    · refine ⟨descs, by rw [init_interrupts_loop]; simp only [hi, if_false], fun j => ⟨?_, fun _ => rfl⟩⟩
      intro h1 h2; omega

/-- Claim C12: for every initial descriptor array (64-bit `gd_low` values) and
every vector `i < 256`, the gate-rewriting loop of `init_interrupts` finishes
and leaves in slot `i` a present gate of type `X86GATE_INTERRUPT` with
stack-switch index 0 and selector `SEGSEL_KERN_CODE`, whose decoded handler
address is the value `interrupt_descriptors[i].gd_low` held before the call,
with privilege level 3 if `i == INT_BP` and 0 otherwise.
`X86GATE_INTERRUPT` is a gate type, that is, below 16. -/
theorem init_interrupts_gates_spec (X86GATE_INTERRUPT INT_BP : Nat)
    (hgate : X86GATE_INTERRUPT < 16) (descs : Nat → x86_64_gatedescriptor) (i : Nat)
    (hi : i < 256) :
    ∃ fin : Nat → x86_64_gatedescriptor,
      init_interrupts_gates X86GATE_INTERRUPT INT_BP descs = some fin ∧
      (((fin i).gd_low &&& 0xFFFF) ||| ((((fin i).gd_low >>> 48) &&& 0xFFFF) <<< 16)
          ||| ((fin i).gd_high <<< 32)) = (descs i).gd_low ∧
      ((fin i).gd_low >>> 32) &&& 0x7 = 0 ∧
      ((fin i).gd_low >>> 40) &&& 0xF = X86GATE_INTERRUPT ∧
      ((fin i).gd_low >>> 45) &&& 0x3 = (if i = INT_BP then 3 else 0) ∧
      ((fin i).gd_low >>> 16) &&& 0xFFFF = SEGSEL_KERN_CODE ∧
      ((fin i).gd_low >>> 47) &&& 0x1 = 1 := by
  obtain ⟨fin, h1, h2⟩ :=
    init_interrupts_loop_spec X86GATE_INTERRUPT INT_BP hgate 256 0 descs (by omega)
  refine ⟨fin, h1, ?_⟩
  have hset := (h2 i).1 (Nat.zero_le _) hi
  have hdpl : ((if i = INT_BP then 3 else 0 : Nat) : Int) = (if i = INT_BP then 3 else 0) := by
    split_ifs <;> rfl
  have hd : (if i = INT_BP then 3 else 0 : Nat) < 4 := by split_ifs <;> omega
  have hsum := set_gate_gd_low_sum (descs i) (descs i).gd_low X86GATE_INTERRUPT
    (if i = INT_BP then 3 else 0) 0 hgate hd (by omega)
  rw [hdpl] at hsum
  simp only [Nat.cast_ofNat, Int.Nat.cast_ofNat_Int] at hsum
  rw [hsum] at hset
  have hfin := (Option.some.inj hset).symm
  exact gate_descriptor_decode (fin i) (descs i).gd_low X86GATE_INTERRUPT
    (if i = INT_BP then 3 else 0) 0 hgate hd (by omega) (by rw [hfin]) (by rw [hfin])

/-- Witness for C12: the breakpoint vector 3 of `example_descriptors`, with
gate type 14. -/
theorem init_interrupts_gates_spec_witness :
    ∃ fin : Nat → x86_64_gatedescriptor,
      init_interrupts_gates 14 3 example_descriptors = some fin ∧
      (((fin 3).gd_low &&& 0xFFFF) ||| ((((fin 3).gd_low >>> 48) &&& 0xFFFF) <<< 16)
          ||| ((fin 3).gd_high <<< 32)) = (example_descriptors 3).gd_low ∧
      ((fin 3).gd_low >>> 32) &&& 0x7 = 0 ∧
      ((fin 3).gd_low >>> 40) &&& 0xF = 14 ∧
      ((fin 3).gd_low >>> 45) &&& 0x3 = (if 3 = 3 then 3 else 0) ∧
      ((fin 3).gd_low >>> 16) &&& 0xFFFF = SEGSEL_KERN_CODE ∧
      ((fin 3).gd_low >>> 47) &&& 0x1 = 1 :=
  init_interrupts_gates_spec 14 3 (by decide) example_descriptors 3 (by decide)

/-! ## Claim C13: the result of `pcistate::next` -/

theorem next_loop_result (pci : pcistate) :
    ∀ fuel addr x, (pci.addr_end - addr) / 0x100 + 1 ≤ fuel →
      ∃ r : Int, pci.next_loop fuel addr x = some r ∧
        (r = -1 ∨ ∃ a : Nat, r = (a : Int) ∧ addr < a ∧ a < pci.addr_end ∧
          pci.readl (a + pci.config_lthb) ≠ 0xFFFFFFFF ∧ (addr % 0x100 = 0 → a % 0x100 = 0)) ∧
        (r = -1 → ∀ b ∈ pci.examined_loop fuel addr x,
          pci.readl (b + pci.config_lthb) = 0xFFFFFFFF) ∧
        (addr % 0x100 = 0 → ∀ b ∈ pci.examined_loop fuel addr x, b % 0x100 = 0) := by
  intro fuel
  induction fuel with
  | zero => intro addr x h; omega
  | succ f ih =>
    intro addr x hf
    rw [pcistate.next_loop, pcistate.examined_loop]
    simp only []
    have hstep : addr + 0x100 ≤ (if addr_func addr = 0 ∧ (x = 0xFFFFFFFF ∨ x &&& 0x800000 = 0)
        then addr + make_addr 0 1 0 else addr + make_addr 0 0 1) ∧
        (addr % 0x100 = 0 → (if addr_func addr = 0 ∧ (x = 0xFFFFFFFF ∨ x &&& 0x800000 = 0)
        then addr + make_addr 0 1 0 else addr + make_addr 0 0 1) % 0x100 = 0) := by
      rw [make_addr_device, make_addr_function]
      split_ifs <;> omega
    generalize (if addr_func addr = 0 ∧ (x = 0xFFFFFFFF ∨ x &&& 0x800000 = 0)
        then addr + make_addr 0 1 0 else addr + make_addr 0 0 1) = a1 at hstep ⊢
    obtain ⟨hs1, hs2⟩ := hstep
    by_cases hend : a1 ≥ pci.addr_end
    · simp only [if_pos hend]
      exact ⟨-1, rfl, Or.inl rfl, fun _ b hb => absurd hb (List.not_mem_nil b),
        fun _ b hb => absurd hb (List.not_mem_nil b)⟩
    · simp only [if_neg hend]
      by_cases hp : pci.readl (a1 + pci.config_lthb) ≠ 0xFFFFFFFF
      · simp only [if_pos hp]
        refine ⟨(a1 : Int), rfl, Or.inr ⟨a1, rfl, by omega, by omega, hp, hs2⟩, ?_, ?_⟩
        · intro h; omega
        · intro hal b hb
          rw [List.mem_singleton] at hb
          rw [hb]; exact hs2 hal
      · simp only [if_neg hp]
        obtain ⟨r, h1, h2, h3, h4⟩ := ih a1 (pci.readl (a1 + pci.config_lthb)) (by omega)
        refine ⟨r, h1, ?_, ?_, ?_⟩
        · rcases h2 with h | ⟨a, g1, g2, g3, g4, g5⟩
          · exact Or.inl h
          · exact Or.inr ⟨a, g1, by omega, g3, g4, fun hal => g5 (hs2 hal)⟩
        · intro hr b hb
          rw [List.mem_cons] at hb
          rcases hb with hb | hb
          · rw [hb]; exact not_not.1 hp
          · exact h3 hr b hb
        · intro hal b hb
          rw [List.mem_cons] at hb
          rcases hb with hb | hb
          · rw [hb]; exact hs2 hal
          · exact h4 (hs2 hal) b hb

/-- Counterexample to C13 as stated. In `example_pci` only the header dwords
at `config_lthb` are populated: `next(0)` returns 0x200 although the vendor
field of function 0x200 (register offset 0) is the all-ones sentinel. In
`headerless_pci` the function at 0x800 has vendor field 0x8086 and is examined
by `next(0)`, which still returns -1. -/
theorem pci_next_result_counterexample :
    (example_pci.next 0 = some 0x200 ∧ example_pci.vendor 0 0x200 = 0xFFFF) ∧
      (headerless_pci.next 0 = some (-1) ∧ 0x800 ∈ headerless_pci.examined 0 ∧
        headerless_pci.vendor 0 0x800 = 0x8086) := by
  decide

/-- Claim C13, amended: for every configuration space in which, at each
function address, the header dword at `config_lthb` reads all-ones exactly
when the vendor field is the all-ones sentinel, and every function address
`addr`, `next(addr)` returns (the loop ends within the fuel
`addr_end / 0x100 + 1`), and its result is either -1 or an address `a` with
`addr < a < addr_end` whose vendor field is not the all-ones sentinel; when it
is -1, every function after `addr` that the walk examined has the all-ones
vendor field. -/
theorem pci_next_result (pci : pcistate) (config_vendor addr : Nat)
    (haddr : addr % 0x100 = 0)
    (hvend : ∀ a, a % 0x100 = 0 →
      (pci.vendor config_vendor a = 0xFFFF ↔ pci.readl (a + pci.config_lthb) = 0xFFFFFFFF)) :
    ∃ r : Int, pci.next addr = some r ∧
      (r = -1 ∨ ∃ a : Nat, r = (a : Int) ∧ addr < a ∧ a < pci.addr_end ∧
        pci.vendor config_vendor a ≠ 0xFFFF) ∧
      (r = -1 → ∀ b ∈ pci.examined addr, pci.vendor config_vendor b = 0xFFFF) := by
  have hle : (pci.addr_end - addr) / 0x100 ≤ pci.addr_end / 0x100 :=
    Nat.div_le_div_right (Nat.sub_le _ _)
  obtain ⟨r, h1, h2, h3, h4⟩ := next_loop_result pci (pci.addr_end / 0x100 + 1) addr
    (pci.readl (addr + pci.config_lthb)) (by omega)
  refine ⟨r, h1, ?_, ?_⟩
  · rcases h2 with h | ⟨a, g1, g2, g3, g4, g5⟩
    · exact Or.inl h
    · refine Or.inr ⟨a, g1, g2, g3, fun hv => g4 ((hvend a (g5 haddr)).1 hv)⟩
  · intro hr b hb
    exact (hvend b (h4 haddr b hb)).2 (h3 hr b hb)

/-- Witness for C13 (amended): `uniform_pci`, whose functions answer every
register alike, walked from address 0 with the vendor field at offset 0. -/
theorem pci_next_result_witness :
    ∃ r : Int, uniform_pci.next 0 = some r ∧
      (r = -1 ∨ ∃ a : Nat, r = (a : Int) ∧ 0 < a ∧ a < uniform_pci.addr_end ∧
        uniform_pci.vendor 0 a ≠ 0xFFFF) ∧
      (r = -1 → ∀ b ∈ uniform_pci.examined 0, uniform_pci.vendor 0 b = 0xFFFF) :=
  pci_next_result uniform_pci 0 0 (by decide) (by
    intro a ha
    have h12 : (a + 12) / 256 = a / 256 := by omega
    simp only [pcistate.vendor, uniform_pci, Nat.add_zero, h12]
    split_ifs <;> decide)

/-! ## Claim C14: modifier bookkeeping of `keyboard_readc` -/

set_option maxRecDepth 100000 in
theorem and_0x80_iff : ∀ d, d < 256 → ((d &&& 0x80 = 0) ↔ d < 0x80) := by decide

theorem set_bit_testBit (m k j : Nat) (hm : m < 256) (hk : k < 8) :
    ((m ||| (1 <<< k)) % 256).testBit j = (decide (j = k) || m.testBit j) := by
  have h256 : (256 : Nat) = 2 ^ 8 := by norm_num
  rw [h256, Nat.testBit_mod_two_pow, Nat.testBit_or, Nat.shiftLeft_eq, Nat.one_mul,
    Nat.testBit_two_pow]
  by_cases hj : j < 8
  · simp [hj, eq_comm, Bool.or_comm]
  · have hmj : m.testBit j = false :=
      Nat.testBit_lt_two_pow (lt_of_lt_of_le hm (by
        rw [h256]; exact Nat.pow_le_pow_right (by norm_num) (by omega)))
    have hne : ¬ j = k := by omega
    simp [hj, hmj, hne]

theorem clear_bit_testBit (m k j : Nat) (hm : m < 256) (hk : k < 8) :
    ((m &&& (0xFFFFFFFF ^^^ (1 <<< k))) % 256).testBit j = (!decide (j = k) && m.testBit j) := by
  have h256 : (256 : Nat) = 2 ^ 8 := by norm_num
  have hff : (0xFFFFFFFF : Nat) = 2 ^ 32 - 1 := by norm_num
  rw [h256, Nat.testBit_mod_two_pow, Nat.testBit_and, Nat.testBit_xor, Nat.shiftLeft_eq,
    Nat.one_mul, Nat.testBit_two_pow, hff, Nat.testBit_two_pow_sub_one]
  by_cases hj : j < 8
  · have hj32 : j < 32 := by omega
    by_cases hjk : j = k
    · subst hjk; simp [hj, hj32]
    · have hkj : ¬ k = j := fun h => hjk h.symm
      simp [hj, hj32, hjk, hkj]
  · have hmj : m.testBit j = false :=
      Nat.testBit_lt_two_pow (lt_of_lt_of_le hm (by
        rw [h256]; exact Nat.pow_le_pow_right (by norm_num) (by omega)))
    simp [hj, hmj]

theorem toggle_bit_testBit (m k j : Nat) (hm : m < 256) (hk : k < 8) :
    ((m ^^^ (1 <<< k)) % 256).testBit j = (xor (decide (j = k)) (m.testBit j)) := by
  have h256 : (256 : Nat) = 2 ^ 8 := by norm_num
  rw [h256, Nat.testBit_mod_two_pow, Nat.testBit_xor, Nat.shiftLeft_eq, Nat.one_mul,
    Nat.testBit_two_pow]
  by_cases hj : j < 8
  · by_cases hjk : j = k
    · subst hjk; simp [hj]
    · have hkj : ¬ k = j := fun h => hjk h.symm
      simp [hj, hjk, hkj]
  · have hmj : m.testBit j = false :=
      Nat.testBit_lt_two_pow (lt_of_lt_of_le hm (by
        rw [h256]; exact Nat.pow_le_pow_right (by norm_num) (by omega)))
    have hne : ¬ j = k := by omega
    simp [hj, hmj, hne]

theorem keyboard_press_cases (s : keyboard_state) (d : Nat) (hd : d < 0x80) :
    keyboard_readc s (some d) =
      (let ch := keymap.getD (d ||| s.last_escape) 0
       if ch ≥ 97 ∧ ch ≤ 122 then
         if s.modifiers &&& MOD_CONTROL ≠ 0 then
           (((ch - 0x60 : Nat) : Int), { modifiers := s.modifiers, last_escape := 0 })
         else if (decide (s.modifiers &&& MOD_SHIFT = 0)
             != decide (s.modifiers &&& MOD_CAPSLOCK = 0)) = true then
           (((ch - 0x20 : Nat) : Int), { modifiers := s.modifiers, last_escape := 0 })
         else
           ((ch : Int), { modifiers := s.modifiers, last_escape := 0 })
       else if ch ≥ KEY_CAPSLOCK then
         (0, { modifiers := (s.modifiers ^^^ (1 <<< (ch - KEY_SHIFT))) % 256, last_escape := 0 })
       else if ch ≥ KEY_SHIFT then
         (0, { modifiers := (s.modifiers ||| (1 <<< (ch - KEY_SHIFT))) % 256, last_escape := 0 })
       else if ch ≥ CKEY 0 ∧ ch ≤ CKEY 21 then
         ((((complex_keymap.getD (ch - CKEY 0) []).getD (s.modifiers &&& 3) 0 : Nat) : Int),
           { modifiers := s.modifiers, last_escape := 0 })
       else if ch < 0x80 ∧ s.modifiers &&& MOD_CONTROL ≠ 0 then
         (0, { modifiers := s.modifiers, last_escape := 0 })
       else
         ((ch : Int), { modifiers := s.modifiers, last_escape := 0 })) := by
  have hdm : d % 256 = d := Nat.mod_eq_of_lt (by omega)
  have hE0 : ¬ d = 0xE0 := by omega
  have hhi : d &&& 0x80 = 0 := (and_0x80_iff d (by omega)).2 hd
  unfold keyboard_readc
  simp only [hdm, hE0, hhi, if_false, ne_eq, not_true_eq_false]

theorem keyboard_release_cases (s : keyboard_state) (d : Nat) (hd : 0x80 ≤ d) (hd2 : d < 256)
    (hE0 : d ≠ 0xE0) :
    keyboard_readc s (some d) =
      (let ch := keymap.getD ((d &&& 0x7F) ||| s.last_escape) 0
       if ch ≥ KEY_SHIFT ∧ ch < KEY_CAPSLOCK then
         (0, { modifiers := (s.modifiers &&& (0xFFFFFFFF ^^^ (1 <<< (ch - KEY_SHIFT)))) % 256,
               last_escape := 0 })
       else
         (0, { modifiers := s.modifiers, last_escape := 0 })) := by
  have hdm : d % 256 = d := Nat.mod_eq_of_lt hd2
  have hhi : ¬ d &&& 0x80 = 0 := fun h => by
    have := (and_0x80_iff d hd2).1 h
    omega
  unfold keyboard_readc
  simp only [hdm, hE0, hhi, if_false, ne_eq, not_false_eq_true, if_true]

/-- Claim C14: for every 8-bit modifier state, with bit `k` the bit of the key
`KEY_SHIFT + k` (shift 0, control 1, alt 2, caps-lock 3, num-lock 4,
scroll-lock 5): a key-press byte whose keymap entry is shift, control or alt
sets bit `k`; a key-release byte whose mapped key is shift, control or alt
clears bit `k`; a key-press of a lock key toggles bit `k`, and a second press
restores the modifiers; a release of any other key leaves the modifiers
unchanged. Each of these polls returns 0 and changes no other bit. -/
theorem keyboard_readc_modifiers (s : keyboard_state) (d k : Nat) (hm : s.modifiers < 256)
    (hd : d < 256) :
    (KEY_CONTROL = KEY_SHIFT + 1 ∧ KEY_ALT = KEY_SHIFT + 2 ∧ KEY_CAPSLOCK = KEY_SHIFT + 3 ∧
      KEY_NUMLOCK = KEY_SHIFT + 4 ∧ KEY_SCROLLLOCK = KEY_SHIFT + 5) ∧
    (d < 0x80 → keymap.getD (d ||| s.last_escape) 0 = KEY_SHIFT + k → k < 3 →
      (keyboard_readc s (some d)).1 = 0 ∧
      ∀ j, (keyboard_readc s (some d)).2.modifiers.testBit j
        = (decide (j = k) || s.modifiers.testBit j)) ∧
    (0x80 ≤ d → d ≠ 0xE0 → keymap.getD ((d &&& 0x7F) ||| s.last_escape) 0 = KEY_SHIFT + k →
      k < 3 →
      (keyboard_readc s (some d)).1 = 0 ∧
      ∀ j, (keyboard_readc s (some d)).2.modifiers.testBit j
        = (!decide (j = k) && s.modifiers.testBit j)) ∧
    (d < 0x80 → keymap.getD (d ||| s.last_escape) 0 = KEY_SHIFT + k → 3 ≤ k → k ≤ 5 →
      (keyboard_readc s (some d)).1 = 0 ∧
      (∀ j, (keyboard_readc s (some d)).2.modifiers.testBit j
        = xor (decide (j = k)) (s.modifiers.testBit j)) ∧
      (keymap.getD d 0 = KEY_SHIFT + k →
        (keyboard_readc (keyboard_readc s (some d)).2 (some d)).1 = 0 ∧
        (keyboard_readc (keyboard_readc s (some d)).2 (some d)).2.modifiers = s.modifiers)) ∧
    (0x80 ≤ d →
      ¬ (KEY_SHIFT ≤ keymap.getD ((d &&& 0x7F) ||| s.last_escape) 0 ∧
          keymap.getD ((d &&& 0x7F) ||| s.last_escape) 0 < KEY_CAPSLOCK) →
      (keyboard_readc s (some d)).1 = 0 ∧
      (keyboard_readc s (some d)).2.modifiers = s.modifiers) := by
  have hKS : KEY_SHIFT = 250 := by decide
  have hKC : KEY_CAPSLOCK = 253 := by decide
  have hlock : ∀ (t : keyboard_state), t.modifiers < 256 →
      keymap.getD (d ||| t.last_escape) 0 = KEY_SHIFT + k → d < 0x80 → 3 ≤ k → k ≤ 5 →
      keyboard_readc t (some d)
        = (0, { modifiers := (t.modifiers ^^^ (1 <<< k)) % 256, last_escape := 0 }) := by
    intro t _ hch hd1 hk1 hk2
    rw [keyboard_press_cases t d hd1]
    simp only [hch]
    rw [if_neg (by rw [hKS]; omega), if_pos (by rw [hKS, hKC]; omega)]
    simp
  refine ⟨by decide, ?_, ?_, ?_, ?_⟩
  · intro hd1 hch hk
    rw [keyboard_press_cases s d hd1]
    simp only [hch]
    rw [if_neg (by rw [hKS]; omega), if_neg (by rw [hKS, hKC]; omega), if_pos (by omega)]
    refine ⟨rfl, fun j => ?_⟩
    simp only [Nat.add_sub_cancel_left]
    exact set_bit_testBit s.modifiers k j hm (by omega)
  · intro hd1 hE0 hch hk
    rw [keyboard_release_cases s d hd1 hd hE0]
    simp only [hch]
    rw [if_pos (by rw [hKS, hKC]; omega)]
    refine ⟨rfl, fun j => ?_⟩
    simp only [Nat.add_sub_cancel_left]
    exact clear_bit_testBit s.modifiers k j hm (by omega)
  · intro hd1 hch hk1 hk2
    rw [hlock s hm hch hd1 hk1 hk2]
    refine ⟨rfl, fun j => toggle_bit_testBit s.modifiers k j hm (by omega), fun hch0 => ?_⟩
    have hlt : (s.modifiers ^^^ (1 <<< k)) % 256 < 256 := Nat.mod_lt _ (by norm_num)
    rw [hlock ⟨(s.modifiers ^^^ (1 <<< k)) % 256, 0⟩ hlt (by simpa using hch0) hd1 hk1 hk2]
    refine ⟨rfl, ?_⟩
    apply Nat.eq_of_testBit_eq
    intro j
    simp only [toggle_bit_testBit _ k j hlt (by omega : k < 8),
      toggle_bit_testBit s.modifiers k j hm (by omega : k < 8)]
    cases decide (j = k) <;> cases s.modifiers.testBit j <;> rfl
  · intro hd1 hnot
    by_cases hE0 : d = 0xE0
    · subst hE0
      exact ⟨rfl, rfl⟩
    · rw [keyboard_release_cases s d hd1 hd hE0]
      simp only []
      rw [if_neg hnot]
      exact ⟨rfl, rfl⟩

/-- Witness for C14: with shift and caps-lock active (modifiers 9), the
release byte 0xAA of the left shift key (scancode 0x2A) clears bit 0. -/
theorem keyboard_readc_modifiers_witness :
    (keyboard_readc ⟨9, 0⟩ (some 0xAA)).1 = 0 ∧
      ∀ j, (keyboard_readc ⟨9, 0⟩ (some 0xAA)).2.modifiers.testBit j
        = (!decide (j = 0) && (9 : Nat).testBit j) :=
  (keyboard_readc_modifiers ⟨9, 0⟩ 0xAA 0 (by decide) (by decide)).2.2.1 (by decide) (by decide)
    (by decide) (by decide)

/-! ## Claim C15: the escape state machine of `keyboard_readc` -/

theorem keyboard_escaped_code (m d ch : Nat) (hd : d < 0x80)
    (hch : keymap.getD (d ||| 0x80) 0 = ch) (h1 : CKEY 21 < ch) (h2 : ch < KEY_SHIFT) :
    keyboard_readc ⟨m, 0x80⟩ (some d) = ((ch : Int), ⟨m, 0⟩) := by
  have hKS : KEY_SHIFT = 250 := by decide
  have hKC : KEY_CAPSLOCK = 253 := by decide
  have hC0 : CKEY 0 = 128 := by decide
  have hC21 : CKEY 21 = 149 := by decide
  rw [hKS] at h2
  rw [hC21] at h1
  rw [keyboard_press_cases ⟨m, 0x80⟩ d hd]
  simp only [hch]
  rw [if_neg (by omega), if_neg (by rw [hKC]; omega), if_neg (by rw [hKS]; omega),
    if_neg (by rw [hC0, hC21]; omega), if_neg (by omega)]

theorem keyboard_escape_sequence (s : keyboard_state) (d ch : Nat) (hd : d < 0x80)
    (hch : keymap.getD (d ||| 0x80) 0 = ch) (h1 : CKEY 21 < ch) (h2 : ch < KEY_SHIFT) :
    (keyboard_polls s [some 0xE0, some d]).1 = [0, (ch : Int)] := by
  have h0 : keyboard_readc s (some 0xE0) = (0, ⟨s.modifiers, 0x80⟩) := rfl
  simp only [keyboard_polls, h0, keyboard_escaped_code s.modifiers d ch hd hch h1 h2]

/-- Claim C15: a poll with no data ready returns -1 and changes nothing; a
poll that reads 0xE0 returns 0, keeps the modifiers and sets escape-pending
(0x80); after a poll that reads any other byte escape-pending is clear; a
key-press byte `d` read while escape-pending is looked up at keymap index
`d | 0x80`, and an entry there that is a fixed key code (above `CKEY(21)`,
below `KEY_SHIFT`) is returned as it is; so for every state the bytes
0xE0, 0x48 return 0 and `KEY_UP`, and the other navigation keys likewise
return their codes of `kernel.hh`. -/
theorem keyboard_readc_escape (s : keyboard_state) (d : Nat) :
    keyboard_readc s none = (-1, s) ∧
    keyboard_readc s (some 0xE0) = (0, ⟨s.modifiers, 0x80⟩) ∧
    (d % 256 ≠ 0xE0 → (keyboard_readc s (some d)).2.last_escape = 0) ∧
    (d < 0x80 → CKEY 21 < keymap.getD (d ||| 0x80) 0 → keymap.getD (d ||| 0x80) 0 < KEY_SHIFT →
      keyboard_readc ⟨s.modifiers, 0x80⟩ (some d)
        = ((keymap.getD (d ||| 0x80) 0 : Int), ⟨s.modifiers, 0⟩)) ∧
    (keyboard_polls s [some 0xE0, some 0x48]).1 = [0, (KEY_UP : Int)] ∧
    (keyboard_polls s [some 0xE0, some 0x4D]).1 = [0, (KEY_RIGHT : Int)] ∧
    (keyboard_polls s [some 0xE0, some 0x50]).1 = [0, (KEY_DOWN : Int)] ∧
    (keyboard_polls s [some 0xE0, some 0x4B]).1 = [0, (KEY_LEFT : Int)] ∧
    (keyboard_polls s [some 0xE0, some 0x47]).1 = [0, (KEY_HOME : Int)] ∧
    (keyboard_polls s [some 0xE0, some 0x4F]).1 = [0, (KEY_END : Int)] ∧
    (keyboard_polls s [some 0xE0, some 0x49]).1 = [0, (KEY_PAGEUP : Int)] ∧
    (keyboard_polls s [some 0xE0, some 0x51]).1 = [0, (KEY_PAGEDOWN : Int)] ∧
    (keyboard_polls s [some 0xE0, some 0x52]).1 = [0, (KEY_INSERT : Int)] ∧
    (keyboard_polls s [some 0xE0, some 0x53]).1 = [0, (KEY_DELETE : Int)] ∧
    (KEY_UP = 0o300 ∧ KEY_RIGHT = 0o301 ∧ KEY_DOWN = 0o302 ∧ KEY_LEFT = 0o303 ∧
      KEY_HOME = 0o304 ∧ KEY_END = 0o305 ∧ KEY_PAGEUP = 0o306 ∧ KEY_PAGEDOWN = 0o307 ∧
      KEY_INSERT = 0o310 ∧ KEY_DELETE = 0o311) := by
  refine ⟨rfl, rfl, ?_, ?_,
    keyboard_escape_sequence s 0x48 KEY_UP (by decide) (by decide) (by decide) (by decide),
    keyboard_escape_sequence s 0x4D KEY_RIGHT (by decide) (by decide) (by decide) (by decide),
    keyboard_escape_sequence s 0x50 KEY_DOWN (by decide) (by decide) (by decide) (by decide),
    keyboard_escape_sequence s 0x4B KEY_LEFT (by decide) (by decide) (by decide) (by decide),
    keyboard_escape_sequence s 0x47 KEY_HOME (by decide) (by decide) (by decide) (by decide),
    keyboard_escape_sequence s 0x4F KEY_END (by decide) (by decide) (by decide) (by decide),
    keyboard_escape_sequence s 0x49 KEY_PAGEUP (by decide) (by decide) (by decide) (by decide),
    keyboard_escape_sequence s 0x51 KEY_PAGEDOWN (by decide) (by decide) (by decide) (by decide),
    keyboard_escape_sequence s 0x52 KEY_INSERT (by decide) (by decide) (by decide) (by decide),
    keyboard_escape_sequence s 0x53 KEY_DELETE (by decide) (by decide) (by decide) (by decide),
    by decide⟩
  · intro hne
    unfold keyboard_readc
    simp only [hne, if_false]
    split_ifs <;> rfl
  · intro hd h1 h2
    exact keyboard_escaped_code s.modifiers d _ hd rfl h1 h2

/-! ## Claim C16: an invalid selector gives a permanently empty cursor -/

theorem program_number_loop_none (program_name : String) :
    ∀ (rs : List ramimage) (i : Nat), (∀ r ∈ rs, r.name ≠ program_name) →
      program_number_loop program_name i rs = -1 := by
  intro rs
  induction rs with
  | nil => intro i _; rfl
  | cons r rs ih =>
    intro i h
    have hr : ¬ program_name = r.name := fun e => h r (List.mem_cons_self _ _) e.symm
    simp only [program_number_loop, hr, if_false]
    exact ih (i + 1) (fun x hx => h x (List.mem_cons_of_mem _ hx))

theorem mk_number_invalid (MAGIC LOAD : Nat) (ramimages : List ramimage)
    (ph0 endph0 : Option Nat) (n : Int) (hn : n < 0 ∨ (ramimages.length : Int) ≤ n) :
    program_loader.mk_number MAGIC LOAD ramimages ph0 endph0 n = some empty_loader := by
  have hcond : ¬ (n ≥ 0 ∧ n.toNat < ramimages.length) := by
    rintro ⟨h1, h2⟩
    rcases hn with h | h
    · omega
    · omega
  simp only [program_loader.mk_number, hcond, if_false, program_loader.reset, empty_loader]

theorem run_empty_loader (MAGIC LOAD : Nat) :
    ∀ calls : List loader_call,
      program_loader.run MAGIC LOAD calls empty_loader = some empty_loader := by
  intro calls
  induction calls with
  | nil => rfl
  | cons c cs ih =>
    cases c with
    | inc =>
      have h : empty_loader.operator_inc LOAD = some empty_loader := by
        simp [program_loader.operator_inc, empty_loader]
      simp only [program_loader.run, h, ih]
    | reset =>
      have h : empty_loader.reset MAGIC LOAD = some empty_loader := by
        simp [program_loader.reset, empty_loader]
      simp only [program_loader.run, h, ih]

/-- Claim C16: for every program number outside `[0, catalog size)` and every
name that matches no catalog entry (for which `program_number` returns -1),
the constructed cursor is the empty cursor: `present()` is false, `va()`,
`size()`, `data_size()` and `entry()` are 0, `data()` is null and `writable()`
is false, and it is still the empty cursor after any sequence of `operator++`
and `reset()` calls. Moreover on every cursor on which `present()` is false,
`va`, `size`, `data_size` are 0, `data` is null, `writable` is false and
`operator++` leaves the cursor unchanged. -/
theorem program_loader_invalid_selector (ELF_MAGIC ELF_PTYPE_LOAD ELF_PFLAG_WRITE : Nat)
    (ramimages : List ramimage) (ph0 endph0 : Option Nat) (n : Int) (name : String)
    (calls : List loader_call) (pl : program_loader)
    (hn : n < 0 ∨ (ramimages.length : Int) ≤ n)
    (hname : ∀ r ∈ ramimages, r.name ≠ name) :
    program_loader.mk_number ELF_MAGIC ELF_PTYPE_LOAD ramimages ph0 endph0 n
        = some empty_loader ∧
      program_loader.program_number ramimages name = -1 ∧
      program_loader.mk_name ELF_MAGIC ELF_PTYPE_LOAD ramimages ph0 endph0 name
        = some empty_loader ∧
      (empty_loader.present = false ∧ empty_loader.va = some 0 ∧ empty_loader.size = some 0 ∧
        empty_loader.data_size = some 0 ∧ empty_loader.entry = 0 ∧
        empty_loader.data = some 0 ∧ empty_loader.writable ELF_PFLAG_WRITE = some false) ∧
      program_loader.run ELF_MAGIC ELF_PTYPE_LOAD calls empty_loader = some empty_loader ∧
      (pl.present = false →
        pl.va = some 0 ∧ pl.size = some 0 ∧ pl.data_size = some 0 ∧ pl.data = some 0 ∧
          pl.writable ELF_PFLAG_WRITE = some false ∧
          pl.operator_inc ELF_PTYPE_LOAD = some pl) := by
  have hnum : program_loader.program_number ramimages name = -1 :=
    program_number_loop_none name ramimages 0 hname
  refine ⟨mk_number_invalid ELF_MAGIC ELF_PTYPE_LOAD ramimages ph0 endph0 n hn, hnum, ?_,
    ⟨rfl, rfl, rfl, rfl, rfl, rfl, ?_⟩, run_empty_loader ELF_MAGIC ELF_PTYPE_LOAD calls, ?_⟩
  · unfold program_loader.mk_name
    rw [hnum]
    exact mk_number_invalid ELF_MAGIC ELF_PTYPE_LOAD ramimages ph0 endph0 (-1) (Or.inl (by omega))
  · simp [program_loader.writable, empty_loader]
  · intro hp
    have heq : pl.ph_ = pl.endph_ := by
      simpa [program_loader.present] using hp
    simp [program_loader.va, program_loader.size, program_loader.data_size,
      program_loader.data, program_loader.writable, program_loader.operator_inc, heq]

/-- Witness for C16: program number 3 and the name `bob` over the catalog of
three images. -/
theorem program_loader_invalid_selector_witness :
    program_loader.mk_number 0x464C457F 1 example_ramimages none none 3 = some empty_loader ∧
      program_loader.mk_name 0x464C457F 1 example_ramimages none none "bob"
        = some empty_loader ∧
      program_loader.run 0x464C457F 1 [loader_call.inc, loader_call.reset, loader_call.inc]
        empty_loader = some empty_loader :=
  have h := program_loader_invalid_selector 0x464C457F 1 2 example_ramimages none none 3 "bob"
    [loader_call.inc, loader_call.reset, loader_call.inc] empty_loader (Or.inr (by decide))
    (by decide)
  ⟨h.1, h.2.2.1, h.2.2.2.2.1⟩

/-! ## Claim C17: `lookup_symbol` and the enclosing entry -/

theorem lookup_cond_iff_encloses (symtab : elf_symtabref) (addr m : Nat)
    (hm : m < symtab.nsym)
    (hwrap : (symtab.sym m).st_value + (symtab.sym m).st_size < 2 ^ 64) :
    ((symtab.sym m).st_value ≤ addr
      ∧ (if (symtab.sym m).st_size ≠ 0 then
          addr < ((symtab.sym m).st_value + (symtab.sym m).st_size) % 2 ^ 64
         else m + 1 = symtab.nsym ∨ addr < (symtab.sym (m + 1)).st_value))
      ↔ symtab.encloses addr m := by
  unfold elf_symtabref.encloses
  rw [Nat.mod_eq_of_lt hwrap]
  by_cases hs : (symtab.sym m).st_size = 0
  · simp only [hs, ne_eq, not_true_eq_false, if_false, Nat.add_zero, true_and]
    constructor
    · rintro ⟨h1, h2⟩
      exact ⟨hm, h1, Or.inr h2⟩
    · rintro ⟨_, h1, h2 | h2⟩
      · omega
      · exact ⟨h1, h2⟩
  · simp only [hs, ne_eq, not_false_eq_true, if_true, false_and, or_false]
    constructor
    · rintro ⟨h1, h2⟩
      exact ⟨hm, h1, h2⟩
    · rintro ⟨_, h1, h2⟩
      exact ⟨h1, h2⟩

theorem lookup_loop_shape (symtab : elf_symtabref) (addr : Nat)
    (hwrap : ∀ i, i < symtab.nsym → (symtab.sym i).st_value + (symtab.sym i).st_size < 2 ^ 64) :
    ∀ fuel l r, r ≤ symtab.nsym → r - l ≤ fuel →
      lookup_loop symtab addr fuel l r = some none
        ∨ ∃ m, symtab.encloses addr m ∧ lookup_loop symtab addr fuel l r
            = some (some (symtab.strtab + (symtab.sym m).st_name, (symtab.sym m).st_value)) := by
  intro fuel
  induction fuel with
  | zero =>
    intro l r _ h
    left
    rw [lookup_loop, if_neg (by omega)]
  | succ f ih =>
    intro l r hr hf
    by_cases hlr : l < r
    · rw [lookup_loop]
      simp only [hlr, if_true, Nat.shiftRight_eq_div_pow, pow_one]
      have hm2 : l + (r - l) / 2 < r := by omega
      have hm1 : l ≤ l + (r - l) / 2 := by omega
      generalize l + (r - l) / 2 = m at hm1 hm2
      have hmn : m < symtab.nsym := by omega
      by_cases hc : (symtab.sym m).st_value ≤ addr
          ∧ (if (symtab.sym m).st_size ≠ 0 then
              addr < ((symtab.sym m).st_value + (symtab.sym m).st_size) % 2 ^ 64
             else m + 1 = symtab.nsym ∨ addr < (symtab.sym (m + 1)).st_value)
      · right
        rw [if_pos hc]
        exact ⟨m, (lookup_cond_iff_encloses symtab addr m hmn (hwrap m hmn)).1 hc, rfl⟩
      · rw [if_neg hc]
        by_cases hv : (symtab.sym m).st_value < addr
        · rw [if_pos hv]
          exact ih (m + 1) r hr (by omega)
        · rw [if_neg hv]
          exact ih l m (by omega) (by omega)
    · left
      rw [lookup_loop, if_neg hlr]

theorem lookup_loop_found (symtab : elf_symtabref) (addr k : Nat)
    (hsorted : ∀ i j, i < j → j < symtab.nsym →
      (symtab.sym i).st_value < (symtab.sym j).st_value)
    (hdisj : ∀ i, i + 1 < symtab.nsym →
      (symtab.sym i).st_value + (symtab.sym i).st_size ≤ (symtab.sym (i + 1)).st_value)
    (hwrap : ∀ i, i < symtab.nsym → (symtab.sym i).st_value + (symtab.sym i).st_size < 2 ^ 64)
    (henc : symtab.encloses addr k) :
    ∀ fuel l r, l ≤ k → k < r → r ≤ symtab.nsym → r - l ≤ fuel →
      lookup_loop symtab addr fuel l r
        = some (some (symtab.strtab + (symtab.sym k).st_name, (symtab.sym k).st_value)) := by
  have hk : k < symtab.nsym := henc.1
  have hmono : ∀ i j, i ≤ j → j < symtab.nsym →
      (symtab.sym i).st_value ≤ (symtab.sym j).st_value := by
    intro i j hij hj
    rcases Nat.lt_or_ge i j with h | h
    · exact Nat.le_of_lt (hsorted i j h hj)
    · have : i = j := by omega
      rw [this]
  intro fuel
  induction fuel with
  | zero => intro l r h1 h2 _ h4; omega
  | succ f ih =>
    intro l r h1 h2 h3 h4
    have hlr : l < r := by omega
    rw [lookup_loop]
    simp only [hlr, if_true, Nat.shiftRight_eq_div_pow, pow_one]
    have hm1 : l ≤ l + (r - l) / 2 := by omega
    have hm2 : l + (r - l) / 2 < r := by omega
    generalize l + (r - l) / 2 = m at hm1 hm2
    have hmn : m < symtab.nsym := by omega
    rcases Nat.lt_trichotomy m k with hmk | hmk | hmk
    · have hv : (symtab.sym m).st_value < (symtab.sym k).st_value := hsorted m k hmk hk
      have hv1 : (symtab.sym (m + 1)).st_value ≤ (symtab.sym k).st_value :=
        hmono (m + 1) k (by omega) hk
      have hd := hdisj m (by omega)
      have hle := henc.2.1
      have hno : ¬ symtab.encloses addr m := by
        rintro ⟨_, _, h | ⟨_, h | h⟩⟩ <;> omega
      rw [if_neg (fun h => hno ((lookup_cond_iff_encloses symtab addr m hmn (hwrap m hmn)).1 h)),
        if_pos (by omega)]
      exact ih (m + 1) r (by omega) h2 h3 (by omega)
    · subst hmk
      rw [if_pos ((lookup_cond_iff_encloses symtab addr m hmn (hwrap m hmn)).2 henc)]
    · have hv : (symtab.sym (k + 1)).st_value ≤ (symtab.sym m).st_value :=
        hmono (k + 1) m (by omega) hmn
      have hd := hdisj k (by omega)
      have hgt : addr < (symtab.sym m).st_value := by
        rcases henc.2.2 with h | ⟨_, h | h⟩ <;> omega
      have hno : ¬ symtab.encloses addr m := by
        rintro ⟨_, h, _⟩
        omega
      rw [if_neg (fun h => hno ((lookup_cond_iff_encloses symtab addr m hmn (hwrap m hmn)).1 h)),
        if_neg (by omega)]
      exact ih l m h1 hmk (by omega) (by omega)

theorem encloses_unique (symtab : elf_symtabref) (addr j k : Nat)
    (hsorted : ∀ i j, i < j → j < symtab.nsym →
      (symtab.sym i).st_value < (symtab.sym j).st_value)
    (hdisj : ∀ i, i + 1 < symtab.nsym →
      (symtab.sym i).st_value + (symtab.sym i).st_size ≤ (symtab.sym (i + 1)).st_value)
    (hj : symtab.encloses addr j) (hk : symtab.encloses addr k) (hjk : j < k) : False := by
  have hk1 : k < symtab.nsym := hk.1
  have hv1 : (symtab.sym (j + 1)).st_value ≤ (symtab.sym k).st_value := by
    rcases Nat.lt_or_ge (j + 1) k with h | h
    · exact Nat.le_of_lt (hsorted (j + 1) k h hk1)
    · have : j + 1 = k := by omega
      rw [this]
  have hd := hdisj j (by omega)
  have hle := hk.2.1
  rcases hj.2.2 with h | ⟨_, h | h⟩ <;> omega

/-- Counterexample to C17 as stated. In the strictly sorted table
`overlapping_symbols`, `lookup_symbol(30)` reports start 10 although the last
entry, which starts at 20, also encloses 30 and has the greater start. In the
strictly sorted table `nested_symbols` entry 0 (`[0, 1000)`) encloses 17, yet
`lookup_symbol(17)` returns false. -/
theorem lookup_symbol_tightest_counterexample :
    (List.Pairwise (fun a b => a.st_value < b.st_value) overlapping_symbols ∧
      (lookup_symbol 0x58000 0x58000 0 (symtab_of_list overlapping_symbols 0x2000000) 30).1
        = some (some (0x2000000 + 8, 10)) ∧
      (symtab_of_list overlapping_symbols 0x2000000).encloses 30 2 ∧
      ((symtab_of_list overlapping_symbols 0x2000000).sym 2).st_value = 20) ∧
    (List.Pairwise (fun a b => a.st_value < b.st_value) nested_symbols ∧
      (symtab_of_list nested_symbols 0x2000000).encloses 17 0 ∧
      (lookup_symbol 0x58000 0x58000 0 (symtab_of_list nested_symbols 0x2000000) 17).1
        = some none) := by
  decide

/-- Claim C17, amended: for every symbol table whose start addresses are
strictly increasing and whose entries do not overlap (each entry ends at or
before the start of the next one, and no end wraps around `2^64`), and every
`addr`: when the active paging root is not the kernel page table
`lookup_symbol` returns false; when it is, `lookup_symbol` returns true if and
only if some entry encloses `addr`, and when it returns true the reported name
and start are those of an enclosing entry whose start is the greatest among
the enclosing entries (under these hypotheses the enclosing entry is unique). -/
theorem lookup_symbol_tightest (cr3 kernel_pagetable pt_entry : Nat)
    (symtab : elf_symtabref) (addr : Nat)
    (hsorted : ∀ i j, i < j → j < symtab.nsym →
      (symtab.sym i).st_value < (symtab.sym j).st_value)
    (hdisj : ∀ i, i + 1 < symtab.nsym →
      (symtab.sym i).st_value + (symtab.sym i).st_size ≤ (symtab.sym (i + 1)).st_value)
    (hwrap : ∀ i, i < symtab.nsym →
      (symtab.sym i).st_value + (symtab.sym i).st_size < 2 ^ 64) :
    (cr3 ≠ kernel_pagetable →
      (lookup_symbol cr3 kernel_pagetable pt_entry symtab addr).1 = some none) ∧
    (cr3 = kernel_pagetable →
      ((∃ nm st, (lookup_symbol cr3 kernel_pagetable pt_entry symtab addr).1
          = some (some (nm, st))) ↔ ∃ k, symtab.encloses addr k) ∧
      ((lookup_symbol cr3 kernel_pagetable pt_entry symtab addr).1 = some none
        ↔ ¬ ∃ k, symtab.encloses addr k) ∧
      (∀ nm st, (lookup_symbol cr3 kernel_pagetable pt_entry symtab addr).1
          = some (some (nm, st)) →
        ∃ k, symtab.encloses addr k ∧ st = (symtab.sym k).st_value ∧
          nm = symtab.strtab + (symtab.sym k).st_name ∧
          ∀ j, symtab.encloses addr j → (symtab.sym j).st_value ≤ (symtab.sym k).st_value)) := by
  constructor
  · intro h
    simp [lookup_symbol, h]
  · intro h
    have hrun : (lookup_symbol cr3 kernel_pagetable pt_entry symtab addr).1
        = lookup_loop symtab addr symtab.nsym 0 symtab.nsym := by
      simp [lookup_symbol, h]
    rw [hrun]
    have hshape := lookup_loop_shape symtab addr hwrap symtab.nsym 0 symtab.nsym (le_refl _)
      (by omega)
    have hfound : ∀ k, symtab.encloses addr k →
        lookup_loop symtab addr symtab.nsym 0 symtab.nsym
          = some (some (symtab.strtab + (symtab.sym k).st_name, (symtab.sym k).st_value)) :=
      fun k hk => lookup_loop_found symtab addr k hsorted hdisj hwrap hk symtab.nsym 0
        symtab.nsym (Nat.zero_le _) hk.1 (le_refl _) (by omega)
    refine ⟨⟨?_, ?_⟩, ⟨?_, ?_⟩, ?_⟩
    · rintro ⟨nm, st, he⟩
      rcases hshape with h0 | ⟨m, hm, _⟩
      · rw [h0] at he; cases he
      · exact ⟨m, hm⟩
    · rintro ⟨k, hk⟩
      exact ⟨_, _, hfound k hk⟩
    · rintro he ⟨k, hk⟩
      rw [hfound k hk] at he
      cases he
    · intro hno
      rcases hshape with h0 | ⟨m, hm, _⟩
      · exact h0
      · exact absurd ⟨m, hm⟩ hno
    · intro nm st he
      rcases hshape with h0 | ⟨m, hm, hres⟩
      · rw [h0] at he; cases he
      · rw [hres] at he
        injection he with he
        injection he with he
        injection he with he1 he2
        refine ⟨m, hm, he2.symm, he1.symm, fun j hj => ?_⟩
        rcases Nat.lt_trichotomy j m with hjm | hjm | hjm
        · exact absurd (encloses_unique symtab addr j m hsorted hdisj hj hm hjm) id
        · rw [hjm]
        · exact absurd (encloses_unique symtab addr m j hsorted hdisj hm hj hjm) id

/-- Witness for C17 (amended): `example_symbols` under the kernel paging
root, looked up at an address inside its third entry. -/
theorem lookup_symbol_tightest_witness :
    (lookup_symbol 0x58000 0x58000 0 (symtab_of_list example_symbols 0x2000000) 0x40210).1
      = some (some (0x2000000 + 16, 0x40200)) := by
  have h := (lookup_symbol_tightest 0x58000 0x58000 0 (symtab_of_list example_symbols 0x2000000)
    0x40210
    (by
      intro i j hij hj
      have hj4 : j < 4 := hj
      interval_cases j <;> interval_cases i <;> decide)
    (by
      intro i hi
      have hi4 : i + 1 < 4 := hi
      have hi3 : i < 3 := by omega
      interval_cases i <;> decide)
    (by
      intro i hi
      have hi4 : i < 4 := hi
      interval_cases i <;> decide)).2 rfl
  obtain ⟨nm, st, he⟩ := h.1.2 ⟨2, by decide⟩
  obtain ⟨k, hk, hst, hnm, _⟩ := h.2.2 nm st he
  have hk2 : k = 2 := by
    have hk4 : k < 4 := hk.1
    interval_cases k
    · exact absurd hk (by decide)
    · exact absurd hk (by decide)
    · rfl
    · exact absurd hk (by decide)
  subst hk2
  rw [he, hst, hnm]
  rfl

/-! ## Claim C18: the kernel page table leaves address zero unmapped -/

theorem init_kernel_memory_loop_spec :
    ∀ fuel (it : vmiter), it.va_ % PAGESIZE = 0 →
      (MEMSIZE_PHYSICAL - it.va_) / PAGESIZE + 1 ≤ fuel →
      ∃ fin, init_kernel_memory_loop fuel it = some fin ∧
        ∀ v, fin.pt v =
          if v % PAGESIZE = 0 ∧ it.va_ ≤ v ∧ v < MEMSIZE_PHYSICAL ∧ v ≠ 0 then
            some (v, PTE_P ||| PTE_W ||| PTE_U)
          else it.pt v := by
  have hP : PAGESIZE = 4096 := rfl
  have hM : MEMSIZE_PHYSICAL = 0x200000 := rfl
  intro fuel
  induction fuel with
  | zero => intro it _ h; exact absurd h (Nat.not_succ_le_zero _)
  | succ f ih =>
    intro it hal hf
    rw [init_kernel_memory_loop]
    by_cases hlt : it.va < MEMSIZE_PHYSICAL
    · have hlt1 : it.va_ < MEMSIZE_PHYSICAL := hlt
      simp only [hlt, if_true]
      by_cases h0 : it.va = 0
      · have h00 : it.va_ = 0 := h0
        simp only [h0, ne_eq, not_true_eq_false, if_false]
        obtain ⟨fin, g1, g2⟩ := ih (it.advance PAGESIZE)
          (by simp only [vmiter.advance]; rw [hP] at hal ⊢; omega)
          (by simp only [vmiter.advance]; rw [hP, hM] at *; omega)
        refine ⟨fin, g1, fun v => ?_⟩
        rw [g2 v]
        simp only [vmiter.advance, h00, Nat.zero_add]
        by_cases hv : v % PAGESIZE = 0 ∧ PAGESIZE ≤ v ∧ v < MEMSIZE_PHYSICAL ∧ v ≠ 0
        · rw [if_pos hv, if_pos ⟨hv.1, Nat.zero_le _, hv.2.2.1, hv.2.2.2⟩]
        · rw [if_neg hv, if_neg]
          rintro ⟨a1, _, a3, a4⟩
          apply hv
          refine ⟨a1, ?_, a3, a4⟩
          rw [hP] at a1 ⊢
          omega
      · have h00 : it.va_ ≠ 0 := h0
        simp only [h0, ne_eq, not_false_eq_true, if_true]
        obtain ⟨fin, g1, g2⟩ := ih ((it.map it.va (PTE_P ||| PTE_W ||| PTE_U)).advance PAGESIZE)
          (by simp only [vmiter.advance, vmiter.map]; rw [hP] at hal ⊢; omega)
          (by simp only [vmiter.advance, vmiter.map]; rw [hP, hM] at *; omega)
        refine ⟨fin, g1, fun v => ?_⟩
        rw [g2 v]
        simp only [vmiter.advance, vmiter.map, vmiter.va]
        by_cases hv : v % PAGESIZE = 0 ∧ it.va_ + PAGESIZE ≤ v ∧ v < MEMSIZE_PHYSICAL ∧ v ≠ 0
        · rw [if_pos hv, if_pos ⟨hv.1, by omega, hv.2.2.1, hv.2.2.2⟩]
        · rw [if_neg hv]
          by_cases hvv : v = it.va_
          · rw [if_pos hvv, if_pos ⟨by rw [hvv]; exact hal, by omega, by rw [hvv]; exact hlt1,
              by rw [hvv]; exact h00⟩, hvv]
          · rw [if_neg hvv, if_neg]
            rintro ⟨a1, a2, a3, a4⟩
            apply hv
            refine ⟨a1, ?_, a3, a4⟩
            rw [hP] at a1 hal ⊢
            omega
    · have hlt1 : ¬ it.va_ < MEMSIZE_PHYSICAL := hlt
      simp only [hlt, if_false]
      refine ⟨it, rfl, fun v => ?_⟩
      rw [if_neg]
      rintro ⟨_, a2, a3, _⟩
      omega

/-- Claim C18: the mapping loop of `init_kernel_memory` finishes, and
afterwards every page-aligned virtual address `va` with
`0 < va < MEMSIZE_PHYSICAL` is mapped to physical address `va` with
permissions `PTE_P | PTE_W | PTE_U`, while the loop installs no mapping for
virtual address 0 (nor for any other address): address 0 is the only
page-aligned address below `MEMSIZE_PHYSICAL` that is skipped. -/
theorem init_kernel_memory_maps (pt0 : Nat → Option (Nat × Nat)) (va : Nat) :
    ∃ pt, init_kernel_memory_mappings pt0 = some pt ∧
      (va % PAGESIZE = 0 → 0 < va → va < MEMSIZE_PHYSICAL →
        pt va = some (va, PTE_P ||| PTE_W ||| PTE_U)) ∧
      pt 0 = pt0 0 ∧
      (¬ (va % PAGESIZE = 0 ∧ 0 < va ∧ va < MEMSIZE_PHYSICAL) → pt va = pt0 va) := by
  obtain ⟨fin, h1, h2⟩ := init_kernel_memory_loop_spec (MEMSIZE_PHYSICAL / PAGESIZE + 1)
    { pt := pt0, va_ := 0 } rfl (by simp)
  refine ⟨fin.pt, by simp [init_kernel_memory_mappings, h1], ?_, ?_, ?_⟩
  · intro a1 a2 a3
    rw [h2 va, if_pos ⟨a1, Nat.zero_le _, a3, by omega⟩]
  · rw [h2 0, if_neg (by simp)]
  · intro hn
    rw [h2 va, if_neg]
    rintro ⟨a1, _, a3, a4⟩
    exact hn ⟨a1, by omega, a3⟩

/-! ## Claim C19: `set_gate` rejects out-of-range parameters -/

theorem unsigned_lt_iff (x : Int) (n : Nat) (hn : n ≤ 16)
    (hx : -2 ^ 31 ≤ x ∧ x < 2 ^ 31) : unsigned x < n ↔ (0 ≤ x ∧ x < n) := by
  unfold unsigned
  norm_num at hx ⊢
  omega

/-- Claim C19: for every address and all `int` values `type`, `dpl`, `ist`
(32-bit signed), the assertion of `set_gate` fails if and only if `type` is
outside `[0, 16)` or `dpl` is outside `[0, 4)` or `ist` is outside `[0, 8)`,
negative values included; and when it fails the descriptor `*gate` keeps its
old contents. -/
theorem set_gate_rejects (gate : x86_64_gatedescriptor) (addr : Nat) (type dpl ist : Int)
    (ht : -2 ^ 31 ≤ type ∧ type < 2 ^ 31) (hd : -2 ^ 31 ≤ dpl ∧ dpl < 2 ^ 31)
    (hi : -2 ^ 31 ≤ ist ∧ ist < 2 ^ 31) :
    (set_gate gate addr type dpl ist = none ↔
      (type < 0 ∨ 16 ≤ type) ∨ (dpl < 0 ∨ 4 ≤ dpl) ∨ (ist < 0 ∨ 8 ≤ ist)) ∧
    (set_gate gate addr type dpl ist = none →
      gate_after gate (set_gate gate addr type dpl ist) = gate) ∧
    ((∃ g, set_gate gate addr type dpl ist = some g) ↔
      (0 ≤ type ∧ type < 16) ∧ (0 ≤ dpl ∧ dpl < 4) ∧ (0 ≤ ist ∧ ist < 8)) := by
  have h1 := unsigned_lt_iff type 16 (by omega) ht
  have h2 := unsigned_lt_iff dpl 4 (by omega) hd
  have h3 := unsigned_lt_iff ist 8 (by omega) hi
  simp only [Nat.cast_ofNat] at h1 h2 h3
  refine ⟨?_, fun h => by rw [h]; rfl, ?_⟩
  · unfold set_gate
    by_cases hc : unsigned type < 16 ∧ unsigned dpl < 4 ∧ unsigned ist < 8
    · rw [if_pos hc]
      rw [h1, h2, h3] at hc
      constructor
      · intro h; cases h
      · intro h; omega
    · rw [if_neg hc]
      rw [h1, h2, h3] at hc
      constructor
      · intro _; omega
      · intro _; rfl
  · unfold set_gate
    by_cases hc : unsigned type < 16 ∧ unsigned dpl < 4 ∧ unsigned ist < 8
    · rw [if_pos hc]
      rw [h1, h2, h3] at hc
      exact ⟨fun _ => hc, fun _ => ⟨_, rfl⟩⟩
    · rw [if_neg hc]
      rw [h1, h2, h3] at hc
      constructor
      · rintro ⟨g, h⟩; cases h
      · intro h; exact absurd h hc

/-- Witness for C19: a negative privilege level is rejected and the descriptor
keeps its contents. -/
theorem set_gate_rejects_witness :
    set_gate ⟨0x41234, 0⟩ 0x41234 14 (-1) 0 = none ∧
      gate_after ⟨0x41234, 0⟩ (set_gate ⟨0x41234, 0⟩ 0x41234 14 (-1) 0) = ⟨0x41234, 0⟩ :=
  have h := set_gate_rejects ⟨0x41234, 0⟩ 0x41234 14 (-1) 0 (by decide) (by decide) (by decide)
  ⟨h.1.2 (Or.inr (Or.inl (Or.inl (by decide)))),
    h.2.1 (h.1.2 (Or.inr (Or.inl (Or.inl (by decide)))))⟩

/-! ## Claim C20: frame validity of the backtrace cursor -/

/-- Claim C20 fails on the code: `ok()` subtracts on unsigned 64-bit words, so
a frame pointer above the stack top passes the check. For
`log_backtrace(prefix, rsp = 0x7EFF0, rbp = 0x7F100)` the stack top is
`round_up(rsp, PAGESIZE) = 0x7F000`, `ok()` is true, and the frame record
`[0x7F100, 0x7F110)` that `ret_rip()` and `step()` then read is not inside
`[rsp, stack_top)`: `rbp + 16 <= stack_top` does not hold. -/
theorem backtracer_ok_above_stack_top :
    (backtracer.start 0x7EFF0 0x7F100).stack_top_ = 0x7F000 ∧
      (backtracer.start 0x7EFF0 0x7F100).ok = true ∧
      ¬ ((backtracer.start 0x7EFF0 0x7F100).rbp_ + 16
          ≤ (backtracer.start 0x7EFF0 0x7F100).stack_top_) := by
  decide

/-! ## Claim C21: termination of the backtrace walk -/

theorem and_3_eq_shift_or_control (m : Nat) :
    m &&& 3 = (m &&& MOD_SHIFT) ||| (m &&& MOD_CONTROL) := by
  have h : (3 : Nat) = MOD_SHIFT ||| MOD_CONTROL := by decide
  rw [h]
  apply Nat.eq_of_testBit_eq
  intro j
  simp only [Nat.testBit_and, Nat.testBit_or, Bool.and_or_distrib_left]

theorem xor_capslock_and_3 (m : Nat) : (m ^^^ MOD_CAPSLOCK) &&& 3 = m &&& 3 := by
  have h3 : (3 : Nat) = 2 ^ 2 - 1 := by decide
  have h8 : MOD_CAPSLOCK = 2 ^ 3 := by decide
  rw [h3, h8]
  apply Nat.eq_of_testBit_eq
  intro j
  simp only [Nat.testBit_and, Nat.testBit_xor, Nat.testBit_two_pow_sub_one, Nat.testBit_two_pow]
  by_cases hj : j < 2
  · have hne : ¬ 3 = j := by omega
    simp [hj, hne]
  · simp [hj]

/-- Claim C22: for every state and every key-press byte `d` with keymap entry
`ch`: if `ch` is a direct character below 0x80 that is not a letter `a`..`z`,
`keyboard_readc` returns 0 when control is held and `ch` otherwise, whatever
the other modifier bits; if `ch` is a complex key `CKEY(0)`..`CKEY(21)`, it
returns `complex_keymap[ch - CKEY(0)].map[modifiers & 3]`, where
`modifiers & 3` consists of the shift and control bits only and is unchanged
by toggling caps-lock, so with caps-lock alone the unshifted `map[0]` is
returned. The modifiers are left unchanged. -/
theorem keyboard_readc_nonletter (s : keyboard_state) (d : Nat) (hd : d < 0x80) :
    (keymap.getD (d ||| s.last_escape) 0 < 0x80 →
      ¬ (97 ≤ keymap.getD (d ||| s.last_escape) 0 ∧ keymap.getD (d ||| s.last_escape) 0 ≤ 122) →
      keyboard_readc s (some d)
        = ((if s.modifiers &&& MOD_CONTROL ≠ 0 then 0
            else ((keymap.getD (d ||| s.last_escape) 0 : Nat) : Int)),
           ⟨s.modifiers, 0⟩)) ∧
    (CKEY 0 ≤ keymap.getD (d ||| s.last_escape) 0 →
      keymap.getD (d ||| s.last_escape) 0 ≤ CKEY 21 →
      keyboard_readc s (some d)
        = ((((complex_keymap.getD (keymap.getD (d ||| s.last_escape) 0 - CKEY 0) []).getD
              (s.modifiers &&& 3) 0 : Nat) : Int), ⟨s.modifiers, 0⟩) ∧
      (s.modifiers = MOD_CAPSLOCK →
        (keyboard_readc s (some d)).1
          = (((complex_keymap.getD (keymap.getD (d ||| s.last_escape) 0 - CKEY 0) []).getD
              0 0 : Nat) : Int))) ∧
    s.modifiers &&& 3 = (s.modifiers &&& MOD_SHIFT) ||| (s.modifiers &&& MOD_CONTROL) ∧
    (s.modifiers ^^^ MOD_CAPSLOCK) &&& 3 = s.modifiers &&& 3 := by
  have hKS : KEY_SHIFT = 250 := by decide
  have hKC : KEY_CAPSLOCK = 253 := by decide
  have hC0 : CKEY 0 = 128 := by decide
  have hC21 : CKEY 21 = 149 := by decide
  have hcomplex : CKEY 0 ≤ keymap.getD (d ||| s.last_escape) 0 →
      keymap.getD (d ||| s.last_escape) 0 ≤ CKEY 21 →
      keyboard_readc s (some d)
        = ((((complex_keymap.getD (keymap.getD (d ||| s.last_escape) 0 - CKEY 0) []).getD
              (s.modifiers &&& 3) 0 : Nat) : Int), ⟨s.modifiers, 0⟩) := by
    intro h1 h2
    rw [keyboard_press_cases s d hd]
    simp only []
    rw [hC0] at h1
    rw [hC21] at h2
    rw [if_neg (by omega), if_neg (by rw [hKC]; omega), if_neg (by rw [hKS]; omega),
      if_pos (by rw [hC0, hC21]; exact ⟨h1, h2⟩)]
  refine ⟨?_, ?_, and_3_eq_shift_or_control _, xor_capslock_and_3 _⟩
  · intro h1 h2
    rw [keyboard_press_cases s d hd]
    simp only []
    rw [if_neg h2, if_neg (by rw [hKC]; omega), if_neg (by rw [hKS]; omega),
      if_neg (by rw [hC0]; omega)]
    by_cases hc : s.modifiers &&& MOD_CONTROL ≠ 0
    · rw [if_pos ⟨h1, hc⟩, if_pos hc]
    · rw [if_neg (fun h => hc h.2), if_neg hc]
  · intro h1 h2
    refine ⟨hcomplex h1 h2, fun hcaps => ?_⟩
    rw [hcomplex h1 h2, hcaps]
    rfl

/-- Witness for C22: the space bar (scancode 0x39) pressed while control is
held returns 0. -/
theorem keyboard_readc_nonletter_witness :
    keyboard_readc ⟨MOD_CONTROL, 0⟩ (some 0x39) = (0, ⟨MOD_CONTROL, 0⟩) :=
  (keyboard_readc_nonletter ⟨MOD_CONTROL, 0⟩ 0x39 (by decide)).1 (by decide) (by decide)

end K
